import Mathlib

/-!
# Wide (128-bit) lock-free atomics of the aarch64 backend

A shallow embedding of `platform/linux-generic/arch/aarch64/odp_atomic.h` and
`odp_cpu.h`: the order mapper (`HAS_ACQ`, `HAS_RLS`, `LL_MO`, `SC_MO`), the
exclusive-access helpers `lld` / `scd`, the paired-register `cas_u128`, the two
variants of `__lockfree_compare_exchange_16` and the self-CAS load
`__lockfree_load_16`.

The 128-bit word (`_odp_u128_t`) is a natural number below `2 ^ 128`; its two 64-bit halves are
`lo64` (register / `i64[0]`) and `hi64` (register / `i64[1]`).  What other agents
do to the word while a call runs is an explicit input (`Round`), so that every
function is a total, executable function of the stored word and of that input.

Further parts: the capability query (`lockfree_check_u128` of both backends),
the standard random generator of `odp_random_std.c` with the kind dispatch of
`odp_random.c` (stores to the buffer are recorded as `Store`s), and the two
checks of `odp_event_vector.c`.
-/

namespace Odp

/-- Embeds `(uint64_t)v`: the low 64 bits. -/
def lo64 (v : Nat) : Nat := v % 2 ^ 64

/-- Embeds `(uint64_t)(v >> 64)`: the high 64 bits. -/
def hi64 (v : Nat) : Nat := (v >>> 64) % 2 ^ 64

/-- Embeds `((_odp_u128_t)r0) | (((_odp_u128_t)r1) << 64)`: a register pair as one word. -/
def pair128 (r0 r1 : Nat) : Nat := (r0 ||| (r1 <<< 64)) % 2 ^ 128

/-! ## Memory orders (the compiler's `__ATOMIC_*` constants) -/

def ATOMIC_RELAXED : Int := 0
def ATOMIC_CONSUME : Int := 1
def ATOMIC_ACQUIRE : Int := 2
def ATOMIC_RELEASE : Int := 3
def ATOMIC_ACQ_REL : Int := 4
def ATOMIC_SEQ_CST : Int := 5

/-- The four abstract memory orders of the data model. -/
inductive MemoryOrder where
  | Relaxed
  | Acquire
  | Release
  | AcquireRelease
  deriving DecidableEq, Repr

/-- The integer the compiler gives to an abstract order. -/
def MemoryOrder.toInt : MemoryOrder → Int
  | .Relaxed => ATOMIC_RELAXED
  | .Acquire => ATOMIC_ACQUIRE
  | .Release => ATOMIC_RELEASE
  | .AcquireRelease => ATOMIC_ACQ_REL

/-- Embeds `#define HAS_ACQ(mo) ((mo) != __ATOMIC_RELAXED && (mo) != __ATOMIC_RELEASE)` -/
def HAS_ACQ (mo : Int) : Bool := mo != ATOMIC_RELAXED && mo != ATOMIC_RELEASE

/-- Embeds `#define HAS_RLS(mo) ((mo) == __ATOMIC_RELEASE || (mo) == __ATOMIC_ACQ_REL ||
(mo) == __ATOMIC_SEQ_CST)` -/
def HAS_RLS (mo : Int) : Bool :=
  mo == ATOMIC_RELEASE || mo == ATOMIC_ACQ_REL || mo == ATOMIC_SEQ_CST

/-- Embeds `#define LL_MO(mo) (HAS_ACQ((mo)) ? __ATOMIC_ACQUIRE : __ATOMIC_RELAXED)` -/
def LL_MO (mo : Int) : Int := if HAS_ACQ mo then ATOMIC_ACQUIRE else ATOMIC_RELAXED

/-- Embeds `#define SC_MO(mo) (HAS_RLS((mo)) ? __ATOMIC_RELEASE : __ATOMIC_RELAXED)` -/
def SC_MO (mo : Int) : Int := if HAS_RLS mo then ATOMIC_RELEASE else ATOMIC_RELAXED

/-! ## The machine: one 128-bit word, its exclusive monitor, the instructions issued -/

/-- The instruction forms the backend can issue. -/
inductive Insn where
  | ldxp
  | ldaxp
  | stxp
  | stlxp
  | casp
  | caspa
  | caspal
  | caspl
  deriving DecidableEq, Repr

/-- One issued instruction: its form, the 128-bit value it loaded (loads, `casp*`)
or was given to store (stores), and the status it produced (`0` for loads and for
a store that took effect, `1` for a store-exclusive that did not). -/
structure Event where
  insn : Insn
  val : Nat
  status : Nat
  deriving DecidableEq, Repr

/-- How a call can stop without returning. -/
inductive Fault where
  | assertion
  | abort
  | starved
  deriving DecidableEq, Repr

/-- The shared word `*var` with the state of this agent's exclusive monitor and
the instructions issued so far. -/
structure Machine where
  mem : Nat
  monitor : Bool
  trace : List Event
  deriving DecidableEq, Repr

/-- What the other agents do during one exclusive load / exclusive store attempt.
Every entry of `w1`, `w2`, `w3` is a whole 128-bit value stored to the word by
another agent: `w1` lands before the first register of the pair is loaded, `w2`
between the loads of the two registers, `w3` between the exclusive load and the
exclusive store.  `lost` says that the monitor is cleared for another reason. -/
structure Round where
  w1 : List Nat
  w2 : List Nat
  w3 : List Nat
  lost : Bool
  deriving DecidableEq, Repr

/-- The word after the stores `ws` of other agents, the last one winning. -/
def applyWrites (mem : Nat) (ws : List Nat) : Nat :=
  ws.foldl (fun _ w => w) mem

/-- Modelled from the spec: the macro `_ODP_ASSERT` is used by `lld`, `scd` and the
event-vector code but is not defined among the sources.  Following the spec (a
contract violation is an assertion failure in debug builds, never a returned
error code) a false `cond` stops the call with `Fault.assertion` and a true one
continues. -/
def ODP_ASSERT (cond : Bool) : Except Fault Unit :=
  if cond then .ok () else .error .assertion

/-- Embeds `lld(var, mm)`: the exclusive load of the register pair (`ldaxp` / `ldxp`).
The two registers are loaded one after the other; the monitor stays armed only
when no other agent stored to the word in between. -/
def lld (var : Machine) (mm : Int) (r : Round) : Except Fault (Nat × Machine) :=
  match ODP_ASSERT (mm == ATOMIC_ACQUIRE || mm == ATOMIC_RELAXED) with
  | .error f => .error f
  | .ok _ =>
    let m1 := applyWrites var.mem r.w1
    let m2 := applyWrites m1 r.w2
    let old0 := lo64 m1
    let old1 := hi64 m2
    let old := old0 + old1 * 2 ^ 64
    let insn := if mm == ATOMIC_ACQUIRE then Insn.ldaxp else Insn.ldxp
    .ok (old, { mem := m2, monitor := r.w2.isEmpty,
                trace := var.trace ++ [{ insn := insn, val := old, status := 0 }] })

/-- Embeds `scd(var, neu, mm)`: the exclusive store of the register pair (`stlxp` /
`stxp`); returns 0 on success, 1 on failure.  It takes effect only when the
monitor is still armed, that is when no other agent stored to the word since the
exclusive load began and the monitor was not lost. -/
def scd (var : Machine) (neu : Nat) (mm : Int) (r : Round) : Except Fault (Nat × Machine) :=
  match ODP_ASSERT (mm == ATOMIC_RELEASE || mm == ATOMIC_RELAXED) with
  | .error f => .error f
  | .ok _ =>
    let m3 := applyWrites var.mem r.w3
    let insn := if mm == ATOMIC_RELEASE then Insn.stlxp else Insn.stxp
    if var.monitor && r.w3.isEmpty && !r.lost then
      .ok (0, { mem := lo64 neu + hi64 neu * 2 ^ 64, monitor := false,
                trace := var.trace ++ [{ insn := insn, val := neu, status := 0 }] })
    else
      .ok (1, { mem := m3, monitor := false,
                trace := var.trace ++ [{ insn := insn, val := neu, status := 1 }] })

/-- What `__lockfree_compare_exchange_16` leaves: its return value, the caller's
`*exp` and the machine. -/
structure CasResult where
  ret : Bool
  exp : Nat
  var : Machine
  deriving DecidableEq, Repr

namespace LLSC

/-- The `do { old = lld(var, ll_mo); } while (scd(var, old == expected ? neu : old,
sc_mo))` loop, one `Round` of the environment per iteration; it returns the `old`
of the iteration whose store took effect. -/
def cas_loop (expected neu : Nat) (ll_mo sc_mo : Int) :
    Machine → List Round → Except Fault (Nat × Machine)
  | _, [] => .error .starved
  | var, r :: rs =>
    match lld var ll_mo r with
    | .error f => .error f
    | .ok (old, v1) =>
      match scd v1 (if old == expected then neu else old) sc_mo r with
      | .error f => .error f
      | .ok (st, v2) =>
        if st != 0 then cas_loop expected neu ll_mo sc_mo v2 rs
        else .ok (old, v2)

/-- Embeds `__lockfree_compare_exchange_16`, the variant built on `lld` / `scd`. -/
def __lockfree_compare_exchange_16 (var : Machine) (exp neu : Nat) (weak : Bool)
    (mo_success mo_failure : Int) (env : List Round) : Except Fault CasResult :=
  let _ := weak
  let _ := mo_failure
  let ll_mo := LL_MO mo_success
  let sc_mo := SC_MO mo_success
  let expected := exp
  match cas_loop expected neu ll_mo sc_mo var env with
  | .error f => .error f
  | .ok (old, v) => .ok { ret := old == expected, exp := old, var := v }

end LLSC

/-- Embeds `_odp_u128_t old = *var;` (possibly torn): the plain read that opens
`__lockfree_load_16`.  Undisturbed (`none`) it yields the stored word; when it
races with a writer it may yield any value `c` (`some c`). -/
def plain_read (var : Machine) (torn : Option Nat) : Nat :=
  match torn with
  | none => var.mem
  | some c => c

/-- Calls `f` once per element of `calls`, in order on the same machine, and
collects the values returned. -/
def call_each {α : Type} (f : Machine → α → Except Fault (Nat × Machine)) :
    Machine → List α → Except Fault (List Nat × Machine)
  | var, [] => .ok ([], var)
  | var, c :: cs =>
    match f var c with
    | .error e => .error e
    | .ok (x, v1) =>
      match call_each f v1 cs with
      | .error e => .error e
      | .ok (xs, v2) => .ok (x :: xs, v2)

namespace LLSC

/-- Embeds `__lockfree_load_16`: a plain read, then a compare-exchange of the value read
with itself; the value returned is the one the compare-exchange left in `old`. -/
def __lockfree_load_16 (var : Machine) (mo : Int) (torn : Option Nat)
    (env : List Round) : Except Fault (Nat × Machine) :=
  let old := plain_read var torn
  match __lockfree_compare_exchange_16 var old old false mo mo env with
  | .error f => .error f
  | .ok res => .ok (res.exp, res.var)

/-- Embeds `lockfree_load_u128`: the load with `__ATOMIC_RELAXED`. -/
def lockfree_load_u128 (atomic : Machine) (torn : Option Nat) (env : List Round) :
    Except Fault (Nat × Machine) :=
  __lockfree_load_16 atomic ATOMIC_RELAXED torn env

/-- Embeds `lockfree_cas_acq_rel_u128`: `old_val` is a by-value copy, the result an `int`. -/
def lockfree_cas_acq_rel_u128 (atomic : Machine) (old_val new_val : Nat)
    (env : List Round) : Except Fault (Int × Machine) :=
  match __lockfree_compare_exchange_16 atomic old_val new_val false
      ATOMIC_ACQ_REL ATOMIC_RELAXED env with
  | .error f => .error f
  | .ok res => .ok (if res.ret then 1 else 0, res.var)

/-- Embeds `lockfree_check_u128` of the aarch64 backends. -/
def lockfree_check_u128 : Int := 1

end LLSC

namespace CASP

/-- One `casp` / `caspa` / `caspal` / `caspl` instruction, a single atomic step:
the register pair `(old0, old1)` is compared with the two halves of the word,
`(new0, new1)` is stored when both are equal, and the halves that were read come
back in `(old0, old1)`. -/
def casp_insn (form : Insn) (ptr : Machine) (old0 old1 new0 new1 : Nat) :
    Nat × Nat × Machine :=
  let m0 := lo64 ptr.mem
  let m1 := hi64 ptr.mem
  let mem1 := if m0 == old0 && m1 == old1 then new0 + new1 * 2 ^ 64 else ptr.mem
  (m0, m1, { mem := mem1, monitor := ptr.monitor,
             trace := ptr.trace ++ [{ insn := form, val := m0 + m1 * 2 ^ 64, status := 0 }] })

/-- Embeds `cas_u128(ptr, old_val, new_val, mo)`; `pre` are the stores of other agents
that land before the instruction executes. -/
def cas_u128 (ptr : Machine) (old_val new_val : Nat) (mo : Int) (pre : List Nat) :
    Except Fault (Nat × Machine) :=
  let old0 := lo64 old_val
  let old1 := hi64 old_val
  let new0 := lo64 new_val
  let new1 := hi64 new_val
  let now : Machine := { ptr with mem := applyWrites ptr.mem pre }
  let done : Except Fault (Nat × Nat × Machine) :=
    if mo == ATOMIC_RELAXED then .ok (casp_insn .casp now old0 old1 new0 new1)
    else if mo == ATOMIC_ACQUIRE then .ok (casp_insn .caspa now old0 old1 new0 new1)
    else if mo == ATOMIC_ACQ_REL then .ok (casp_insn .caspal now old0 old1 new0 new1)
    else if mo == ATOMIC_RELEASE then .ok (casp_insn .caspl now old0 old1 new0 new1)
    else .error .abort
  match done with
  | .error f => .error f
  | .ok (r0, r1, v) => .ok (pair128 r0 r1, v)

/-- Embeds `__lockfree_compare_exchange_16`, the variant built on `cas_u128`. -/
def __lockfree_compare_exchange_16 (var : Machine) (exp neu : Nat) (weak : Bool)
    (mo_success mo_failure : Int) (pre : List Nat) : Except Fault CasResult :=
  let _ := weak
  let _ := mo_failure
  let expected := exp
  match cas_u128 var expected neu mo_success pre with
  | .error f => .error f
  | .ok (old, v) => .ok { ret := old == expected, exp := old, var := v }

/-- Embeds `__lockfree_load_16`, compiled against the `cas_u128` variant. -/
def __lockfree_load_16 (var : Machine) (mo : Int) (torn : Option Nat)
    (pre : List Nat) : Except Fault (Nat × Machine) :=
  let old := plain_read var torn
  match __lockfree_compare_exchange_16 var old old false mo mo pre with
  | .error f => .error f
  | .ok res => .ok (res.exp, res.var)

/-- Embeds `lockfree_load_u128`: the load with `__ATOMIC_RELAXED`. -/
def lockfree_load_u128 (atomic : Machine) (torn : Option Nat) (pre : List Nat) :
    Except Fault (Nat × Machine) :=
  __lockfree_load_16 atomic ATOMIC_RELAXED torn pre

/-- Embeds `lockfree_cas_acq_rel_u128`: `old_val` is a by-value copy, the result an `int`. -/
def lockfree_cas_acq_rel_u128 (atomic : Machine) (old_val new_val : Nat)
    (pre : List Nat) : Except Fault (Int × Machine) :=
  match __lockfree_compare_exchange_16 atomic old_val new_val false
      ATOMIC_ACQ_REL ATOMIC_RELAXED pre with
  | .error f => .error f
  | .ok res => .ok (if res.ret then 1 else 0, res.var)

/-- Embeds `lockfree_check_u128` of the aarch64 backends. -/
def lockfree_check_u128 : Int := 1

end CASP

/-! ## Reference notions used to state the properties -/

/-- A round in which the store-exclusive takes effect. -/
def Round.clean (r : Round) : Bool := r.w2.isEmpty && r.w3.isEmpty && !r.lost

/-- A round in which no other agent stores to the word. -/
def Round.silent (r : Round) : Bool := r.w1.isEmpty && r.w2.isEmpty && r.w3.isEmpty

/-- All stores of other agents in a round, in order. -/
def Round.writes (r : Round) : List Nat := r.w1 ++ r.w2 ++ r.w3

/-- The value the word holds at the moment the compare-exchange takes effect:
the word as left by the stores of other agents up to the exclusive load of the
first clean round. -/
def observed (mem : Nat) : List Round → Option Nat
  | [] => none
  | r :: rs =>
    if r.clean then some (applyWrites mem r.w1)
    else observed (applyWrites mem r.writes) rs

/-- Every value other agents store during the rounds up to the first clean one. -/
def history : List Round → List Nat
  | [] => []
  | r :: rs => if r.clean then r.w1 else r.writes ++ history rs

/-- All values are 128-bit values. -/
def allU128 (ws : List Nat) : Bool := ws.all (fun (w : Nat) => decide (w < 2 ^ 128))

/-- An environment for one call: 128-bit stores only, and some round is clean. -/
def EnvOk (env : List Round) : Bool :=
  env.all (fun r => allU128 r.writes) && env.any Round.clean

/-- An environment without any other writer: no round carries a store, and the
monitor survives in some round. -/
def Quiet (env : List Round) : Bool :=
  env.all Round.silent && env.any (fun r => !r.lost)

/-- A trace made of exclusive-load / exclusive-store pairs in which every store is
handed `neu` when the load just before it returned `expected`, and the loaded
value itself otherwise. -/
def PairedStores (expected neu : Nat) : List Event → Bool
  | [] => true
  | [_] => false
  | l :: s :: rest =>
    (l.insn == Insn.ldxp || l.insn == Insn.ldaxp) &&
    (s.insn == Insn.stxp || s.insn == Insn.stlxp) &&
    s.val == (if l.val == expected then neu else l.val) &&
    PairedStores expected neu rest

/-- The instruction form `cas_u128` issues for each abstract order. -/
def caspForm : MemoryOrder → Insn
  | .Relaxed => .casp
  | .Acquire => .caspa
  | .Release => .caspl
  | .AcquireRelease => .caspal

namespace LLSC

/-- Two compare-exchange calls on the same word, one whole call after the other:
first `(e1 -> n1)`, then `(e2 -> n2)`. -/
def two_cas (var : Machine) (e1 n1 : Nat) (mo1 : Int) (env1 : List Round)
    (e2 n2 : Nat) (mo2 : Int) (env2 : List Round) : Except Fault (CasResult × CasResult) :=
  match __lockfree_compare_exchange_16 var e1 n1 false mo1 ATOMIC_RELAXED env1 with
  | .error f => .error f
  | .ok r1 =>
    match __lockfree_compare_exchange_16 r1.var e2 n2 false mo2 ATOMIC_RELAXED env2 with
    | .error f => .error f
    | .ok r2 => .ok (r1, r2)

end LLSC

namespace CASP

/-- Two compare-exchange calls on the same word, one whole call after the other:
first `(e1 -> n1)`, then `(e2 -> n2)`. -/
def two_cas (var : Machine) (e1 n1 : Nat) (mo1 : Int) (e2 n2 : Nat) (mo2 : Int) :
    Except Fault (CasResult × CasResult) :=
  match __lockfree_compare_exchange_16 var e1 n1 false mo1 ATOMIC_RELAXED [] with
  | .error f => .error f
  | .ok r1 =>
    match __lockfree_compare_exchange_16 r1.var e2 n2 false mo2 ATOMIC_RELAXED [] with
    | .error f => .error f
    | .ok r2 => .ok (r1, r2)

end CASP

/-- A run of `n` loads returned `v` each time, both 64-bit halves in place, and
left the stored word equal to `v`. -/
def loadsReturn (v : Nat) (n : Nat) : Except Fault (List Nat × Machine) → Bool
  | .ok (xs, m) =>
    xs == List.replicate n v &&
    xs.all (fun (x : Nat) => lo64 x == lo64 v && hi64 x == hi64 v) &&
    m.mem == v
  | .error _ => false

/-- The outcome of two compare-exchange calls on one word in which the first call
won: it returned true, the second returned false, the word finally holds
`winner` (the first call's desired value) and the second call's `*exp` was
overwritten with it. -/
def firstWins (winner : Nat) : Except Fault (CasResult × CasResult) → Bool
  | .ok (first, second) =>
    first.ret && !second.ret && second.var.mem == winner && second.exp == winner
  | .error _ => false

/-! ## The compare-exchange increment test (`test_atomic_relaxed_128` and its three
siblings, run in sequence by `test_atomic_cas_inc_128`) -/

/-- Embeds `new.u64[0] = old.u64[0] + 2; new.u64[1] = old.u64[1] + 1;` on 64-bit halves. -/
def bump (old : Nat) : Nat :=
  (lo64 old + 2) % 2 ^ 64 + ((hi64 old + 1) % 2 ^ 64) * 2 ^ 64

/-- The increment applied `n` times. -/
def bumps : Nat → Nat → Nat
  | 0, v => v
  | n + 1, v => bump (bumps n v)

/-- Modelled from the spec: the API entry points `odp_atomic_load_u128` and
`odp_atomic_cas_u128` / `_acq_` / `_rel_` / `_acq_rel_` used by the test are not
among the sources; following the facade of the spec they forward to the active
backend's load (relaxed) and strong compare-exchange (failure order relaxed).
`ε` is what the environment supplies to one call. -/
structure Backend (ε : Type) where
  load : Machine → ε → Except Fault (Nat × Machine)
  cas : Machine → Nat → Nat → MemoryOrder → ε → Except Fault CasResult

/-- The facade over the exclusive load / store variant. -/
def llscBackend : Backend (List Round) where
  load := fun a env => LLSC.lockfree_load_u128 a none env
  cas := fun a old new mo env =>
    LLSC.__lockfree_compare_exchange_16 a old new false mo.toInt ATOMIC_RELAXED env

/-- The facade over the `casp` variant. -/
def caspBackend : Backend Unit where
  load := fun a _ => CASP.lockfree_load_u128 a none []
  cas := fun a old new mo _ =>
    CASP.__lockfree_compare_exchange_16 a old new false mo.toInt ATOMIC_RELAXED []

/-- The orders of the four functions `test_atomic_cas_inc_128` runs in sequence. -/
def cas_inc_128_orders : List MemoryOrder :=
  [.Relaxed, .Acquire, .Release, .AcquireRelease]

/-- The `CNT` of the test. -/
def CNT : Nat := 50000

/-- The `U64_INIT_VAL` of the test, the start of both halves. -/
def U64_INIT_VAL : Nat := 2 ^ 33

/-- One worker thread of the test: `fn` counts the test functions it has finished,
`i` is the loop counter of the running one, `inDo` tells whether it is inside the
`do ... while (ret == 0)` (about to compare-exchange) or at the head of the `for`
loop (about to load), `old` is its local `old`.  `wins` only counts the
compare-exchange calls of this worker that returned non-zero. -/
structure Worker where
  fn : Nat
  i : Nat
  inDo : Bool
  old : Nat
  wins : Nat
  deriving DecidableEq, Repr

/-- One step of a worker, a whole load or a whole compare-exchange:
`for (i = 0; i < CNT; i++) { old = load(a); do { new = bump(old);
ret = cas(a, &old, new); } while (ret == 0); }`, once per order in `orders`. -/
def Worker.step {ε : Type} (B : Backend ε) (orders : List MemoryOrder) (cnt : Nat)
    (w : Worker) (var : Machine) (env : ε) : Except Fault (Worker × Machine) :=
  match orders.get? w.fn with
  | none => .ok (w, var)
  | some mo =>
    if w.inDo then
      let new := bump w.old
      match B.cas var w.old new mo env with
      | .error f => .error f
      | .ok res =>
        if res.ret then
          .ok ({ w with i := w.i + 1, inDo := false, old := res.exp, wins := w.wins + 1 },
               res.var)
        else
          .ok ({ w with old := res.exp }, res.var)
    else if w.i < cnt then
      match B.load var env with
      | .error f => .error f
      | .ok (x, m) => .ok ({ w with inDo := true, old := x }, m)
    else
      .ok ({ w with fn := w.fn + 1, i := 0 }, var)

/-- The shared word and the workers. -/
structure Sys where
  var : Machine
  workers : List Worker
  deriving DecidableEq, Repr

/-- The start: the word holds `init`, `T` workers are about to begin. -/
def Sys.start (init : Nat) (T : Nat) : Sys :=
  { var := { mem := init, monitor := false, trace := [] },
    workers := List.replicate T { fn := 0, i := 0, inDo := false, old := 0, wins := 0 } }

/-- The scheduler lets worker `slot.1` take one step in environment `slot.2`. -/
def Sys.step {ε : Type} (B : Backend ε) (orders : List MemoryOrder) (cnt : Nat)
    (s : Sys) (slot : Nat × ε) : Except Fault Sys :=
  match s.workers.get? slot.1 with
  | none => .ok s
  | some w =>
    match Worker.step B orders cnt w s.var slot.2 with
    | .error f => .error f
    | .ok (w1, m) => .ok { var := m, workers := s.workers.set slot.1 w1 }

/-- An interleaving: the slots of the schedule, one after the other. -/
def Sys.run {ε : Type} (B : Backend ε) (orders : List MemoryOrder) (cnt : Nat) :
    Sys → List (Nat × ε) → Except Fault Sys
  | s, [] => .ok s
  | s, slot :: rest =>
    match Sys.step B orders cnt s slot with
    | .error f => .error f
    | .ok s1 => Sys.run B orders cnt s1 rest

/-- All compare-exchange calls that returned non-zero, over all workers. -/
def Sys.wins (s : Sys) : Nat := (s.workers.map Worker.wins).sum

/-- Every worker has finished all its test functions. -/
def Sys.allDone (orders : List MemoryOrder) (s : Sys) : Bool :=
  s.workers.all (fun w => decide (orders.length ≤ w.fn))

/-- Embeds `a128u.u64[0] - a128u.u64[1]` in 64-bit arithmetic. -/
def halves_diff (v : Nat) : Nat := (lo64 v + 2 ^ 64 - hi64 v) % 2 ^ 64

/-- What the test validates: the word is the initial value incremented once per
successful compare-exchange, and once all `T` workers are done there were
`T * (orders.length * cnt)` of them, each half advanced accordingly; from equal
halves `u64[0] - u64[1]` is that number in 64-bit arithmetic, hence that number
itself when it is below `2 ^ 64`.  In the test `orders` is `cas_inc_128_orders`,
`cnt` is `CNT` and both halves start at `U64_INIT_VAL`. -/
def Counted (orders : List MemoryOrder) (cnt T : Nat) (init : Nat) (s : Sys) : Prop :=
  s.var.mem = bumps s.wins init ∧
  (Sys.allDone orders s = true →
    s.wins = T * (orders.length * cnt) ∧
    lo64 s.var.mem = (lo64 init + 2 * (T * (orders.length * cnt))) % 2 ^ 64 ∧
    hi64 s.var.mem = (hi64 init + T * (orders.length * cnt)) % 2 ^ 64 ∧
    (lo64 init = hi64 init →
      halves_diff s.var.mem = (T * (orders.length * cnt)) % 2 ^ 64 ∧
      (T * (orders.length * cnt) < 2 ^ 64 →
        halves_diff s.var.mem = T * (orders.length * cnt))))

/-- The facts about a worker that every step preserves: its `old` is a 128-bit
value, its counters are in range, and `wins` agrees with the loop counters. -/
def Worker.ok (L cnt : Nat) (w : Worker) : Prop :=
  w.old < 2 ^ 128 ∧ w.fn ≤ L ∧ w.i ≤ cnt ∧
  (w.inDo = true → w.i < cnt ∧ w.fn < L) ∧
  (w.fn = L → w.i = 0 ∧ w.inDo = false) ∧
  w.wins = w.fn * cnt + w.i

/-- A backend whose calls, in environments satisfying `Good`, are whole atomic
steps on a 128-bit word. -/
def Backend.Atomic {ε : Type} (B : Backend ε) (Good : ε → Prop) : Prop :=
  (∀ (m : Machine) (env : ε), m.mem < 2 ^ 128 → Good env →
    ∃ m1, B.load m env = .ok (m.mem, m1) ∧ m1.mem = m.mem) ∧
  (∀ (m : Machine) (e n : Nat) (mo : MemoryOrder) (env : ε),
    m.mem < 2 ^ 128 → e < 2 ^ 128 → n < 2 ^ 128 → Good env →
    ∃ m1, B.cas m e n mo env = .ok { ret := m.mem == e, exp := m.mem, var := m1 } ∧
      m1.mem = (if m.mem = e then n else m.mem))

/-- The facts about the whole system that every step preserves. -/
def Sys.Inv (init L cnt T : Nat) (s : Sys) : Prop :=
  s.var.mem < 2 ^ 128 ∧ (∀ w ∈ s.workers, w.ok L cnt) ∧
  s.var.mem = bumps s.wins init ∧ s.workers.length = T

/-- An environment in which the first exclusive store takes effect. -/
def calm : List Round := [{ w1 := [], w2 := [], w3 := [], lost := false }]

/-- An environment in which the monitor is lost once before the store takes effect. -/
def bumpy : List Round :=
  [{ w1 := [], w2 := [], w3 := [], lost := true },
   { w1 := [], w2 := [], w3 := [], lost := false }]

/-- A sample interleaving of two workers for one test function with one
iteration: both load, worker 0 wins, worker 1 fails and retries, both leave. -/
def sampleRound : List (Nat × List Round) :=
  [(0, calm), (1, bumpy), (0, calm), (1, calm), (1, bumpy), (0, calm), (1, calm)]

/-- The sample interleaving for the four test functions. -/
def sampleSchedule : List (Nat × List Round) :=
  sampleRound ++ sampleRound ++ sampleRound ++ sampleRound

/-- The value a racing plain read yields, if any, is a 128-bit value. -/
def tornOk : Option Nat → Bool
  | none => true
  | some c => decide (c < 2 ^ 128)

/-! ## The capability query -/

namespace Default

/-- Embeds `lockfree_check_u128` of `arch/default/odp_atomic.h`:
`return __atomic_is_lock_free(16, NULL);`.  The builtin belongs to the toolchain
and is a parameter: its answer for an object size and an optional object
address (`none` for `NULL`); the `bool` becomes the `int` 1 or 0. -/
def lockfree_check_u128 (atomic_is_lock_free : Nat → Option Nat → Bool) : Int :=
  if atomic_is_lock_free 16 none then 1 else 0

end Default

/-- A trace made of exclusive-load / exclusive-store pairs, every load of form `l`
and every store of form `s`. -/
def alternates (l s : Insn) : List Event → Bool
  | [] => true
  | [_] => false
  | a :: b :: rest => a.insn == l && b.insn == s && alternates l s rest

/-- The trace of a self compare-exchange on a word that holds `v` and that nobody
else writes: `k` attempts, each an exclusive load of form `l` returning `v`
followed by an exclusive store of form `s` that is handed `v` and fails (status
1), then one more such pair whose store takes effect (status 0). -/
def loadAttempts (l s : Insn) (v : Nat) : Nat → List Event
  | 0 => [{ insn := l, val := v, status := 0 }, { insn := s, val := v, status := 0 }]
  | k + 1 =>
    { insn := l, val := v, status := 0 } :: { insn := s, val := v, status := 1 } ::
      loadAttempts l s v k

/-! ## The standard random generator (`odp_random_std.c`, `odp_random.c`) -/

/-- Embeds `xorshift64s32(uint64_t *x)`: the value returned and `*x` afterwards. -/
def xorshift64s32 (x : Nat) : Nat × Nat :=
  let x0 := if x == 0 then 11400714819323198485 else x
  let x1 := x0 ^^^ (x0 >>> 12)
  let x2 := x1 ^^^ ((x1 <<< 25) % 2 ^ 64)
  let x3 := x2 ^^^ (x2 >>> 27)
  (((x3 * 2685821657736338717) % 2 ^ 64) >>> 32, x3)

/-- One store instruction: `width` bytes (1, 2 or 4) of `val` at address `addr`. -/
structure Store where
  addr : Nat
  width : Nat
  val : Nat
  deriving DecidableEq, Repr

/-- The bytes a store writes, as (address, byte) pairs in address order on a
little-endian machine. -/
def Store.bytes (s : Store) : List (Nat × Nat) :=
  (List.range s.width).map (fun k => (s.addr + k, (s.val >>> (8 * k)) % 256))

/-- All bytes written by a sequence of stores, in the order they are written. -/
def written (stores : List Store) : List (Nat × Nat) :=
  (stores.map Store.bytes).flatten

/-- The locals `buf`, `len` of `_random_data`, the seed `*seed`, and the stores
made so far. -/
structure RandState where
  buf : Nat
  len : Nat
  seed : Nat
  stores : List Store
  deriving DecidableEq, Repr

/-- A store of `width` bytes through the current `buf`. -/
def RandState.put (s : RandState) (width val : Nat) : RandState :=
  { s with stores := s.stores ++ [{ addr := s.buf, width := width, val := val }] }

/-- The head block of `_random_data` (entered with `len != 0`):
`r = xorshift64s32(seed); if (buf & 1) { *(uint8_t *)buf = r & 0xff; r >>= 8;
buf += 1; len -= 1; } if ((buf & 2) && len >= 2) { *(uint16_t *)buf = r & 0xffff;
buf += 2; len -= 2; }`. -/
def random_head (s : RandState) : RandState :=
  let r := (xorshift64s32 s.seed).1
  let s0 : RandState := { s with seed := (xorshift64s32 s.seed).2 }
  let s1 : RandState :=
    if s0.buf &&& 1 != 0 then { s0.put 1 (r &&& 0xff) with buf := s0.buf + 1, len := s0.len - 1 }
    else s0
  let r1 := if s0.buf &&& 1 != 0 then r >>> 8 else r
  if s1.buf &&& 2 != 0 && decide (s1.len ≥ 2) then
    { s1.put 2 (r1 &&& 0xffff) with buf := s1.buf + 2, len := s1.len - 2 }
  else s1

/-- The word loop, `n` iterations of
`*(uint32_t *)buf = xorshift64s32(seed); buf += 4;`. -/
def random_words : Nat → RandState → RandState
  | 0, s => s
  | n + 1, s =>
    random_words n
      { s.put 4 (xorshift64s32 s.seed).1 with
        buf := s.buf + 4, seed := (xorshift64s32 s.seed).2 }

/-- The tail block of `_random_data`:
`r = xorshift64s32(seed); if (len & 2) { *(uint16_t *)buf = r & 0xffff; r >>= 16;
buf += 2; } if (len & 1) *(uint8_t *)buf = r & 0xff;`. -/
def random_tail (s : RandState) : RandState :=
  let r := (xorshift64s32 s.seed).1
  let s0 : RandState := { s with seed := (xorshift64s32 s.seed).2 }
  let s1 : RandState :=
    if s0.len &&& 2 != 0 then { s0.put 2 (r &&& 0xffff) with buf := s0.buf + 2 } else s0
  let r1 := if s0.len &&& 2 != 0 then r >>> 16 else r
  if s1.len &&& 1 != 0 then s1.put 1 (r1 &&& 0xff) else s1

/-- A `uint32_t` returned as `int32_t`. -/
def int32_of_u32 (x : Nat) : Int :=
  if x % 2 ^ 32 < 2 ^ 31 then (x % 2 ^ 32 : Nat) else ((x % 2 ^ 32 : Nat) : Int) - 2 ^ 32

/-- What a random-data call leaves: its return value, the stores it made to the
buffer, and the seed afterwards. -/
structure RandomResult where
  ret : Int
  stores : List Store
  seed : Nat
  deriving DecidableEq, Repr

/-- Embeds `_random_data(buf, len, seed)`; `unaligned` is the build constant
`_ODP_UNALIGNED`, `buf` the address of the buffer. -/
def _random_data (unaligned : Bool) (buf len seed : Nat) : RandomResult :=
  let ret := len
  let s0 : RandState := { buf := buf, len := len, seed := seed, stores := [] }
  let s1 := if !unaligned && (buf &&& 3 != 0) && (len != 0) then random_head s0 else s0
  let s2 := random_words (s1.len / 4) s1
  let s3 := if s2.len &&& 3 != 0 then random_tail s2 else s2
  { ret := int32_of_u32 ret, stores := s3.stores, seed := s3.seed }

/-- Embeds `_odp_random_std_test_data`. -/
def _odp_random_std_test_data (unaligned : Bool) (buf len seed : Nat) : RandomResult :=
  _random_data unaligned buf len seed

/-- Embeds `odp_random_test_data`: every implementation uses the std one. -/
def odp_random_test_data (unaligned : Bool) (buf len seed : Nat) : RandomResult :=
  _odp_random_std_test_data unaligned buf len seed

/-- The byte values a call wrote, in the order written. -/
def RandomResult.data (r : RandomResult) : List Nat := (written r.stores).map Prod.snd

/-- The addresses a call wrote, in the order written. -/
def RandomResult.addrs (r : RandomResult) : List Nat := (written r.stores).map Prod.fst

/-- The addresses written so far, in the order written. -/
def RandState.addrs (s : RandState) : List Nat := (written s.stores).map Prod.fst

/-- The byte values written so far, in the order written. -/
def RandState.data (s : RandState) : List Nat := (written s.stores).map Prod.snd

/-- The enumerators of `odp_random_kind_t`; the enum is declared in an API header
that is not among the sources, so its three values are parameters. -/
structure RandomKinds where
  ODP_RANDOM_BASIC : Int
  ODP_RANDOM_CRYPTO : Int
  ODP_RANDOM_TRUE : Int
  deriving DecidableEq, Repr

/-- A call that returns `-1` without touching the buffer or the thread's seed. -/
def RandomResult.refused (this_seed : Nat) : RandomResult :=
  { ret := -1, stores := [], seed := this_seed }

namespace RandStd

/-- Embeds `_odp_random_std_basic_data`: `_random_data(buf, len, &this_seed)`. -/
def _odp_random_std_basic_data (unaligned : Bool) (buf len this_seed : Nat) : RandomResult :=
  _random_data unaligned buf len this_seed

/-- Embeds `_odp_random_std_crypto_data`: `(void)buf; (void)len; return -1;`. -/
def _odp_random_std_crypto_data (buf len this_seed : Nat) : RandomResult :=
  let _ := buf
  let _ := len
  RandomResult.refused this_seed

/-- Embeds `_odp_random_std_true_data`: `(void)buf; (void)len; return -1;`. -/
def _odp_random_std_true_data (buf len this_seed : Nat) : RandomResult :=
  let _ := buf
  let _ := len
  RandomResult.refused this_seed

/-- Embeds `_odp_random_std_max_kind`: `return ODP_RANDOM_BASIC;`. -/
def _odp_random_std_max_kind (K : RandomKinds) : Int := K.ODP_RANDOM_BASIC

/-- Embeds `_odp_random_max_kind` of `arch/default/odp_random.h`. -/
def _odp_random_max_kind (K : RandomKinds) : Int := _odp_random_std_max_kind K

/-- Embeds `odp_random_max_kind`. -/
def odp_random_max_kind (K : RandomKinds) : Int := _odp_random_max_kind K

/-- Embeds `odp_random_data` built without OpenSSL: the `switch (kind)` over the
three enumerators, `return -1` after it. -/
def odp_random_data (K : RandomKinds) (unaligned : Bool) (buf len : Nat) (kind : Int)
    (this_seed : Nat) : RandomResult :=
  if kind == K.ODP_RANDOM_BASIC then _odp_random_std_basic_data unaligned buf len this_seed
  else if kind == K.ODP_RANDOM_CRYPTO then _odp_random_std_crypto_data buf len this_seed
  else if kind == K.ODP_RANDOM_TRUE then _odp_random_std_true_data buf len this_seed
  else RandomResult.refused this_seed

end RandStd

namespace RandOpenssl

/-- Embeds `_odp_random_max_kind` of `odp_random_openssl_internal.h`:
`return ODP_RANDOM_CRYPTO;`. -/
def _odp_random_max_kind (K : RandomKinds) : Int := K.ODP_RANDOM_CRYPTO

/-- Embeds `_odp_random_openssl_data`: `rc = RAND_bytes(buf, len);
return (1 == rc) ? (int)len : -1;`.  The library function is a parameter: its
return code and the stores it makes to the buffer. -/
def _odp_random_openssl_data (RAND_bytes : Nat → Nat → Int × List Store)
    (buf len this_seed : Nat) : RandomResult :=
  let rc := (RAND_bytes buf len).1
  { ret := if 1 == rc then int32_of_u32 len else -1,
    stores := (RAND_bytes buf len).2, seed := this_seed }

/-- Embeds `_odp_random_true_data` of the OpenSSL header: `return -1;`. -/
def _odp_random_true_data (buf len this_seed : Nat) : RandomResult :=
  let _ := buf
  let _ := len
  RandomResult.refused this_seed

/-- Embeds `odp_random_max_kind`. -/
def odp_random_max_kind (K : RandomKinds) : Int := _odp_random_max_kind K

/-- Embeds `odp_random_data` built with OpenSSL. -/
def odp_random_data (K : RandomKinds) (RAND_bytes : Nat → Nat → Int × List Store)
    (buf len : Nat) (kind : Int) (this_seed : Nat) : RandomResult :=
  if kind == K.ODP_RANDOM_BASIC then _odp_random_openssl_data RAND_bytes buf len this_seed
  else if kind == K.ODP_RANDOM_CRYPTO then
    _odp_random_openssl_data RAND_bytes buf len this_seed
  else if kind == K.ODP_RANDOM_TRUE then _odp_random_true_data buf len this_seed
  else RandomResult.refused this_seed

end RandOpenssl

/-- The enumeration in declaration order, `BASIC = 0, CRYPTO = 1, TRUE = 2`. -/
def kinds012 : RandomKinds :=
  { ODP_RANDOM_BASIC := 0, ODP_RANDOM_CRYPTO := 1, ODP_RANDOM_TRUE := 2 }

/-! ## Event vectors (`odp_event_vector.c`) -/

/-- The fields of `odp_event_vector_hdr_t` the two functions read: `size`, the
`event[]` table (by index) and `event_hdr.pool`. -/
structure odp_event_vector_hdr_t where
  size : Nat
  event : Nat → Nat
  pool : Nat

/-- The loop `for (i = 1; i < vector_size; i++) if (odp_event_type(event[i]) !=
first_type) return 0;` with `n` iterations left from index `i`: `true` when it
runs to the end, `false` when it returns 0. -/
def types_match_from (odp_event_type : Nat → Int) (event : Nat → Nat) (first_type : Int) :
    Nat → Nat → Bool
  | 0, _ => true
  | n + 1, i =>
    if odp_event_type (event i) != first_type then false
    else types_match_from odp_event_type event first_type n (i + 1)

/-- Embeds `odp_event_vector_type(evv, event_type)`.  The header `evv` designates
and the API function `odp_event_type` (not among the sources) are inputs;
`event_type` is what the pointer designates (`none` for `NULL`).  The result is
the return value with `*event_type` afterwards. -/
def odp_event_vector_type (odp_event_type : Nat → Int) (evv_hdr : odp_event_vector_hdr_t)
    (event_type : Option Int) : Except Fault (Nat × Option Int) :=
  let vector_size := evv_hdr.size
  match ODP_ASSERT event_type.isSome with
  | .error f => .error f
  | .ok _ =>
    if vector_size == 0 then .ok (0, event_type)
    else
      let first_type := odp_event_type (evv_hdr.event 0)
      if types_match_from odp_event_type evv_hdr.event first_type (vector_size - 1) 1 then
        .ok (1, some first_type)
      else .ok (0, event_type)

/-- What `odp_event_vector_valid` consults and is not among the sources: the
invalid handles, the event type of vectors, the handle conversions, the event
validity check, `odp_event_type`, the header a handle designates and
`_odp_pool_entry(pool)->params.vector.max_size`. -/
structure EventWorld where
  ODP_EVENT_VECTOR_INVALID : Nat
  ODP_EVENT_INVALID : Nat
  ODP_EVENT_VECTOR : Int
  odp_event_vector_to_event : Nat → Nat
  odp_event_is_valid : Nat → Int
  odp_event_type : Nat → Int
  odp_event_vector_hdr : Nat → odp_event_vector_hdr_t
  vector_max_size : Nat → Nat

/-- The loop `for (i = 0; i < size; i++) if (event[i] == ODP_EVENT_INVALID)
return 0;` with `n` iterations left from index `i`: `true` when it runs to the
end. -/
def slots_valid_from (invalid : Nat) (event : Nat → Nat) : Nat → Nat → Bool
  | 0, _ => true
  | n + 1, i =>
    if event i == invalid then false else slots_valid_from invalid event n (i + 1)

/-- Embeds `odp_event_vector_valid(evv)`.  The function contains no store: its
only effect is the value returned. -/
def odp_event_vector_valid (W : EventWorld) (evv : Nat) : Int :=
  if evv == W.ODP_EVENT_VECTOR_INVALID then 0
  else
    let ev := W.odp_event_vector_to_event evv
    if W.odp_event_is_valid ev == 0 then 0
    else if W.odp_event_type ev != W.ODP_EVENT_VECTOR then 0
    else
      let evv_hdr := W.odp_event_vector_hdr evv
      if evv_hdr.size > W.vector_max_size evv_hdr.pool then 0
      else if slots_valid_from W.ODP_EVENT_INVALID evv_hdr.event evv_hdr.size 0 then 1
      else 0

/-- A sample world: handle 0 is invalid, vectors have event type 8, every handle
designates a vector of three events `10, 11, 12` in a pool of capacity 4. -/
def sampleWorld : EventWorld where
  ODP_EVENT_VECTOR_INVALID := 0
  ODP_EVENT_INVALID := 0
  ODP_EVENT_VECTOR := 8
  odp_event_vector_to_event := fun evv => evv
  odp_event_is_valid := fun _ => 1
  odp_event_type := fun _ => 8
  odp_event_vector_hdr := fun _ => { size := 3, event := fun i => 10 + i, pool := 1 }
  vector_max_size := fun _ => 4

/-! ## Further reference notions for the exclusive load / store loop -/

/-- A trace made of exclusive-load / exclusive-store pairs in which every store is
handed exactly the value the load just before it returned. -/
def storesEcho : List Event → Bool
  | [] => true
  | [_] => false
  | l :: s :: rest =>
    (l.insn == Insn.ldxp || l.insn == Insn.ldaxp) &&
    (s.insn == Insn.stxp || s.insn == Insn.stlxp) &&
    s.val == l.val && storesEcho rest

/-- The number of rounds before the first clean one: the store-exclusive
failures that precede the first success. -/
def failuresBefore : List Round → Nat
  | [] => 0
  | r :: rs => if r.clean then 0 else failuresBefore rs + 1

/-- Reads a trace as `k` load / store attempts whose store failed (status 1)
followed by one attempt whose store took effect (status 0) and nothing more;
yields the value loaded in that last attempt, `none` for any other shape. -/
def attemptsShape : Nat → List Event → Option Nat
  | 0, [l, s] =>
    if (l.insn == Insn.ldxp || l.insn == Insn.ldaxp) &&
       (s.insn == Insn.stxp || s.insn == Insn.stlxp) && s.status == 0
    then some l.val else none
  | k + 1, l :: s :: rest =>
    if (l.insn == Insn.ldxp || l.insn == Insn.ldaxp) &&
       (s.insn == Insn.stxp || s.insn == Insn.stlxp) && s.status == 1
    then attemptsShape k rest else none
  | _, _ => none

/-- The retry loop of the test, `do { new = f(old); ret = cas(a, &old, new); }
while (ret == 0);`, one environment per compare-exchange call: the number of
calls made, the final `old` and the machine. -/
def cas_retry {ε : Type} (B : Backend ε) (f : Nat → Nat) (mo : MemoryOrder) :
    Machine → Nat → List ε → Except Fault (Nat × Nat × Machine)
  | _, _, [] => .error .starved
  | var, old, env :: rest =>
    match B.cas var old (f old) mo env with
    | .error e => .error e
    | .ok res =>
      if res.ret then .ok (1, res.exp, res.var)
      else
        match cas_retry B f mo res.var res.exp rest with
        | .error e => .error e
        | .ok (n, o, m) => .ok (n + 1, o, m)

namespace Default

/-- Embeds `lockfree_cas_acq_rel_u128` of `arch/default/odp_atomic.h`:
`return __atomic_compare_exchange_n(atomic, &old_val, new_val, 0,
__ATOMIC_ACQ_REL, __ATOMIC_RELAXED);`.  The builtin belongs to the toolchain and
is a parameter: from the stored word, `*expected`, `desired`, `weak` and the two
orders it gives its `bool`, `*expected` afterwards and the stored word
afterwards.  `old_val` is the callee's own copy; the result is the `int` and the
stored word. -/
def lockfree_cas_acq_rel_u128
    (atomic_compare_exchange_n : Nat → Nat → Nat → Bool → Int → Int → Bool × Nat × Nat)
    (atomic old_val new_val : Nat) : Int × Nat :=
  let r := atomic_compare_exchange_n atomic old_val new_val false
    ATOMIC_ACQ_REL ATOMIC_RELAXED
  (if r.1 then 1 else 0, r.2.2)

end Default

/-- A builtin that is a strong compare-exchange: called with `weak = 0` it
succeeds exactly when the stored word equals `*expected`, stores `desired` then
and nothing otherwise, and leaves the stored word it saw in `*expected`. -/
def StrongCas (b : Nat → Nat → Nat → Bool → Int → Int → Bool × Nat × Nat) : Prop :=
  ∀ (mem e d : Nat) (ms mf : Int),
    b mem e d false ms mf = (decide (mem = e), mem, if mem = e then d else mem)

/-- The strong compare-exchange itself, as an executable instance. -/
def strong_cas (mem e d : Nat) (_weak : Bool) (_ms _mf : Int) : Bool × Nat × Nat :=
  (decide (mem = e), mem, if mem = e then d else mem)

/-- A 32-bit store is to a multiple of 4 and a 16-bit store to an even address. -/
def Store.aligned (s : Store) : Bool :=
  (s.width != 4 || s.addr % 4 == 0) && (s.width != 2 || s.addr % 2 == 0)

/-- With a stale `old = e`, the first compare-exchange of the retry loop fails and
leaves the stored word in `old`, the second one, called with that updated `old`,
returns true and stores `f` of the stored word: the loop makes exactly two
calls. -/
def RetrySucceeds {ε : Type} (B : Backend ε) (f : Nat → Nat) (mo : MemoryOrder)
    (var : Machine) (e : Nat) (env1 env2 : ε) (rest : List ε) : Prop :=
  ∃ r1 r2, B.cas var e (f e) mo env1 = .ok r1 ∧ r1.ret = false ∧ r1.exp = var.mem ∧
    B.cas r1.var r1.exp (f r1.exp) mo env2 = .ok r2 ∧ r2.ret = true ∧
    r2.var.mem = f var.mem ∧
    cas_retry B f mo var e (env1 :: env2 :: rest) = .ok (2, var.mem, r2.var)

/-- Whatever `old` holds, the retry loop makes at most two compare-exchange calls
and leaves the word equal to `f` of the value it held. -/
def AtMostTwoCalls {ε : Type} (B : Backend ε) (f : Nat → Nat) (mo : MemoryOrder)
    (var : Machine) (old : Nat) (envs : List ε) : Prop :=
  ∃ n o m, cas_retry B f mo var old envs = .ok (n, o, m) ∧ n ≤ 2 ∧ m.mem = f var.mem

/-- Every 32-bit store of the list is to a multiple of 4 and every 16-bit store
to an even address. -/
def AlignedStores (l : List Store) : Prop :=
  ∀ st ∈ l, (st.width = 4 → st.addr % 4 = 0) ∧ (st.width = 2 → st.addr % 2 = 0)

/-- The state in which `_random_data`, built with `_ODP_UNALIGNED = 0`, reaches
its word loop: after the head block when `((uintptr_t)buf & 3) && len` holds,
the initial state otherwise. -/
def word_loop_entry (buf len seed : Nat) : RandState :=
  if (buf &&& 3 != 0) && (len != 0) then
    random_head { buf := buf, len := len, seed := seed, stores := [] }
  else { buf := buf, len := len, seed := seed, stores := [] }

/-! ## Basic facts -/

theorem join_halves (v : Nat) (hv : v < 2 ^ 128) : lo64 v + hi64 v * 2 ^ 64 = v := by
  unfold lo64 hi64
  rw [Nat.shiftRight_eq_div_pow]
  have h2 : v / 2 ^ 64 < 2 ^ 64 := by
    rw [Nat.div_lt_iff_lt_mul (by norm_num)]
    norm_num at *
    omega
  rw [Nat.mod_eq_of_lt h2]
  omega

theorem join_halves_lt (a b : Nat) : lo64 a + hi64 b * 2 ^ 64 < 2 ^ 128 := by
  unfold lo64 hi64
  have h1 : a % 2 ^ 64 < 2 ^ 64 := Nat.mod_lt _ (by norm_num)
  have h2 : (b >>> 64) % 2 ^ 64 < 2 ^ 64 := Nat.mod_lt _ (by norm_num)
  norm_num at *
  omega

theorem applyWrites_nil (mem : Nat) : applyWrites mem [] = mem := rfl

theorem applyWrites_append (mem : Nat) (a b : List Nat) :
    applyWrites mem (a ++ b) = applyWrites (applyWrites mem a) b := by
  unfold applyWrites
  rw [List.foldl_append]

theorem applyWrites_mem (mem : Nat) (ws : List Nat) :
    applyWrites mem ws = mem ∨ applyWrites mem ws ∈ ws := by
  induction ws generalizing mem with
  | nil => left; rfl
  | cons w ws ih =>
    right
    have h := ih w
    simp only [applyWrites, List.foldl_cons] at h ⊢
    rcases h with h | h
    · rw [h]; exact List.mem_cons_self _ _
    · exact List.mem_cons_of_mem _ h

theorem applyWrites_lt (mem : Nat) (ws : List Nat) (hm : mem < 2 ^ 128)
    (hw : allU128 ws = true) : applyWrites mem ws < 2 ^ 128 := by
  rcases applyWrites_mem mem ws with h | h
  · rw [h]; exact hm
  · unfold allU128 at hw
    rw [List.all_eq_true] at hw
    exact of_decide_eq_true (hw _ h)

theorem allU128_append (a b : List Nat) :
    allU128 (a ++ b) = (allU128 a && allU128 b) := by
  unfold allU128
  rw [List.all_append]

theorem isEmpty_eq_nil {α : Type} (l : List α) (h : l.isEmpty = true) : l = [] :=
  List.isEmpty_iff.mp h

theorem LL_MO_valid (mo : Int) : LL_MO mo = ATOMIC_ACQUIRE ∨ LL_MO mo = ATOMIC_RELAXED := by
  unfold LL_MO
  split
  · left; rfl
  · right; rfl

theorem SC_MO_valid (mo : Int) : SC_MO mo = ATOMIC_RELEASE ∨ SC_MO mo = ATOMIC_RELAXED := by
  unfold SC_MO
  split
  · left; rfl
  · right; rfl

theorem lld_eq (var : Machine) (mm : Int) (r : Round)
    (h : mm = ATOMIC_ACQUIRE ∨ mm = ATOMIC_RELAXED) :
    lld var mm r =
      .ok (lo64 (applyWrites var.mem r.w1)
             + hi64 (applyWrites (applyWrites var.mem r.w1) r.w2) * 2 ^ 64,
           { mem := applyWrites (applyWrites var.mem r.w1) r.w2,
             monitor := r.w2.isEmpty,
             trace := var.trace ++
               [{ insn := if mm == ATOMIC_ACQUIRE then Insn.ldaxp else Insn.ldxp,
                  val := lo64 (applyWrites var.mem r.w1)
                    + hi64 (applyWrites (applyWrites var.mem r.w1) r.w2) * 2 ^ 64,
                  status := 0 }] }) := by
  rcases h with rfl | rfl <;> rfl

theorem scd_eq (var : Machine) (neu : Nat) (mm : Int) (r : Round)
    (h : mm = ATOMIC_RELEASE ∨ mm = ATOMIC_RELAXED) :
    scd var neu mm r =
      if var.monitor && r.w3.isEmpty && !r.lost then
        .ok (0, { mem := lo64 neu + hi64 neu * 2 ^ 64, monitor := false,
                  trace := var.trace ++
                    [{ insn := if mm == ATOMIC_RELEASE then Insn.stlxp else Insn.stxp,
                       val := neu, status := 0 }] })
      else
        .ok (1, { mem := applyWrites var.mem r.w3, monitor := false,
                  trace := var.trace ++
                    [{ insn := if mm == ATOMIC_RELEASE then Insn.stlxp else Insn.stxp,
                       val := neu, status := 1 }] }) := by
  rcases h with rfl | rfl <;> rfl

/-! ## The exclusive load / store loop -/

theorem EnvOk_cons (r : Round) (rs : List Round) (h : EnvOk (r :: rs) = true) :
    allU128 r.writes = true ∧ (r.clean = true ∨ (r.clean = false ∧ EnvOk rs = true)) := by
  unfold EnvOk at h
  simp only [List.all_cons, List.any_cons, Bool.and_eq_true, Bool.or_eq_true] at h
  obtain ⟨⟨h1, h2⟩, h3⟩ := h
  refine ⟨h1, ?_⟩
  cases hc : r.clean with
  | true => left; rfl
  | false =>
    right
    refine ⟨rfl, ?_⟩
    unfold EnvOk
    rw [hc] at h3
    simp only [Bool.and_eq_true]
    exact ⟨h2, by simpa using h3⟩

theorem clean_fields (r : Round) (h : r.clean = true) :
    r.w2 = [] ∧ r.w3 = [] ∧ r.lost = false := by
  unfold Round.clean at h
  simp only [Bool.and_eq_true, Bool.not_eq_true'] at h
  exact ⟨isEmpty_eq_nil _ h.1.1, isEmpty_eq_nil _ h.1.2, h.2⟩

theorem cas_loop_spec (expected neu : Nat) (ll_mo sc_mo : Int)
    (hll : ll_mo = ATOMIC_ACQUIRE ∨ ll_mo = ATOMIC_RELAXED)
    (hsc : sc_mo = ATOMIC_RELEASE ∨ sc_mo = ATOMIC_RELAXED) :
    ∀ (env : List Round) (var : Machine), var.mem < 2 ^ 128 → EnvOk env = true →
      ∃ o v, observed var.mem env = some o ∧
        LLSC.cas_loop expected neu ll_mo sc_mo var env = .ok (o, v) ∧
        v.mem = (if o = expected then lo64 neu + hi64 neu * 2 ^ 64 else o) ∧
        o < 2 ^ 128 ∧ (o = var.mem ∨ o ∈ history env) := by
  intro env
  induction env with
  | nil => intro var _ h; simp [EnvOk] at h
  | cons r rs ih =>
    intro var hm hok
    obtain ⟨hw, hcase⟩ := EnvOk_cons r rs hok
    have hw1 : allU128 r.w1 = true := by
      unfold Round.writes at hw
      rw [allU128_append, allU128_append] at hw
      simp only [Bool.and_eq_true] at hw
      exact hw.1.1
    rcases hcase with hc | ⟨hc, hrs⟩
    · obtain ⟨e2, e3, el⟩ := clean_fields r hc
      have hb : applyWrites var.mem r.w1 < 2 ^ 128 := applyWrites_lt _ _ hm hw1
      have hj := join_halves _ hb
      refine ⟨applyWrites var.mem r.w1, ?_⟩
      simp only [observed, hc, if_true, LLSC.cas_loop, lld_eq _ _ _ hll, scd_eq _ _ _ _ hsc,
        e2, e3, el, applyWrites_nil, hj, List.isEmpty_nil, Bool.not_false, Bool.and_self,
        bne_self_eq_false, Bool.false_eq_true, if_false, beq_iff_eq, history]
      refine ⟨_, trivial, rfl, ?_, hb, ?_⟩
      · show lo64 _ + hi64 _ * 2 ^ 64 = _
        split
        · rfl
        · exact hj
      · rcases applyWrites_mem var.mem r.w1 with h | h
        · left; exact h
        · right; exact h
    · have hm2 : applyWrites var.mem r.writes < 2 ^ 128 := applyWrites_lt _ _ hm hw
      obtain ⟨o, v, h1, h2, h3, h4, h5⟩ :=
        ih { mem := applyWrites var.mem r.writes, monitor := false,
             trace := (var.trace ++
               [{ insn := if ll_mo == ATOMIC_ACQUIRE then Insn.ldaxp else Insn.ldxp,
                  val := lo64 (applyWrites var.mem r.w1)
                    + hi64 (applyWrites (applyWrites var.mem r.w1) r.w2) * 2 ^ 64,
                  status := 0 }]) ++
               [{ insn := if sc_mo == ATOMIC_RELEASE then Insn.stlxp else Insn.stxp,
                  val := if (lo64 (applyWrites var.mem r.w1)
                    + hi64 (applyWrites (applyWrites var.mem r.w1) r.w2) * 2 ^ 64
                      == expected) = true then neu
                    else lo64 (applyWrites var.mem r.w1)
                      + hi64 (applyWrites (applyWrites var.mem r.w1) r.w2) * 2 ^ 64,
                  status := 1 }] } hm2 hrs
      have hcond : (r.w2.isEmpty && r.w3.isEmpty && !r.lost) = false := hc
      refine ⟨o, v, ?_, ?_, h3, h4, ?_⟩
      · simp only [observed, hc, Bool.false_eq_true, if_false]
        exact h1
      · simp only [LLSC.cas_loop, lld_eq _ _ _ hll, scd_eq _ _ _ _ hsc, hcond,
          Bool.false_eq_true, if_false]
        simp only [Round.writes, applyWrites_append] at h2
        simpa using h2
      · rcases h5 with h5 | h5
        · simp only at h5
          rcases applyWrites_mem var.mem r.writes with h | h
          · left; rw [h5, h]
          · right
            simp only [history, hc, Bool.false_eq_true, if_false]
            rw [h5]
            exact List.mem_append_left _ h
        · right
          simp only [history, hc, Bool.false_eq_true, if_false]
          exact List.mem_append_right _ h5

theorem cas_loop_paired (expected neu : Nat) (ll_mo sc_mo : Int)
    (hll : ll_mo = ATOMIC_ACQUIRE ∨ ll_mo = ATOMIC_RELAXED)
    (hsc : sc_mo = ATOMIC_RELEASE ∨ sc_mo = ATOMIC_RELAXED) :
    ∀ (env : List Round) (var : Machine) (old : Nat) (v : Machine),
      LLSC.cas_loop expected neu ll_mo sc_mo var env = .ok (old, v) →
      ∃ t, v.trace = var.trace ++ t ∧ PairedStores expected neu t = true := by
  have hl : ((if ll_mo == ATOMIC_ACQUIRE then Insn.ldaxp else Insn.ldxp) == Insn.ldxp
      || (if ll_mo == ATOMIC_ACQUIRE then Insn.ldaxp else Insn.ldxp) == Insn.ldaxp) = true := by
    split <;> decide
  have hs : ((if sc_mo == ATOMIC_RELEASE then Insn.stlxp else Insn.stxp) == Insn.stxp
      || (if sc_mo == ATOMIC_RELEASE then Insn.stlxp else Insn.stxp) == Insn.stlxp) = true := by
    split <;> decide
  intro env
  induction env with
  | nil => intro var old v h; simp [LLSC.cas_loop] at h
  | cons r rs ih =>
    intro var old v h
    cases hc : (r.w2.isEmpty && r.w3.isEmpty && !r.lost) with
    | true =>
      simp only [LLSC.cas_loop, lld_eq _ _ _ hll, scd_eq _ _ _ _ hsc, hc, if_true,
        bne_self_eq_false, Bool.false_eq_true, if_false, Except.ok.injEq,
        Prod.mk.injEq] at h
      obtain ⟨_, rfl⟩ := h
      refine ⟨_, List.append_assoc _ _ _, ?_⟩
      simp only [List.singleton_append, PairedStores, hl, hs, beq_self_eq_true,
        Bool.and_self]
    | false =>
      have h1 : ((1 : Nat) != 0) = true := rfl
      simp only [LLSC.cas_loop, lld_eq _ _ _ hll, scd_eq _ _ _ _ hsc, hc,
        Bool.false_eq_true, if_false, h1, if_true] at h
      obtain ⟨t, ht, hp⟩ := ih _ _ _ h
      simp only [List.append_assoc, List.singleton_append] at ht
      simp only [List.cons_append, List.nil_append] at ht
      refine ⟨_, ht, ?_⟩
      simp only [PairedStores, hl, hs, beq_self_eq_true, Bool.and_self, hp]

/-! ## The paired-register compare-and-swap -/

theorem pair128_halves (m : Nat) (hm : m < 2 ^ 128) : pair128 (lo64 m) (hi64 m) = m := by
  have h0 : lo64 m < 2 ^ 64 := Nat.mod_lt _ (by norm_num)
  unfold pair128
  rw [Nat.shiftLeft_eq, Nat.lor_comm, Nat.mul_comm, ← Nat.mul_add_lt_is_or h0,
    Nat.add_comm, Nat.mul_comm, join_halves m hm]
  exact Nat.mod_eq_of_lt hm

theorem halves_inj (a b : Nat) (ha : a < 2 ^ 128) (hb : b < 2 ^ 128) :
    (lo64 a = lo64 b ∧ hi64 a = hi64 b) ↔ a = b := by
  constructor
  · rintro ⟨h1, h2⟩
    rw [← join_halves a ha, ← join_halves b hb, h1, h2]
  · rintro rfl
    exact ⟨rfl, rfl⟩

theorem cas_u128_spec (ptr : Machine) (old_val new_val : Nat) (mo : MemoryOrder)
    (pre : List Nat) (hm : ptr.mem < 2 ^ 128) (hp : allU128 pre = true)
    (ho : old_val < 2 ^ 128) :
    CASP.cas_u128 ptr old_val new_val mo.toInt pre =
      .ok (applyWrites ptr.mem pre,
        { mem := if applyWrites ptr.mem pre = old_val
            then lo64 new_val + hi64 new_val * 2 ^ 64 else applyWrites ptr.mem pre,
          monitor := ptr.monitor,
          trace := ptr.trace ++
            [{ insn := caspForm mo, val := applyWrites ptr.mem pre, status := 0 }] }) := by
  have hb : applyWrites ptr.mem pre < 2 ^ 128 := applyWrites_lt _ _ hm hp
  have hj := join_halves _ hb
  have hpair := pair128_halves _ hb
  have hinj := halves_inj (applyWrites ptr.mem pre) old_val hb ho
  have hcond : (lo64 (applyWrites ptr.mem pre) == lo64 old_val
      && hi64 (applyWrites ptr.mem pre) == hi64 old_val)
      = decide (applyWrites ptr.mem pre = old_val) := by
    by_cases h : applyWrites ptr.mem pre = old_val
    · rw [decide_eq_true h]; rw [h]; simp
    · rw [decide_eq_false h]
      have : ¬ (lo64 (applyWrites ptr.mem pre) = lo64 old_val
          ∧ hi64 (applyWrites ptr.mem pre) = hi64 old_val) := fun hh => h (hinj.mp hh)
      simpa using this
  have hj2 : lo64 (applyWrites ptr.mem pre)
      + hi64 (applyWrites ptr.mem pre) * 18446744073709551616 = applyWrites ptr.mem pre := by
    have h := hj
    norm_num at h
    exact h
  cases mo <;>
    simp [CASP.cas_u128, CASP.casp_insn, MemoryOrder.toInt, caspForm, ATOMIC_RELAXED,
      ATOMIC_ACQUIRE, ATOMIC_ACQ_REL, ATOMIC_RELEASE, hcond, hj2, hpair]

/-! ## The two compare-exchange variants against the reference notions -/

theorem llsc_cas_spec (var : Machine) (e neu : Nat) (weak : Bool) (mo mf : Int)
    (env : List Round) (hm : var.mem < 2 ^ 128) (hn : neu < 2 ^ 128)
    (hok : EnvOk env = true) :
    ∃ o v, observed var.mem env = some o ∧
      LLSC.__lockfree_compare_exchange_16 var e neu weak mo mf env
        = .ok { ret := o == e, exp := o, var := v } ∧
      v.mem = (if o = e then neu else o) ∧ o < 2 ^ 128 ∧
      (o = var.mem ∨ o ∈ history env) ∧
      ∃ t, v.trace = var.trace ++ t ∧ PairedStores e neu t = true := by
  obtain ⟨o, v, h1, h2, h3, h4, h5⟩ :=
    cas_loop_spec e neu (LL_MO mo) (SC_MO mo) (LL_MO_valid mo) (SC_MO_valid mo) env var hm hok
  refine ⟨o, v, h1, ?_, ?_, h4, h5, ?_⟩
  · simp only [LLSC.__lockfree_compare_exchange_16, h2]
  · rw [h3, join_halves neu hn]
  · exact cas_loop_paired e neu (LL_MO mo) (SC_MO mo) (LL_MO_valid mo) (SC_MO_valid mo)
      env var o v h2

theorem casp_cas_spec (var : Machine) (e neu : Nat) (weak : Bool) (mo : MemoryOrder)
    (mf : Int) (pre : List Nat) (hm : var.mem < 2 ^ 128) (he : e < 2 ^ 128)
    (hn : neu < 2 ^ 128) (hp : allU128 pre = true) :
    CASP.__lockfree_compare_exchange_16 var e neu weak mo.toInt mf pre
      = .ok { ret := applyWrites var.mem pre == e, exp := applyWrites var.mem pre,
              var := { mem := if applyWrites var.mem pre = e then neu
                         else applyWrites var.mem pre,
                       monitor := var.monitor,
                       trace := var.trace ++
                         [{ insn := caspForm mo, val := applyWrites var.mem pre,
                            status := 0 }] } } := by
  simp only [CASP.__lockfree_compare_exchange_16, cas_u128_spec var e neu mo pre hm hp he,
    join_halves neu hn]

theorem observed_quiet (v : Nat) (env : List Round) (hq : Quiet env = true) :
    observed v env = some v := by
  induction env with
  | nil => simp [Quiet] at hq
  | cons r rs ih =>
    unfold Quiet at hq
    simp only [List.all_cons, List.any_cons, Bool.and_eq_true, Bool.or_eq_true] at hq
    obtain ⟨⟨hs, hall⟩, hany⟩ := hq
    unfold Round.silent at hs
    simp only [Bool.and_eq_true] at hs
    have e1 := isEmpty_eq_nil _ hs.1.1
    have e2 := isEmpty_eq_nil _ hs.1.2
    have e3 := isEmpty_eq_nil _ hs.2
    cases hl : r.lost with
    | false =>
      simp [observed, Round.clean, e1, e2, e3, hl, applyWrites]
    | true =>
      have hrs : Quiet rs = true := by
        unfold Quiet
        rw [hl] at hany
        simp only [Bool.and_eq_true]
        exact ⟨hall, by simpa using hany⟩
      simp only [observed, Round.clean, e2, e3, hl, List.isEmpty_nil, Bool.not_true,
        Bool.and_false, Bool.false_eq_true, if_false, Round.writes, e1, List.append_nil,
        applyWrites_nil]
      exact ih hrs

theorem quiet_envOk (env : List Round) (hq : Quiet env = true) : EnvOk env = true := by
  induction env with
  | nil => simp [Quiet] at hq
  | cons r rs ih =>
    unfold Quiet at hq
    simp only [List.all_cons, List.any_cons, Bool.and_eq_true, Bool.or_eq_true] at hq
    obtain ⟨⟨hs, hall⟩, hany⟩ := hq
    unfold Round.silent at hs
    simp only [Bool.and_eq_true] at hs
    have e1 := isEmpty_eq_nil _ hs.1.1
    have e2 := isEmpty_eq_nil _ hs.1.2
    have e3 := isEmpty_eq_nil _ hs.2
    have hw : allU128 r.writes = true := by
      simp [Round.writes, e1, e2, e3, allU128]
    cases hl : r.lost with
    | false =>
      have hc : r.clean = true := by simp [Round.clean, e2, e3, hl]
      unfold EnvOk
      simp only [List.all_cons, List.any_cons, hw, hc, Bool.true_or, Bool.and_true,
        Bool.true_and]
      rw [List.all_eq_true]
      intro x hx
      have := (List.all_eq_true.mp hall) x hx
      unfold Round.silent at this
      simp only [Bool.and_eq_true] at this
      simp [Round.writes, isEmpty_eq_nil _ this.1.1, isEmpty_eq_nil _ this.1.2,
        isEmpty_eq_nil _ this.2, allU128]
    | true =>
      have hrs : Quiet rs = true := by
        unfold Quiet
        rw [hl] at hany
        simp only [Bool.and_eq_true]
        exact ⟨hall, by simpa using hany⟩
      have := ih hrs
      unfold EnvOk at this ⊢
      simp only [Bool.and_eq_true] at this
      simp only [List.all_cons, List.any_cons, hw, Bool.true_and, Bool.and_eq_true,
        Bool.or_eq_true]
      exact ⟨this.1, Or.inr this.2⟩

/-- Without another writer the exclusive load / store variant returns whether the
stored word equals `e`, leaves the stored word in `*exp`, and stores `neu` or
nothing. -/
theorem llsc_cas_quiet (var : Machine) (e neu : Nat) (weak : Bool) (mo mf : Int)
    (env : List Round) (hm : var.mem < 2 ^ 128) (hn : neu < 2 ^ 128)
    (hq : Quiet env = true) :
    ∃ v, LLSC.__lockfree_compare_exchange_16 var e neu weak mo mf env
        = .ok { ret := var.mem == e, exp := var.mem, var := v } ∧
      v.mem = (if var.mem = e then neu else var.mem) := by
  obtain ⟨o, v, h1, h2, h3, _, _, _⟩ :=
    llsc_cas_spec var e neu weak mo mf env hm hn (quiet_envOk env hq)
  rw [observed_quiet _ _ hq] at h1
  cases h1
  exact ⟨v, h2, h3⟩

/-! ## Compare-exchange: return value, `*exp` and the stored word -/

/-- C1: `__lockfree_compare_exchange_16` returns true exactly when the value it
atomically observed in the word equals the value `*exp` held on entry.  For the
exclusive load / store variant this holds for every integer success order and
every environment of 128-bit stores with a clean round, the observed value
being `observed var.mem env`; for the `casp` variant for each of the four orders,
the observed value being the word as left by the stores before the instruction. -/
theorem compare_exchange_true_iff_observed_eq_expected
    (var : Machine) (e neu : Nat) (weak : Bool) (mo_failure : Int)
    (hm : var.mem < 2 ^ 128) (he : e < 2 ^ 128) (hn : neu < 2 ^ 128) :
    (∀ (mo_success : Int) (env : List Round), EnvOk env = true →
      ∃ o res, observed var.mem env = some o ∧
        LLSC.__lockfree_compare_exchange_16 var e neu weak mo_success mo_failure env
          = .ok res ∧
        (res.ret = true ↔ o = e)) ∧
    (∀ (mo_success : MemoryOrder) (pre : List Nat), allU128 pre = true →
      ∃ res,
        CASP.__lockfree_compare_exchange_16 var e neu weak mo_success.toInt mo_failure pre
          = .ok res ∧
        (res.ret = true ↔ applyWrites var.mem pre = e)) := by
  constructor
  · intro mo env hok
    obtain ⟨o, v, h1, h2, _⟩ := llsc_cas_spec var e neu weak mo mo_failure env hm hn hok
    exact ⟨o, _, h1, h2, by simp⟩
  · intro mo pre hp
    exact ⟨_, casp_cas_spec var e neu weak mo mo_failure pre hm he hn hp, by simp⟩

theorem compare_exchange_true_iff_observed_eq_expected_witness :
    (∃ o res, observed 5 [⟨[], [], [], true⟩, ⟨[7], [], [], false⟩] = some o ∧
      LLSC.__lockfree_compare_exchange_16 ⟨5, false, []⟩ 7 9 true ATOMIC_SEQ_CST
          ATOMIC_ACQUIRE [⟨[], [], [], true⟩, ⟨[7], [], [], false⟩] = .ok res ∧
      (res.ret = true ↔ o = 7)) ∧
    (∃ res,
      CASP.__lockfree_compare_exchange_16 ⟨5, false, []⟩ 7 9 true
          MemoryOrder.Release.toInt ATOMIC_ACQUIRE [7] = .ok res ∧
      (res.ret = true ↔ applyWrites 5 [7] = 7)) :=
  ⟨(compare_exchange_true_iff_observed_eq_expected ⟨5, false, []⟩ 7 9 true ATOMIC_ACQUIRE
      (by decide) (by decide) (by decide)).1 ATOMIC_SEQ_CST _ (by decide),
   (compare_exchange_true_iff_observed_eq_expected ⟨5, false, []⟩ 7 9 true ATOMIC_ACQUIRE
      (by decide) (by decide) (by decide)).2 MemoryOrder.Release [7] (by decide)⟩


/-- C2: on return from `__lockfree_compare_exchange_16` the caller's `*exp` holds
the atomically observed prior value of the word, on success as on failure: on
success `*exp` is unchanged, on failure `*exp` equals the current stored value,
which differs from the original expected value.  Both variants. -/
theorem compare_exchange_exp_holds_observed
    (var : Machine) (e neu : Nat) (weak : Bool) (mo_failure : Int)
    (hm : var.mem < 2 ^ 128) (he : e < 2 ^ 128) (hn : neu < 2 ^ 128) :
    (∀ (mo_success : Int) (env : List Round), EnvOk env = true →
      ∃ o res, observed var.mem env = some o ∧
        LLSC.__lockfree_compare_exchange_16 var e neu weak mo_success mo_failure env
          = .ok res ∧
        res.exp = o ∧
        (res.ret = true → res.exp = e) ∧
        (res.ret = false → res.exp = res.var.mem ∧ res.exp ≠ e)) ∧
    (∀ (mo_success : MemoryOrder) (pre : List Nat), allU128 pre = true →
      ∃ res,
        CASP.__lockfree_compare_exchange_16 var e neu weak mo_success.toInt mo_failure pre
          = .ok res ∧
        res.exp = applyWrites var.mem pre ∧
        (res.ret = true → res.exp = e) ∧
        (res.ret = false → res.exp = res.var.mem ∧ res.exp ≠ e)) := by
  constructor
  · intro mo env hok
    obtain ⟨o, v, h1, h2, h3, _⟩ := llsc_cas_spec var e neu weak mo mo_failure env hm hn hok
    refine ⟨o, _, h1, h2, rfl, ?_, ?_⟩
    · intro h; simpa using h
    · intro h
      have hne : o ≠ e := by simpa using h
      exact ⟨by simp only [h3, if_neg hne], hne⟩
  · intro mo pre hp
    refine ⟨_, casp_cas_spec var e neu weak mo mo_failure pre hm he hn hp, rfl, ?_, ?_⟩
    · intro h; simpa using h
    · intro h
      have hne : applyWrites var.mem pre ≠ e := by simpa using h
      exact ⟨by simp only [if_neg hne], hne⟩

theorem compare_exchange_exp_holds_observed_witness :
    (∃ o res, observed 5 [⟨[], [8], [], false⟩, ⟨[7], [], [], false⟩] = some o ∧
      LLSC.__lockfree_compare_exchange_16 ⟨5, false, []⟩ 6 9 false ATOMIC_ACQ_REL
          ATOMIC_RELAXED [⟨[], [8], [], false⟩, ⟨[7], [], [], false⟩] = .ok res ∧
      res.exp = o ∧
      (res.ret = true → res.exp = 6) ∧
      (res.ret = false → res.exp = res.var.mem ∧ res.exp ≠ 6)) ∧
    (∃ res,
      CASP.__lockfree_compare_exchange_16 ⟨5, false, []⟩ 6 9 false
          MemoryOrder.Acquire.toInt ATOMIC_RELAXED [] = .ok res ∧
      res.exp = applyWrites 5 [] ∧
      (res.ret = true → res.exp = 6) ∧
      (res.ret = false → res.exp = res.var.mem ∧ res.exp ≠ 6)) :=
  ⟨(compare_exchange_exp_holds_observed ⟨5, false, []⟩ 6 9 false ATOMIC_RELAXED
      (by decide) (by decide) (by decide)).1 ATOMIC_ACQ_REL _ (by decide),
   (compare_exchange_exp_holds_observed ⟨5, false, []⟩ 6 9 false ATOMIC_RELAXED
      (by decide) (by decide) (by decide)).2 MemoryOrder.Acquire [] (by decide)⟩

/-- C3: after `__lockfree_compare_exchange_16` the stored word equals `neu` when
the observed value equalled the original expected value and equals the observed
value (the word is unchanged) otherwise; in the exclusive load / store variant
every value handed to the store-conditional is `neu` if the value just loaded
equals `expected` and that loaded value itself if not. -/
theorem compare_exchange_stores_desired_or_observed
    (var : Machine) (e neu : Nat) (weak : Bool) (mo_failure : Int)
    (hm : var.mem < 2 ^ 128) (he : e < 2 ^ 128) (hn : neu < 2 ^ 128) :
    (∀ (mo_success : Int) (env : List Round), EnvOk env = true →
      ∃ o res t, observed var.mem env = some o ∧
        LLSC.__lockfree_compare_exchange_16 var e neu weak mo_success mo_failure env
          = .ok res ∧
        res.var.mem = (if o = e then neu else o) ∧
        res.var.trace = var.trace ++ t ∧ PairedStores e neu t = true) ∧
    (∀ (mo_success : MemoryOrder) (pre : List Nat), allU128 pre = true →
      ∃ res,
        CASP.__lockfree_compare_exchange_16 var e neu weak mo_success.toInt mo_failure pre
          = .ok res ∧
        res.var.mem = (if applyWrites var.mem pre = e then neu
          else applyWrites var.mem pre)) := by
  constructor
  · intro mo env hok
    obtain ⟨o, v, h1, h2, h3, _, _, t, h6, h7⟩ :=
      llsc_cas_spec var e neu weak mo mo_failure env hm hn hok
    exact ⟨o, _, t, h1, h2, h3, h6, h7⟩
  · intro mo pre hp
    exact ⟨_, casp_cas_spec var e neu weak mo mo_failure pre hm he hn hp, rfl⟩

theorem compare_exchange_stores_desired_or_observed_witness :
    (∃ o res t, observed 5 [⟨[], [8], [], false⟩, ⟨[6], [], [], false⟩] = some o ∧
      LLSC.__lockfree_compare_exchange_16 ⟨5, false, []⟩ 6 9 false ATOMIC_RELEASE
          ATOMIC_RELAXED [⟨[], [8], [], false⟩, ⟨[6], [], [], false⟩] = .ok res ∧
      res.var.mem = (if o = 6 then 9 else o) ∧
      res.var.trace = [] ++ t ∧ PairedStores 6 9 t = true) ∧
    (∃ res,
      CASP.__lockfree_compare_exchange_16 ⟨5, false, []⟩ 6 9 false
          MemoryOrder.Relaxed.toInt ATOMIC_RELAXED [4, 6] = .ok res ∧
      res.var.mem = (if applyWrites 5 [4, 6] = 6 then 9 else applyWrites 5 [4, 6])) :=
  ⟨(compare_exchange_stores_desired_or_observed ⟨5, false, []⟩ 6 9 false ATOMIC_RELAXED
      (by decide) (by decide) (by decide)).1 ATOMIC_RELEASE _ (by decide),
   (compare_exchange_stores_desired_or_observed ⟨5, false, []⟩ 6 9 false ATOMIC_RELAXED
      (by decide) (by decide) (by decide)).2 MemoryOrder.Relaxed [4, 6] (by decide)⟩


/-! ## Repeated loads -/

theorem call_each_const {α : Type} (f : Machine → α → Except Fault (Nat × Machine))
    (v : Nat) (P : α → Prop)
    (hf : ∀ (m : Machine) (c : α), m.mem = v → P c →
      ∃ m1, f m c = .ok (v, m1) ∧ m1.mem = v) :
    ∀ (cs : List α) (m : Machine), m.mem = v → (∀ c ∈ cs, P c) →
      loadsReturn v cs.length (call_each f m cs) = true := by
  have key : ∀ (cs : List α) (m : Machine), m.mem = v → (∀ c ∈ cs, P c) →
      ∃ m2, call_each f m cs = .ok (List.replicate cs.length v, m2) ∧ m2.mem = v := by
    intro cs
    induction cs with
    | nil => intro m hm _; exact ⟨m, rfl, hm⟩
    | cons c cs ih =>
      intro m hm hP
      obtain ⟨m1, h1, h2⟩ := hf m c hm (hP c (List.mem_cons_self _ _))
      obtain ⟨m2, h3, h4⟩ := ih m1 h2 (fun x hx => hP x (List.mem_cons_of_mem _ hx))
      refine ⟨m2, ?_, h4⟩
      simp only [call_each, h1, h3, List.length_cons, List.replicate_succ]
  intro cs m hm hP
  obtain ⟨m2, h1, h2⟩ := key cs m hm hP
  rw [h1]
  simp only [loadsReturn, beq_self_eq_true, Bool.true_and, Bool.and_eq_true, beq_iff_eq]
  refine ⟨?_, h2⟩
  rw [List.all_eq_true]
  intro x hx
  rw [List.eq_of_mem_replicate hx]
  simp

theorem llsc_load_quiet (var : Machine) (mo : Int) (env : List Round)
    (hm : var.mem < 2 ^ 128) (hq : Quiet env = true) :
    ∃ m1, LLSC.__lockfree_load_16 var mo none env = .ok (var.mem, m1)
      ∧ m1.mem = var.mem := by
  obtain ⟨v, h1, h2⟩ := llsc_cas_quiet var var.mem var.mem false mo mo env hm hm hq
  refine ⟨v, ?_, by simpa using h2⟩
  simp only [LLSC.__lockfree_load_16, plain_read, h1]

theorem casp_load_alone (var : Machine) (mo : MemoryOrder) (hm : var.mem < 2 ^ 128) :
    ∃ m1, CASP.__lockfree_load_16 var mo.toInt none [] = .ok (var.mem, m1)
      ∧ m1.mem = var.mem := by
  have h := casp_cas_spec var var.mem var.mem false mo mo.toInt [] hm hm hm rfl
  simp only [applyWrites_nil, if_true] at h
  refine ⟨{ mem := var.mem, monitor := var.monitor,
            trace := var.trace ++ [{ insn := caspForm mo, val := var.mem, status := 0 }] },
    ?_, rfl⟩
  simp only [CASP.__lockfree_load_16, plain_read, h]

/-- C4: with no concurrent writer, for every stored value `v`, every memory order
and every number of calls, `__lockfree_load_16` and `lockfree_load_u128` return
`v` each time, both 64-bit halves in place, and leave the stored word equal to
`v`.  In the exclusive load / store variant each call may meet any number of
lost monitors (`Quiet` environments); both variants are covered. -/
theorem load_repeated_returns_stored_value (var : Machine) (hm : var.mem < 2 ^ 128) :
    (∀ (mo : Int) (envs : List (List Round)), (∀ env ∈ envs, Quiet env = true) →
      loadsReturn var.mem envs.length
        (call_each (fun a env => LLSC.__lockfree_load_16 a mo none env) var envs) = true) ∧
    (∀ (envs : List (List Round)), (∀ env ∈ envs, Quiet env = true) →
      loadsReturn var.mem envs.length
        (call_each (fun a env => LLSC.lockfree_load_u128 a none env) var envs) = true) ∧
    (∀ (mo : MemoryOrder) (n : Nat),
      loadsReturn var.mem n
        (call_each (fun a (_ : Unit) => CASP.__lockfree_load_16 a mo.toInt none []) var
          (List.replicate n ())) = true) ∧
    (∀ (n : Nat),
      loadsReturn var.mem n
        (call_each (fun a (_ : Unit) => CASP.lockfree_load_u128 a none []) var
          (List.replicate n ())) = true) := by
  have hc : ∀ (mo : MemoryOrder) (n : Nat),
      loadsReturn var.mem n
        (call_each (fun a (_ : Unit) => CASP.__lockfree_load_16 a mo.toInt none []) var
          (List.replicate n ())) = true := by
    intro mo n
    have h := call_each_const
      (fun a (_ : Unit) => CASP.__lockfree_load_16 a mo.toInt none []) var.mem
      (fun _ => True)
      (fun m _ hmv _ => by
        obtain ⟨m1, h1, h2⟩ := casp_load_alone m mo (by rw [hmv]; exact hm)
        rw [hmv] at h1 h2
        exact ⟨m1, h1, h2⟩)
      (List.replicate n ()) var rfl (fun _ _ => trivial)
    rw [List.length_replicate] at h
    exact h
  have hl : ∀ (mo : Int) (envs : List (List Round)), (∀ env ∈ envs, Quiet env = true) →
      loadsReturn var.mem envs.length
        (call_each (fun a env => LLSC.__lockfree_load_16 a mo none env) var envs) = true := by
    intro mo envs hq
    exact call_each_const (fun a env => LLSC.__lockfree_load_16 a mo none env) var.mem
      (fun env => Quiet env = true)
      (fun m env hmv hqe => by
        obtain ⟨m1, h1, h2⟩ := llsc_load_quiet m mo env (by rw [hmv]; exact hm) hqe
        rw [hmv] at h1 h2
        exact ⟨m1, h1, h2⟩)
      envs var rfl hq
  exact ⟨hl, fun envs hq => hl ATOMIC_RELAXED envs hq, hc,
    fun n => hc MemoryOrder.Relaxed n⟩

theorem load_repeated_returns_stored_value_witness :
    loadsReturn (2 ^ 64 * 3 + 5) 3
      (call_each (fun a env => LLSC.__lockfree_load_16 a ATOMIC_ACQUIRE none env)
        ⟨2 ^ 64 * 3 + 5, false, []⟩
        [[⟨[], [], [], false⟩], [⟨[], [], [], true⟩, ⟨[], [], [], false⟩],
         [⟨[], [], [], false⟩]]) = true :=
  (load_repeated_returns_stored_value ⟨2 ^ 64 * 3 + 5, false, []⟩ (by decide)).1
    ATOMIC_ACQUIRE
    [[⟨[], [], [], false⟩], [⟨[], [], [], true⟩, ⟨[], [], [], false⟩],
     [⟨[], [], [], false⟩]] (by decide)


/-! ## The order mapper -/

/-- C5: for each of the four abstract orders, the order `LL_MO` gives to the
exclusive load is Acquire exactly when the requested order is Acquire or
AcquireRelease, and Relaxed exactly when it is Relaxed or Release. -/
theorem LL_MO_acquire_iff (mo : MemoryOrder) :
    (LL_MO mo.toInt = ATOMIC_ACQUIRE ↔
      (mo = MemoryOrder.Acquire ∨ mo = MemoryOrder.AcquireRelease)) ∧
    (LL_MO mo.toInt = ATOMIC_RELAXED ↔
      (mo = MemoryOrder.Relaxed ∨ mo = MemoryOrder.Release)) := by
  cases mo <;> decide

/-- C6: for each of the four abstract orders, the order `SC_MO` gives to the
exclusive store is Release exactly when the requested order is Release or
AcquireRelease, and Relaxed exactly when it is Relaxed or Acquire. -/
theorem SC_MO_release_iff (mo : MemoryOrder) :
    (SC_MO mo.toInt = ATOMIC_RELEASE ↔
      (mo = MemoryOrder.Release ∨ mo = MemoryOrder.AcquireRelease)) ∧
    (SC_MO mo.toInt = ATOMIC_RELAXED ↔
      (mo = MemoryOrder.Relaxed ∨ mo = MemoryOrder.Acquire)) := by
  cases mo <;> decide

/-! ## Ignored arguments -/

/-- C7: the failure order and the weak flag are ignored: two runs of
`__lockfree_compare_exchange_16` that agree on the machine (stored word, monitor,
trace), on `*exp`, on the desired value, on the success order and on what the
other agents do give the same outcome (return value, final `*exp`, final stored
word and the instructions issued, or the same fault), whatever their `mo_failure`
and `weak`.  Both variants. -/
theorem compare_exchange_ignores_failure_order_and_weak
    (var : Machine) (e neu : Nat) (mo_success : Int)
    (weak1 weak2 : Bool) (mo_failure1 mo_failure2 : Int) :
    (∀ env : List Round,
      LLSC.__lockfree_compare_exchange_16 var e neu weak1 mo_success mo_failure1 env =
      LLSC.__lockfree_compare_exchange_16 var e neu weak2 mo_success mo_failure2 env) ∧
    (∀ pre : List Nat,
      CASP.__lockfree_compare_exchange_16 var e neu weak1 mo_success mo_failure1 pre =
      CASP.__lockfree_compare_exchange_16 var e neu weak2 mo_success mo_failure2 pre) :=
  ⟨fun _ => rfl, fun _ => rfl⟩

/-! ## Two racing compare-exchanges -/

theorem llsc_two_cas_first_wins (var : Machine) (a b : Nat) (moA moB : Int)
    (envA envB : List Round) (hv : var.mem < 2 ^ 128) (ha : a < 2 ^ 128)
    (hb : b < 2 ^ 128) (hab : a ≠ var.mem)
    (hqa : Quiet envA = true) (hqb : Quiet envB = true) :
    firstWins a (LLSC.two_cas var var.mem a moA envA var.mem b moB envB) = true := by
  obtain ⟨v1, h1, h2⟩ :=
    llsc_cas_quiet var var.mem a false moA ATOMIC_RELAXED envA hv ha hqa
  simp only [if_true] at h2
  obtain ⟨v2, h3, h4⟩ :=
    llsc_cas_quiet v1 var.mem b false moB ATOMIC_RELAXED envB (by rw [h2]; exact ha) hb hqb
  rw [h2] at h3 h4
  simp only [if_neg hab] at h4
  simp only [LLSC.two_cas, h1, h3, firstWins, h4, beq_self_eq_true, Bool.and_true,
    Bool.true_and, Bool.not_eq_true', beq_eq_false_iff_ne, ne_eq]
  exact hab

theorem casp_two_cas_first_wins (var : Machine) (a b : Nat) (moA moB : MemoryOrder)
    (hv : var.mem < 2 ^ 128) (ha : a < 2 ^ 128) (hb : b < 2 ^ 128) (hab : a ≠ var.mem) :
    firstWins a (CASP.two_cas var var.mem a moA.toInt var.mem b moB.toInt) = true := by
  have h1 := casp_cas_spec var var.mem a false moA ATOMIC_RELAXED [] hv hv ha rfl
  simp only [applyWrites_nil, if_true] at h1
  have h3 := casp_cas_spec
    { mem := a, monitor := var.monitor,
      trace := var.trace ++ [{ insn := caspForm moA, val := var.mem, status := 0 }] }
    var.mem b false moB ATOMIC_RELAXED [] ha hv hb rfl
  simp only [applyWrites_nil, if_neg hab] at h3
  simp only [CASP.two_cas, h1, h3, firstWins, beq_self_eq_true, Bool.and_true,
    Bool.true_and, Bool.not_eq_true', beq_eq_false_iff_ne, ne_eq]
  exact hab

/-- C8: on a word holding `{0,0}`, compare-exchange A (`{0,0} -> {1,0}`, the value
`1`) and compare-exchange B (`{0,0} -> {0,1}`, the value `2 ^ 64`), each executed
as one whole call without interference, in either order: exactly one returns
true (the first), the final stored value is the winner's desired value, and the
loser returns false with its expected value overwritten by the winner's value.
Both variants, every order, any number of lost monitors. -/
theorem racing_compare_exchange_exactly_one_wins (monitor : Bool) (trace : List Event) :
    (∀ (moA moB : Int) (envA envB : List Round),
      Quiet envA = true → Quiet envB = true →
      firstWins 1
        (LLSC.two_cas ⟨0, monitor, trace⟩ 0 1 moA envA 0 (2 ^ 64) moB envB) = true ∧
      firstWins (2 ^ 64)
        (LLSC.two_cas ⟨0, monitor, trace⟩ 0 (2 ^ 64) moB envB 0 1 moA envA) = true) ∧
    (∀ (moA moB : MemoryOrder),
      firstWins 1
        (CASP.two_cas ⟨0, monitor, trace⟩ 0 1 moA.toInt 0 (2 ^ 64) moB.toInt) = true ∧
      firstWins (2 ^ 64)
        (CASP.two_cas ⟨0, monitor, trace⟩ 0 (2 ^ 64) moB.toInt 0 1 moA.toInt) = true) := by
  have h0 : (0 : Nat) < 2 ^ 128 := by norm_num
  have h1 : (1 : Nat) < 2 ^ 128 := by norm_num
  have h2 : (2 ^ 64 : Nat) < 2 ^ 128 := by norm_num
  have n1 : (1 : Nat) ≠ 0 := by norm_num
  have n2 : (2 ^ 64 : Nat) ≠ 0 := by norm_num
  constructor
  · intro moA moB envA envB hqa hqb
    exact ⟨llsc_two_cas_first_wins ⟨0, monitor, trace⟩ 1 (2 ^ 64) moA moB envA envB
        h0 h1 h2 n1 hqa hqb,
      llsc_two_cas_first_wins ⟨0, monitor, trace⟩ (2 ^ 64) 1 moB moA envB envA
        h0 h2 h1 n2 hqb hqa⟩
  · intro moA moB
    exact ⟨casp_two_cas_first_wins ⟨0, monitor, trace⟩ 1 (2 ^ 64) moA moB h0 h1 h2 n1,
      casp_two_cas_first_wins ⟨0, monitor, trace⟩ (2 ^ 64) 1 moB moA h0 h2 h1 n2⟩

theorem racing_compare_exchange_exactly_one_wins_witness :
    firstWins 1
      (LLSC.two_cas ⟨0, false, []⟩ 0 1 ATOMIC_ACQUIRE [⟨[], [], [], false⟩]
        0 (2 ^ 64) ATOMIC_RELEASE [⟨[], [], [], true⟩, ⟨[], [], [], false⟩]) = true ∧
    firstWins (2 ^ 64)
      (LLSC.two_cas ⟨0, false, []⟩ 0 (2 ^ 64) ATOMIC_RELEASE
        [⟨[], [], [], true⟩, ⟨[], [], [], false⟩]
        0 1 ATOMIC_ACQUIRE [⟨[], [], [], false⟩]) = true :=
  (racing_compare_exchange_exactly_one_wins false []).1 ATOMIC_ACQUIRE ATOMIC_RELEASE
    [⟨[], [], [], false⟩] [⟨[], [], [], true⟩, ⟨[], [], [], false⟩] (by decide) (by decide)


/-! ## The compare-exchange increment test -/

theorem bump_halves (v : Nat) :
    lo64 (bump v) = (lo64 v + 2) % 2 ^ 64 ∧ hi64 (bump v) = (hi64 v + 1) % 2 ^ 64 ∧
      bump v < 2 ^ 128 := by
  unfold bump
  generalize lo64 v = a
  generalize hi64 v = b
  unfold lo64 hi64
  rw [Nat.shiftRight_eq_div_pow]
  refine ⟨?_, ?_, ?_⟩ <;> omega

theorem bumps_halves (n v : Nat) (hv : v < 2 ^ 128) :
    lo64 (bumps n v) = (lo64 v + 2 * n) % 2 ^ 64 ∧
      hi64 (bumps n v) = (hi64 v + n) % 2 ^ 64 ∧ bumps n v < 2 ^ 128 := by
  induction n with
  | zero =>
    refine ⟨?_, ?_, hv⟩
    · simp only [bumps, Nat.mul_zero, Nat.add_zero]
      unfold lo64
      omega
    · simp only [bumps, Nat.add_zero]
      unfold hi64
      omega
  | succ n ih =>
    obtain ⟨h1, h2, _⟩ := ih
    obtain ⟨b1, b2, b3⟩ := bump_halves (bumps n v)
    refine ⟨?_, ?_, b3⟩
    · show lo64 (bump (bumps n v)) = _
      rw [b1, h1]
      omega
    · show hi64 (bump (bumps n v)) = _
      rw [b2, h2]
      omega

theorem wins_set (l : List Worker) (n : Nat) (w w1 : Worker) (h : l.get? n = some w) :
    ((l.set n w1).map Worker.wins).sum + w.wins = (l.map Worker.wins).sum + w1.wins := by
  induction l generalizing n with
  | nil => simp at h
  | cons x xs ih =>
    cases n with
    | zero =>
      simp only [List.get?_cons_zero, Option.some.injEq] at h
      subst h
      simp only [List.set_cons_zero, List.map_cons, List.sum_cons]
      omega
    | succ k =>
      simp only [List.get?_cons_succ] at h
      have := ih k h
      simp only [List.set_cons_succ, List.map_cons, List.sum_cons]
      omega

theorem wins_all_eq (l : List Worker) (c : Nat) (h : ∀ w ∈ l, w.wins = c) :
    (l.map Worker.wins).sum = l.length * c := by
  induction l with
  | nil => simp
  | cons x xs ih =>
    have h1 := h x (List.mem_cons_self _ _)
    have h2 := ih (fun w hw => h w (List.mem_cons_of_mem _ hw))
    simp only [List.map_cons, List.sum_cons, List.length_cons, h1, h2]
    rw [Nat.succ_mul]
    omega

theorem worker_step_spec {ε : Type} (B : Backend ε) (Good : ε → Prop)
    (hB : B.Atomic Good) (orders : List MemoryOrder) (cnt : Nat)
    (w : Worker) (var : Machine) (env : ε)
    (hm : var.mem < 2 ^ 128) (hw : w.ok orders.length cnt) (hg : Good env) :
    ∃ w1 m1, Worker.step B orders cnt w var env = .ok (w1, m1) ∧
      w1.ok orders.length cnt ∧ m1.mem < 2 ^ 128 ∧
      ((w1.wins = w.wins ∧ m1.mem = var.mem) ∨
       (w1.wins = w.wins + 1 ∧ m1.mem = bump var.mem)) := by
  obtain ⟨ho, hfn, hi, hdo, hend, hwins⟩ := hw
  cases hget : orders.get? w.fn with
  | none =>
    refine ⟨w, var, ?_, ⟨ho, hfn, hi, hdo, hend, hwins⟩, hm, Or.inl ⟨rfl, rfl⟩⟩
    simp only [Worker.step, hget]
  | some mo =>
    have hlt : w.fn < orders.length := by
      rcases Nat.lt_or_ge w.fn orders.length with h | h
      · exact h
      · rw [List.get?_eq_none.mpr h] at hget
        cases hget
    by_cases hd : w.inDo = true
    · obtain ⟨hic, _⟩ := hdo hd
      obtain ⟨m1, hc, hmem⟩ :=
        hB.2 var w.old (bump w.old) mo env hm ho (bump_halves w.old).2.2 hg
      by_cases heq : var.mem = w.old
      · have hret : (var.mem == w.old) = true := by simpa using heq
        have hstep : Worker.step B orders cnt w var env =
            .ok ({ w with i := w.i + 1, inDo := false, old := var.mem,
                          wins := w.wins + 1 }, m1) := by
          simp only [Worker.step, hget, hd, if_true, hc, hret]
        refine ⟨_, _, hstep, ?_, ?_, Or.inr ⟨rfl, ?_⟩⟩
        · refine ⟨hm, hfn, hic, ?_, ?_, ?_⟩
          · intro h; cases h
          · intro h
            have h2 : w.fn = orders.length := h
            omega
          · show w.wins + 1 = w.fn * cnt + (w.i + 1)
            omega
        · rw [hmem, if_pos heq]
          exact (bump_halves w.old).2.2
        · rw [hmem, if_pos heq, heq]
      · have hret : (var.mem == w.old) = false := by simpa using heq
        have hstep : Worker.step B orders cnt w var env =
            .ok ({ w with old := var.mem }, m1) := by
          simp only [Worker.step, hget, hd, if_true, hc, hret, Bool.false_eq_true, if_false]
        refine ⟨_, _, hstep, ?_, ?_, Or.inl ⟨rfl, ?_⟩⟩
        · refine ⟨hm, hfn, hi, ?_, ?_, hwins⟩
          · intro _; exact hdo hd
          · intro h
            have h2 : w.fn = orders.length := h
            omega
        · rw [hmem, if_neg heq]
          exact hm
        · rw [hmem, if_neg heq]
    · have hd2 : w.inDo = false := by simpa using hd
      by_cases hic : w.i < cnt
      · obtain ⟨m1, hl, hmem⟩ := hB.1 var env hm hg
        have hstep : Worker.step B orders cnt w var env =
            .ok ({ w with inDo := true, old := var.mem }, m1) := by
          simp only [Worker.step, hget, hd2, Bool.false_eq_true, if_false, hic, if_true, hl]
        refine ⟨_, _, hstep, ?_, ?_, Or.inl ⟨rfl, hmem⟩⟩
        · refine ⟨hm, hfn, hi, ?_, ?_, hwins⟩
          · intro _; exact ⟨hic, hlt⟩
          · intro h
            have h2 : w.fn = orders.length := h
            omega
        · rw [hmem]; exact hm
      · have hstep : Worker.step B orders cnt w var env =
            .ok ({ w with fn := w.fn + 1, i := 0 }, var) := by
          simp only [Worker.step, hget, hd2, Bool.false_eq_true, if_false, hic]
        refine ⟨_, _, hstep, ?_, hm, Or.inl ⟨rfl, rfl⟩⟩
        refine ⟨ho, ?_, Nat.zero_le _, ?_, ?_, ?_⟩
        · show w.fn + 1 ≤ orders.length
          omega
        · intro h
          rw [hd2] at h
          cases h
        · intro _
          exact ⟨rfl, hd2⟩
        · show w.wins = (w.fn + 1) * cnt + 0
          have : w.i = cnt := by omega
          rw [hwins, this, Nat.succ_mul]
          omega


theorem sys_start_inv (init L cnt T : Nat) (hinit : init < 2 ^ 128) :
    (Sys.start init T).Inv init L cnt T := by
  refine ⟨hinit, ?_, ?_, ?_⟩
  · intro w hw
    have hw2 : w = { fn := 0, i := 0, inDo := false, old := 0, wins := 0 } :=
      List.eq_of_mem_replicate hw
    subst hw2
    refine ⟨by norm_num, Nat.zero_le _, Nat.zero_le _, ?_, ?_, ?_⟩
    · intro h; cases h
    · intro _; exact ⟨rfl, rfl⟩
    · show 0 = 0 * cnt + 0
      omega
  · have h0 : (Sys.start init T).wins = 0 := by
      have := wins_all_eq (Sys.start init T).workers 0
        (fun w hw => by rw [List.eq_of_mem_replicate hw])
      simpa [Sys.wins] using this
    rw [h0]
    rfl
  · simp [Sys.start]

theorem sys_step_inv {ε : Type} (B : Backend ε) (Good : ε → Prop)
    (hB : B.Atomic Good) (orders : List MemoryOrder) (init cnt T : Nat)
    (s : Sys) (slot : Nat × ε) (hs : s.Inv init orders.length cnt T) (hg : Good slot.2) :
    ∃ s1, Sys.step B orders cnt s slot = .ok s1 ∧ s1.Inv init orders.length cnt T := by
  obtain ⟨hm, hws, hmem, hlen⟩ := hs
  cases hget : s.workers.get? slot.1 with
  | none =>
    exact ⟨s, by simp only [Sys.step, hget], hm, hws, hmem, hlen⟩
  | some w =>
    obtain ⟨w1, m1, hstep, hok, hm1, hcase⟩ :=
      worker_step_spec B Good hB orders cnt w s.var slot.2 hm
        (hws w (List.get?_mem hget)) hg
    refine ⟨{ var := m1, workers := s.workers.set slot.1 w1 },
      by simp only [Sys.step, hget, hstep], hm1, ?_, ?_, ?_⟩
    · intro x hx
      rcases List.mem_or_eq_of_mem_set hx with h | h
      · exact hws x h
      · rw [h]; exact hok
    · have hsum := wins_set s.workers slot.1 w w1 hget
      show m1.mem = bumps ((List.map Worker.wins (s.workers.set slot.1 w1)).sum) init
      rcases hcase with ⟨h1, h2⟩ | ⟨h1, h2⟩
      · have : (List.map Worker.wins (s.workers.set slot.1 w1)).sum = s.wins := by
          unfold Sys.wins
          omega
        rw [this, h2]
        exact hmem
      · have : (List.map Worker.wins (s.workers.set slot.1 w1)).sum = s.wins + 1 := by
          unfold Sys.wins
          omega
        rw [this, h2, hmem]
        rfl
    · show (s.workers.set slot.1 w1).length = T
      rw [List.length_set]
      exact hlen

theorem sys_run_inv {ε : Type} (B : Backend ε) (Good : ε → Prop)
    (hB : B.Atomic Good) (orders : List MemoryOrder) (init cnt T : Nat) :
    ∀ (sched : List (Nat × ε)) (s : Sys), s.Inv init orders.length cnt T →
      (∀ slot ∈ sched, Good slot.2) →
      ∃ s1, Sys.run B orders cnt s sched = .ok s1 ∧ s1.Inv init orders.length cnt T := by
  intro sched
  induction sched with
  | nil => intro s hs _; exact ⟨s, rfl, hs⟩
  | cons slot rest ih =>
    intro s hs hg
    obtain ⟨s1, h1, h2⟩ :=
      sys_step_inv B Good hB orders init cnt T s slot hs (hg slot (List.mem_cons_self _ _))
    obtain ⟨s2, h3, h4⟩ := ih s1 h2 (fun x hx => hg x (List.mem_cons_of_mem _ hx))
    exact ⟨s2, by simp only [Sys.run, h1, h3], h4⟩

theorem inv_counted (orders : List MemoryOrder) (init cnt T : Nat) (s : Sys)
    (hinit : init < 2 ^ 128) (hs : s.Inv init orders.length cnt T) :
    Counted orders cnt T init s := by
  obtain ⟨_, hws, hmem, hlen⟩ := hs
  refine ⟨hmem, ?_⟩
  intro hdone
  have hall : ∀ w ∈ s.workers, w.wins = orders.length * cnt := by
    intro w hw
    obtain ⟨_, hfn, _, _, hend, hwins⟩ := hws w hw
    have hge : orders.length ≤ w.fn := by
      unfold Sys.allDone at hdone
      exact of_decide_eq_true (List.all_eq_true.mp hdone w hw)
    have hfneq : w.fn = orders.length := Nat.le_antisymm hfn hge
    rw [hwins, (hend hfneq).1, hfneq]
    omega
  have hw : s.wins = T * (orders.length * cnt) := by
    unfold Sys.wins
    rw [wins_all_eq s.workers _ hall, hlen]
  obtain ⟨b1, b2, _⟩ := bumps_halves s.wins init hinit
  rw [← hmem, hw] at b1 b2
  refine ⟨hw, b1, b2, ?_⟩
  intro heq
  have hd : halves_diff s.var.mem = (T * (orders.length * cnt)) % 2 ^ 64 := by
    unfold halves_diff
    rw [b1, b2, heq]
    omega
  exact ⟨hd, fun hlt => by rw [hd, Nat.mod_eq_of_lt hlt]⟩

theorem llsc_backend_atomic : llscBackend.Atomic (fun env => Quiet env = true) := by
  constructor
  · intro m env hm hq
    exact llsc_load_quiet m ATOMIC_RELAXED env hm hq
  · intro m e n mo env hm _ hn hq
    exact llsc_cas_quiet m e n false mo.toInt ATOMIC_RELAXED env hm hn hq

theorem casp_backend_atomic : caspBackend.Atomic (fun _ => True) := by
  constructor
  · intro m _ hm _
    exact casp_load_alone m MemoryOrder.Relaxed hm
  · intro m e n mo _ hm he hn _
    have h := casp_cas_spec m e n false mo ATOMIC_RELAXED [] hm he hn rfl
    simp only [applyWrites_nil] at h
    exact ⟨_, h, rfl⟩

/-- C9: every successful compare-exchange increment is counted exactly once and
failed ones change nothing.  In every interleaving of whole load and
compare-exchange steps of `T` workers running the test loop (`cnt` iterations
for each order in `orders`), the run returns, and at its end the word is the
initial value incremented once per successful compare-exchange; when all
workers have finished there were `T * (orders.length * cnt)` successes, each
64-bit half advanced by that many increments (modulo `2 ^ 64`), and starting
from equal halves `u64[0] - u64[1]` equals that number modulo `2 ^ 64`.
For the test, `orders.length = 4` and `cnt = CNT`.  Both variants. -/
theorem cas_increments_counted_exactly_once
    (orders : List MemoryOrder) (cnt T init : Nat) (hinit : init < 2 ^ 128) :
    (∀ sched : List (Nat × List Round),
      sched.all (fun slot => Quiet slot.2) = true →
      ∃ s, Sys.run llscBackend orders cnt (Sys.start init T) sched = .ok s ∧
        Counted orders cnt T init s) ∧
    (∀ sched : List (Nat × Unit),
      ∃ s, Sys.run caspBackend orders cnt (Sys.start init T) sched = .ok s ∧
        Counted orders cnt T init s) := by
  constructor
  · intro sched hq
    obtain ⟨s, h1, h2⟩ := sys_run_inv llscBackend (fun env => Quiet env = true)
      llsc_backend_atomic orders init cnt T sched _
      (sys_start_inv init orders.length cnt T hinit)
      (fun slot hslot => List.all_eq_true.mp hq slot hslot)
    exact ⟨s, h1, inv_counted orders init cnt T s hinit h2⟩
  · intro sched
    obtain ⟨s, h1, h2⟩ := sys_run_inv caspBackend (fun _ => True)
      casp_backend_atomic orders init cnt T sched _
      (sys_start_inv init orders.length cnt T hinit)
      (fun _ _ => trivial)
    exact ⟨s, h1, inv_counted orders init cnt T s hinit h2⟩


theorem cas_increments_counted_exactly_once_witness :
    ∃ s, Sys.run llscBackend cas_inc_128_orders 1
        (Sys.start (U64_INIT_VAL + U64_INIT_VAL * 2 ^ 64) 2) sampleSchedule = .ok s ∧
      Sys.allDone cas_inc_128_orders s = true ∧ halves_diff s.var.mem = 8 ∧
      Counted cas_inc_128_orders 1 2 (U64_INIT_VAL + U64_INIT_VAL * 2 ^ 64) s := by
  obtain ⟨s, h1, h2⟩ :=
    (cas_increments_counted_exactly_once cas_inc_128_orders 1 2
      (U64_INIT_VAL + U64_INIT_VAL * 2 ^ 64) (by decide)).1 sampleSchedule (by decide)
  have h3 : (match Sys.run llscBackend cas_inc_128_orders 1
        (Sys.start (U64_INIT_VAL + U64_INIT_VAL * 2 ^ 64) 2) sampleSchedule with
      | .ok s => Sys.allDone cas_inc_128_orders s && halves_diff s.var.mem == 8
      | .error _ => false) = true := by decide
  rw [h1] at h3
  simp only [Bool.and_eq_true, beq_iff_eq] at h3
  exact ⟨s, h1, h3.1, h3.2, h2⟩


/-! ## Atomicity of the load -/

theorem plain_read_lt (var : Machine) (torn : Option Nat) (hm : var.mem < 2 ^ 128)
    (ht : tornOk torn = true) : plain_read var torn < 2 ^ 128 := by
  cases torn with
  | none => exact hm
  | some c => exact of_decide_eq_true ht

/-- C10: whatever the other agents store to the word while `__lockfree_load_16`
runs (whole 128-bit values, each landing before, between or after the two
register loads of any exclusive load), and whatever the initial plain read
yields, the load returns a value that is the initial value of the word or one
of the values stored whole by another agent, namely the value the word held when
the final store-exclusive (or the `casp`) took effect; it never returns a mix of
the halves of two stores.  Both variants. -/
theorem load_returns_whole_stored_value (var : Machine) (hm : var.mem < 2 ^ 128) :
    (∀ (mo : Int) (torn : Option Nat) (env : List Round),
      tornOk torn = true → EnvOk env = true →
      ∃ x m, LLSC.__lockfree_load_16 var mo torn env = .ok (x, m) ∧
        observed var.mem env = some x ∧ x ∈ var.mem :: history env) ∧
    (∀ (mo : MemoryOrder) (torn : Option Nat) (pre : List Nat),
      tornOk torn = true → allU128 pre = true →
      ∃ x m, CASP.__lockfree_load_16 var mo.toInt torn pre = .ok (x, m) ∧
        x = applyWrites var.mem pre ∧ x ∈ var.mem :: pre) := by
  constructor
  · intro mo torn env ht hok
    have hc := plain_read_lt var torn hm ht
    obtain ⟨o, v, h1, h2, _, _, h5, _⟩ :=
      llsc_cas_spec var (plain_read var torn) (plain_read var torn) false mo mo env hm hc hok
    refine ⟨o, v, ?_, h1, ?_⟩
    · simp only [LLSC.__lockfree_load_16, h2]
    · rcases h5 with h | h
      · rw [h]; exact List.mem_cons_self _ _
      · exact List.mem_cons_of_mem _ h
  · intro mo torn pre ht hp
    have hc := plain_read_lt var torn hm ht
    have h := casp_cas_spec var (plain_read var torn) (plain_read var torn) false mo
      mo.toInt pre hm hc hc hp
    refine ⟨applyWrites var.mem pre,
      { mem := if applyWrites var.mem pre = plain_read var torn then plain_read var torn
                 else applyWrites var.mem pre,
        monitor := var.monitor,
        trace := var.trace ++
          [{ insn := caspForm mo, val := applyWrites var.mem pre, status := 0 }] },
      ?_, rfl, ?_⟩
    · simp only [CASP.__lockfree_load_16, h]
    · rcases applyWrites_mem var.mem pre with h2 | h2
      · rw [h2]; exact List.mem_cons_self _ _
      · exact List.mem_cons_of_mem _ h2

theorem load_returns_whole_stored_value_witness :
    ∃ x m, LLSC.__lockfree_load_16 ⟨5, false, []⟩ ATOMIC_ACQUIRE (some (2 ^ 64 * 3 + 5))
        [⟨[], [2 ^ 64 * 3 + 2], [], false⟩, ⟨[7], [], [], false⟩] = .ok (x, m) ∧
      observed 5 [⟨[], [2 ^ 64 * 3 + 2], [], false⟩, ⟨[7], [], [], false⟩] = some x ∧
      x ∈ 5 :: history [⟨[], [2 ^ 64 * 3 + 2], [], false⟩, ⟨[7], [], [], false⟩] :=
  (load_returns_whole_stored_value ⟨5, false, []⟩ (by decide)).1 ATOMIC_ACQUIRE
    (some (2 ^ 64 * 3 + 5)) [⟨[], [2 ^ 64 * 3 + 2], [], false⟩, ⟨[7], [], [], false⟩]
    (by decide) (by decide)


/-! ## The capability query -/

/-- C11: in the aarch64 backends (exclusive load / store and `casp` alike)
`lockfree_check_u128` is the constant 1: it has no argument and no access to the
machine, so every call returns 1. -/
theorem aarch64_lockfree_check_u128_is_one :
    LLSC.lockfree_check_u128 = 1 ∧ CASP.lockfree_check_u128 = 1 :=
  ⟨rfl, rfl⟩

/-- C12: in the generic-builtin backend `lockfree_check_u128` returns exactly the
toolchain's answer for 16-byte objects, `__atomic_is_lock_free(16, NULL)`: it is
non-zero if and only if the toolchain reports lock-freedom, and 0 if and only if
it does not (a build lacking hardware support). -/
theorem default_lockfree_check_u128_is_toolchain_answer
    (atomic_is_lock_free : Nat → Option Nat → Bool) :
    (Default.lockfree_check_u128 atomic_is_lock_free ≠ 0 ↔
      atomic_is_lock_free 16 none = true) ∧
    (Default.lockfree_check_u128 atomic_is_lock_free = 0 ↔
      atomic_is_lock_free 16 none = false) ∧
    (Default.lockfree_check_u128 atomic_is_lock_free = 1 ∨
      Default.lockfree_check_u128 atomic_is_lock_free = 0) := by
  unfold Default.lockfree_check_u128
  cases atomic_is_lock_free 16 none <;> simp

/-! ## Orders in the paired-register compare-and-swap -/

/-- C14: `cas_u128` selects the instruction form directly from the requested
order (Relaxed -> `casp`, Acquire -> `caspa`, Release -> `caspl`, AcquireRelease
-> `caspal`, exactly one instruction issued) and aborts if and only if the order
is none of these four; in particular `__ATOMIC_SEQ_CST` and `__ATOMIC_CONSUME`
abort. -/
theorem cas_u128_form_follows_order_else_abort
    (ptr : Machine) (old_val new_val : Nat) (pre : List Nat) :
    (∀ mo : MemoryOrder, ∃ x v ev,
      CASP.cas_u128 ptr old_val new_val mo.toInt pre = .ok (x, v) ∧
      v.trace = ptr.trace ++ [ev] ∧ ev.insn = caspForm mo) ∧
    (caspForm MemoryOrder.Relaxed = Insn.casp ∧ caspForm MemoryOrder.Acquire = Insn.caspa ∧
      caspForm MemoryOrder.Release = Insn.caspl ∧
      caspForm MemoryOrder.AcquireRelease = Insn.caspal) ∧
    (∀ mo : Int, CASP.cas_u128 ptr old_val new_val mo pre = .error Fault.abort ↔
      ¬ (mo = ATOMIC_RELAXED ∨ mo = ATOMIC_ACQUIRE ∨ mo = ATOMIC_RELEASE ∨
         mo = ATOMIC_ACQ_REL)) ∧
    CASP.cas_u128 ptr old_val new_val ATOMIC_SEQ_CST pre = .error Fault.abort ∧
    CASP.cas_u128 ptr old_val new_val ATOMIC_CONSUME pre = .error Fault.abort := by
  refine ⟨?_, ⟨rfl, rfl, rfl, rfl⟩, ?_, rfl, rfl⟩
  · intro mo
    cases mo <;> exact ⟨_, _, _, rfl, rfl, rfl⟩
  · intro mo
    by_cases h1 : mo = ATOMIC_RELAXED
    · subst h1; simp [CASP.cas_u128, ATOMIC_RELAXED]
    · by_cases h2 : mo = ATOMIC_ACQUIRE
      · subst h2; simp [CASP.cas_u128, ATOMIC_RELAXED, ATOMIC_ACQUIRE]
      · by_cases h3 : mo = ATOMIC_ACQ_REL
        · subst h3
          simp [CASP.cas_u128, ATOMIC_RELAXED, ATOMIC_ACQUIRE, ATOMIC_ACQ_REL]
        · by_cases h4 : mo = ATOMIC_RELEASE
          · subst h4
            simp [CASP.cas_u128, ATOMIC_RELAXED, ATOMIC_ACQUIRE, ATOMIC_ACQ_REL,
              ATOMIC_RELEASE]
          · have b1 : (mo == ATOMIC_RELAXED) = false := by simpa using h1
            have b2 : (mo == ATOMIC_ACQUIRE) = false := by simpa using h2
            have b3 : (mo == ATOMIC_ACQ_REL) = false := by simpa using h3
            have b4 : (mo == ATOMIC_RELEASE) = false := by simpa using h4
            simp only [CASP.cas_u128, b1, b2, b3, b4, Bool.false_eq_true, if_false, true_iff]
            rintro (h | h | h | h)
            · exact h1 h
            · exact h2 h
            · exact h4 h
            · exact h3 h


/-! ## A load requested with Release order -/

theorem cas_loop_alternates (expected neu : Nat) (ll_mo sc_mo : Int)
    (hll : ll_mo = ATOMIC_ACQUIRE ∨ ll_mo = ATOMIC_RELAXED)
    (hsc : sc_mo = ATOMIC_RELEASE ∨ sc_mo = ATOMIC_RELAXED) :
    ∀ (env : List Round) (var : Machine) (old : Nat) (v : Machine),
      LLSC.cas_loop expected neu ll_mo sc_mo var env = .ok (old, v) →
      ∃ t, v.trace = var.trace ++ t ∧
        alternates (if ll_mo == ATOMIC_ACQUIRE then Insn.ldaxp else Insn.ldxp)
          (if sc_mo == ATOMIC_RELEASE then Insn.stlxp else Insn.stxp) t = true := by
  intro env
  induction env with
  | nil => intro var old v h; simp [LLSC.cas_loop] at h
  | cons r rs ih =>
    intro var old v h
    cases hc : (r.w2.isEmpty && r.w3.isEmpty && !r.lost) with
    | true =>
      simp only [LLSC.cas_loop, lld_eq _ _ _ hll, scd_eq _ _ _ _ hsc, hc, if_true,
        bne_self_eq_false, Bool.false_eq_true, if_false, Except.ok.injEq,
        Prod.mk.injEq] at h
      obtain ⟨_, rfl⟩ := h
      refine ⟨_, List.append_assoc _ _ _, ?_⟩
      simp only [List.singleton_append, alternates, beq_self_eq_true, Bool.and_self]
    | false =>
      have h1 : ((1 : Nat) != 0) = true := rfl
      simp only [LLSC.cas_loop, lld_eq _ _ _ hll, scd_eq _ _ _ _ hsc, hc,
        Bool.false_eq_true, if_false, h1, if_true] at h
      obtain ⟨t, ht, hp⟩ := ih _ _ _ h
      simp only [List.append_assoc, List.singleton_append] at ht
      simp only [List.cons_append, List.nil_append] at ht
      refine ⟨_, ht, ?_⟩
      simp only [alternates, beq_self_eq_true, Bool.and_self, hp]

theorem cas_loop_ok_or_starved (expected neu : Nat) (ll_mo sc_mo : Int)
    (hll : ll_mo = ATOMIC_ACQUIRE ∨ ll_mo = ATOMIC_RELAXED)
    (hsc : sc_mo = ATOMIC_RELEASE ∨ sc_mo = ATOMIC_RELAXED) :
    ∀ (env : List Round) (var : Machine),
      (∃ res, LLSC.cas_loop expected neu ll_mo sc_mo var env = .ok res) ∨
      LLSC.cas_loop expected neu ll_mo sc_mo var env = .error Fault.starved := by
  intro env
  induction env with
  | nil => intro var; right; rfl
  | cons r rs ih =>
    intro var
    cases hc : (r.w2.isEmpty && r.w3.isEmpty && !r.lost) with
    | true =>
      left
      simp only [LLSC.cas_loop, lld_eq _ _ _ hll, scd_eq _ _ _ _ hsc, hc, if_true,
        bne_self_eq_false, Bool.false_eq_true, if_false]
      exact ⟨_, rfl⟩
    | false =>
      have h1 : ((1 : Nat) != 0) = true := rfl
      simp only [LLSC.cas_loop, lld_eq _ _ _ hll, scd_eq _ _ _ _ hsc, hc,
        Bool.false_eq_true, if_false, h1, if_true]
      exact ih _

theorem llsc_load_ok_or_starved (var : Machine) (mo : Int) (torn : Option Nat)
    (env : List Round) :
    (∃ res, LLSC.__lockfree_load_16 var mo torn env = .ok res) ∨
    LLSC.__lockfree_load_16 var mo torn env = .error Fault.starved := by
  rcases cas_loop_ok_or_starved (plain_read var torn) (plain_read var torn) (LL_MO mo)
    (SC_MO mo) (LL_MO_valid mo) (SC_MO_valid mo) env var with ⟨⟨old, v⟩, h⟩ | h
  · left
    simp only [LLSC.__lockfree_load_16, LLSC.__lockfree_compare_exchange_16, h]
    exact ⟨_, rfl⟩
  · right
    simp only [LLSC.__lockfree_load_16, LLSC.__lockfree_compare_exchange_16, h]

theorem loadAttempts_length (l s : Insn) (v : Nat) :
    ∀ k, (loadAttempts l s v k).length = 2 * (k + 1) := by
  intro k
  induction k with
  | zero => rfl
  | succ k ih =>
    simp only [loadAttempts, List.length_cons, ih]
    omega

theorem quiet_self_loop (v c : Nat) (hv : v < 2 ^ 128) (ll_mo sc_mo : Int)
    (hll : ll_mo = ATOMIC_ACQUIRE ∨ ll_mo = ATOMIC_RELAXED)
    (hsc : sc_mo = ATOMIC_RELEASE ∨ sc_mo = ATOMIC_RELAXED) :
    ∀ (env : List Round) (var : Machine), var.mem = v → Quiet env = true →
      LLSC.cas_loop c c ll_mo sc_mo var env =
        .ok (v, { mem := v, monitor := false,
                  trace := var.trace ++ loadAttempts
                    (if ll_mo == ATOMIC_ACQUIRE then Insn.ldaxp else Insn.ldxp)
                    (if sc_mo == ATOMIC_RELEASE then Insn.stlxp else Insn.stxp) v
                    (failuresBefore env) }) := by
  have hj : lo64 v + hi64 v * 2 ^ 64 = v := join_halves v hv
  have hneu : (if (v == c) = true then c else v) = v := by
    split
    · rename_i h
      exact (beq_iff_eq.1 h).symm
    · rfl
  intro env
  induction env with
  | nil => intro var _ h; simp [Quiet] at h
  | cons r rs ih =>
    intro var hm hq
    obtain ⟨w1, w2, w3, lost⟩ := r
    simp only [Quiet, List.all_cons, List.any_cons, Bool.and_eq_true, Round.silent,
      List.isEmpty_iff] at hq
    obtain ⟨⟨⟨⟨h1, h2⟩, h3⟩, hall⟩, hany⟩ := hq
    subst h1 h2 h3
    cases lost with
    | false =>
      have hc : Round.clean ⟨[], [], [], false⟩ = true := rfl
      simp only [LLSC.cas_loop, lld_eq _ _ _ hll, scd_eq _ _ _ _ hsc, applyWrites_nil,
        hm, hj, hneu, List.isEmpty_nil, Bool.not_false, Bool.and_self, if_true,
        bne_self_eq_false, Bool.false_eq_true, if_false, failuresBefore, hc, loadAttempts,
        List.append_assoc, List.singleton_append]
    | true =>
      have hc : Round.clean ⟨[], [], [], true⟩ = false := rfl
      have hq2 : Quiet rs = true := by
        simp only [Quiet, Bool.and_eq_true]
        refine ⟨hall, ?_⟩
        simpa using hany
      have h1 : ((1 : Nat) != 0) = true := rfl
      simp only [LLSC.cas_loop, lld_eq _ _ _ hll, scd_eq _ _ _ _ hsc, applyWrites_nil,
        hm, hj, hneu, List.isEmpty_nil, Bool.not_true, Bool.and_false, Bool.false_eq_true,
        if_false, h1, if_true, failuresBefore, hc, loadAttempts]
      rw [ih _ rfl hq2]
      simp only [List.append_assoc, List.singleton_append, List.cons_append,
        List.nil_append]

/-- C15: a load requested with Release order is tolerated.  For every stored value
`v`, `__lockfree_load_16(var, __ATOMIC_RELEASE)` never stops on an assertion of
`lld` / `scd` nor aborts (whatever the environment; it can only be starved of a
successful store); without another writer it returns `v` and leaves the word
equal to `v`, whatever its plain read gave.  In the exclusive load / store
variant the request is carried out as Relaxed exclusive loads (`ldxp`) each
followed by a Release exclusive store (`stlxp`) of the value loaded: the
instructions issued are exactly one such pair per failed store and a last pair
whose store takes effect, so at least one `ldxp` and one `stlxp`; the `casp`
variant issues one `caspl`. -/
theorem load_with_release_order_is_tolerated (var : Machine) (hm : var.mem < 2 ^ 128) :
    (LL_MO ATOMIC_RELEASE = ATOMIC_RELAXED ∧ SC_MO ATOMIC_RELEASE = ATOMIC_RELEASE) ∧
    (∀ (torn : Option Nat) (env : List Round),
      LLSC.__lockfree_load_16 var ATOMIC_RELEASE torn env ≠ .error Fault.assertion ∧
      LLSC.__lockfree_load_16 var ATOMIC_RELEASE torn env ≠ .error Fault.abort) ∧
    (∀ (torn : Option Nat) (env : List Round), Quiet env = true →
      ∃ m t, LLSC.__lockfree_load_16 var ATOMIC_RELEASE torn env = .ok (var.mem, m) ∧
        m.mem = var.mem ∧ m.trace = var.trace ++ t ∧
        alternates Insn.ldxp Insn.stlxp t = true ∧
        t = loadAttempts Insn.ldxp Insn.stlxp var.mem (failuresBefore env) ∧
        t.length = 2 * (failuresBefore env + 1) ∧ t ≠ [] ∧
        attemptsShape (failuresBefore env) t = some var.mem) ∧
    (∀ (r : Round) (rs : List Round), Quiet (r :: rs) = true → r.lost = false →
      ∃ m, LLSC.__lockfree_load_16 var ATOMIC_RELEASE none (r :: rs) = .ok (var.mem, m) ∧
        m.trace = var.trace ++ [{ insn := Insn.ldxp, val := var.mem, status := 0 },
          { insn := Insn.stlxp, val := var.mem, status := 0 }]) ∧
    (∃ m, CASP.__lockfree_load_16 var ATOMIC_RELEASE none [] = .ok (var.mem, m) ∧
      m.mem = var.mem ∧
      m.trace = var.trace ++ [{ insn := Insn.caspl, val := var.mem, status := 0 }]) := by
  have hloop : ∀ (torn : Option Nat) (env : List Round), Quiet env = true →
      LLSC.__lockfree_load_16 var ATOMIC_RELEASE torn env =
        .ok (var.mem, Machine.mk var.mem false (var.trace ++
            loadAttempts Insn.ldxp Insn.stlxp var.mem (failuresBefore env))) := by
    intro torn env hq
    have h := quiet_self_loop var.mem (plain_read var torn) hm (LL_MO ATOMIC_RELEASE)
      (SC_MO ATOMIC_RELEASE) (LL_MO_valid _) (SC_MO_valid _) env var rfl hq
    simp only [LLSC.__lockfree_load_16, LLSC.__lockfree_compare_exchange_16, h]
    rfl
  refine ⟨⟨rfl, rfl⟩, ?_, ?_, ?_, ?_⟩
  · intro torn env
    rcases llsc_load_ok_or_starved var ATOMIC_RELEASE torn env with ⟨res, h⟩ | h
    · rw [h]
      exact ⟨fun h2 => (by cases h2), fun h2 => (by cases h2)⟩
    · rw [h]
      exact ⟨fun h2 => (by cases h2), fun h2 => (by cases h2)⟩
  · intro torn env hq
    have hshape : ∀ k, alternates Insn.ldxp Insn.stlxp
          (loadAttempts Insn.ldxp Insn.stlxp var.mem k) = true ∧
        attemptsShape k (loadAttempts Insn.ldxp Insn.stlxp var.mem k) = some var.mem := by
      intro k
      induction k with
      | zero => exact ⟨rfl, rfl⟩
      | succ k ih =>
        refine ⟨?_, ?_⟩
        · simp only [loadAttempts, alternates, ih.1, beq_self_eq_true, Bool.and_self]
        · simp only [loadAttempts, attemptsShape, ih.2]
          rfl
    refine ⟨_, _, hloop torn env hq, rfl, rfl, (hshape _).1, rfl,
      loadAttempts_length _ _ _ _, ?_, (hshape _).2⟩
    intro h0
    have hl := loadAttempts_length Insn.ldxp Insn.stlxp var.mem (failuresBefore env)
    rw [h0] at hl
    simp at hl
  · intro r rs hq hl
    have hc : r.clean = true := by
      simp only [Quiet, List.all_cons, Bool.and_eq_true, Round.silent] at hq
      simp only [Round.clean, hq.1.1.1.2, hq.1.1.2, hl, Bool.not_false, Bool.and_self]
    have hf : failuresBefore (r :: rs) = 0 := by
      simp only [failuresBefore, hc, if_true]
    refine ⟨_, hloop none (r :: rs) hq, ?_⟩
    rw [hf]
    rfl
  · have h := casp_cas_spec var var.mem var.mem false MemoryOrder.Release ATOMIC_RELEASE []
      hm hm hm rfl
    simp only [applyWrites_nil, if_true] at h
    refine ⟨{ mem := var.mem, monitor := var.monitor,
              trace := var.trace ++ [{ insn := Insn.caspl, val := var.mem, status := 0 }] },
      ?_, rfl, rfl⟩
    have h2 : CASP.__lockfree_compare_exchange_16 var var.mem var.mem false ATOMIC_RELEASE
        ATOMIC_RELEASE [] = _ := h
    simp only [CASP.__lockfree_load_16, plain_read, h2, caspForm]

theorem load_with_release_order_is_tolerated_witness :
    ∃ m t, LLSC.__lockfree_load_16 ⟨2 ^ 64 * 3 + 5, false, []⟩ ATOMIC_RELEASE (some 7)
        [⟨[], [], [], true⟩, ⟨[], [], [], false⟩] = .ok (2 ^ 64 * 3 + 5, m) ∧
      m.mem = 2 ^ 64 * 3 + 5 ∧ m.trace = [] ++ t ∧
      alternates Insn.ldxp Insn.stlxp t = true ∧
      t = loadAttempts Insn.ldxp Insn.stlxp (2 ^ 64 * 3 + 5)
            (failuresBefore [⟨[], [], [], true⟩, ⟨[], [], [], false⟩]) ∧
      t.length = 2 * (failuresBefore [⟨[], [], [], true⟩, ⟨[], [], [], false⟩] + 1) ∧
      t ≠ [] ∧
      attemptsShape (failuresBefore [⟨[], [], [], true⟩, ⟨[], [], [], false⟩]) t
        = some (2 ^ 64 * 3 + 5) :=
  (load_with_release_order_is_tolerated ⟨2 ^ 64 * 3 + 5, false, []⟩ (by decide)).2.2.1
    (some 7) [⟨[], [], [], true⟩, ⟨[], [], [], false⟩] (by decide)


/-! ## The standard random generator -/

theorem and_mod_four (x m : Nat) (hm : 3 &&& m = m) : x &&& m = (x % 4) &&& m := by
  have h : x % 4 = x &&& 3 := (Nat.and_pow_two_sub_one_eq_mod x 2).symm
  rw [h, Nat.and_assoc, hm]

theorem and_three (x : Nat) : x &&& 3 = x % 4 := Nat.and_pow_two_sub_one_eq_mod x 2

theorem and_two (x : Nat) : x &&& 2 = if x % 4 < 2 then 0 else 2 := by
  rw [and_mod_four x 2 (by decide)]
  have h : x % 4 < 4 := Nat.mod_lt _ (by norm_num)
  interval_cases (x % 4) <;> decide

theorem written_append (a b : List Store) : written (a ++ b) = written a ++ written b := by
  simp [written]

theorem store_addrs (s : Store) : s.bytes.map Prod.fst = List.range' s.addr s.width := by
  unfold Store.bytes
  rw [List.map_map, List.range'_eq_map_range]
  rfl

theorem put_addrs (s : RandState) (w v : Nat) :
    (written (s.put w v).stores).map Prod.fst
      = (written s.stores).map Prod.fst ++ List.range' s.buf w := by
  simp only [RandState.put, written_append, List.map_append]
  congr 1
  simp only [written, List.map_cons, List.map_nil, List.flatten_cons, List.flatten_nil,
    List.append_nil]
  exact store_addrs _

theorem range'_glue (a m n : Nat) :
    List.range' a m ++ List.range' (a + m) n = List.range' a (m + n) := by
  rw [List.range'_append_1, Nat.add_comm]


theorem put_len (s : RandState) (w v : Nat) : (s.put w v).len = s.len := rfl

theorem put_buf (s : RandState) (w v : Nat) : (s.put w v).buf = s.buf := rfl

theorem put_seed (s : RandState) (w v : Nat) : (s.put w v).seed = s.seed := rfl

theorem put_addrs2 (s : RandState) (w v : Nat) :
    (s.put w v).addrs = s.addrs ++ List.range' s.buf w := put_addrs s w v

theorem head_addrs (s : RandState) (hl : 1 ≤ s.len) :
    ∃ k, k ≤ s.len ∧ (random_head s).buf = s.buf + k ∧
      (random_head s).len = s.len - k ∧
      (random_head s).addrs = s.addrs ++ List.range' s.buf k := by
  unfold random_head
  cases c1 : (s.buf &&& 1 != 0) with
  | true =>
    cases c2 : ((s.buf + 1) &&& 2 != 0 && decide (s.len - 1 ≥ 2)) with
    | true =>
      refine ⟨3, ?_, ?_, ?_, ?_⟩
      · simp only [Bool.and_eq_true, decide_eq_true_eq] at c2
        omega
      · simp only [c1, if_true, c2]
      · simp only [c1, if_true, c2]
        omega
      · simp only [c1, if_true, c2]
        show (RandState.put _ 2 _).addrs = _
        rw [put_addrs2]
        show (RandState.put _ 1 _).addrs ++ _ = _
        rw [put_addrs2, List.append_assoc]
        show s.addrs ++ (List.range' s.buf 1 ++ List.range' (s.buf + 1) 2) = _
        rw [range'_glue]
    | false =>
      refine ⟨1, hl, ?_, ?_, ?_⟩
      · simp only [c1, if_true, c2, Bool.false_eq_true, if_false]
      · simp only [c1, if_true, c2, Bool.false_eq_true, if_false]
      · simp only [c1, if_true, c2, Bool.false_eq_true, if_false]
        show (RandState.put _ 1 _).addrs = _
        rw [put_addrs2]
        rfl
  | false =>
    cases c2 : (s.buf &&& 2 != 0 && decide (s.len ≥ 2)) with
    | true =>
      refine ⟨2, ?_, ?_, ?_, ?_⟩
      · simp only [Bool.and_eq_true, decide_eq_true_eq] at c2
        omega
      · simp only [c1, Bool.false_eq_true, if_false, c2, if_true]
      · simp only [c1, Bool.false_eq_true, if_false, c2, if_true]
      · simp only [c1, Bool.false_eq_true, if_false, c2, if_true]
        show (RandState.put _ 2 _).addrs = _
        rw [put_addrs2]
        rfl
    | false =>
      refine ⟨0, Nat.zero_le _, ?_, ?_, ?_⟩
      · simp only [c1, Bool.false_eq_true, if_false, c2]
        rfl
      · simp only [c1, Bool.false_eq_true, if_false, c2]
        rfl
      · simp only [c1, Bool.false_eq_true, if_false, c2]
        show s.addrs = _
        simp

theorem words_addrs : ∀ (n : Nat) (s : RandState),
    (random_words n s).buf = s.buf + 4 * n ∧ (random_words n s).len = s.len ∧
    (random_words n s).addrs = s.addrs ++ List.range' s.buf (4 * n) := by
  intro n
  induction n with
  | zero => intro s; simp [random_words]
  | succ n ih =>
    intro s
    obtain ⟨h1, h2, h3⟩ := ih
      { s.put 4 (xorshift64s32 s.seed).1 with
        buf := s.buf + 4, seed := (xorshift64s32 s.seed).2 }
    refine ⟨?_, ?_, ?_⟩
    · simp only [random_words, h1]
      omega
    · simp only [random_words, h2]
      rfl
    · simp only [random_words, h3]
      show (RandState.put s 4 _).addrs ++ List.range' (s.buf + 4) (4 * n) = _
      rw [put_addrs2, List.append_assoc, range'_glue]
      congr 2
      omega

theorem tail_addrs (s : RandState) :
    (random_tail s).addrs = s.addrs ++ List.range' s.buf (s.len % 4) := by
  unfold random_tail
  have h2 := and_two s.len
  have h1 := Nat.and_one_is_mod s.len
  have t0 : ((0 : Nat) != 0) = false := rfl
  have t1 : ((1 : Nat) != 0) = true := rfl
  have t2 : ((2 : Nat) != 0) = true := rfl
  by_cases c2 : s.len % 4 < 2
  · have e2 : s.len &&& 2 = 0 := by rw [h2, if_pos c2]
    by_cases c1 : s.len % 2 = 0
    · have e1 : s.len &&& 1 = 0 := by rw [h1, c1]
      have e : s.len % 4 = 0 := by omega
      simp only [e2, e1, e, t0, Bool.false_eq_true, if_false, List.range'_zero,
        List.append_nil]
      rfl
    · have e1 : s.len &&& 1 = 1 := by rw [h1]; omega
      have e : s.len % 4 = 1 := by omega
      simp only [e2, e1, e, t0, t1, Bool.false_eq_true, if_false, if_true]
      show (RandState.put _ 1 _).addrs = _
      rw [put_addrs2]
      rfl
  · have e2 : s.len &&& 2 = 2 := by rw [h2, if_neg c2]
    by_cases c1 : s.len % 2 = 0
    · have e1 : s.len &&& 1 = 0 := by rw [h1, c1]
      have e : s.len % 4 = 2 := by omega
      simp only [put_len, e2, e1, e, t0, t2, Bool.false_eq_true, if_false, if_true]
      show (RandState.put _ 2 _).addrs = _
      rw [put_addrs2]
      rfl
    · have e1 : s.len &&& 1 = 1 := by rw [h1]; omega
      have e : s.len % 4 = 3 := by omega
      simp only [put_len, e2, e1, e, t1, t2, if_true]
      show (RandState.put _ 1 _).addrs = _
      rw [put_addrs2]
      show (RandState.put _ 2 _).addrs ++ List.range' (s.buf + 2) 1 = _
      rw [put_addrs2, List.append_assoc]
      show s.addrs ++ (List.range' s.buf 2 ++ List.range' (s.buf + 2) 1) = _
      rw [range'_glue]


theorem tail_or_not_addrs (s : RandState) :
    (if s.len &&& 3 != 0 then random_tail s else s).addrs
      = s.addrs ++ List.range' s.buf (s.len % 4) := by
  cases c : (s.len &&& 3 != 0) with
  | true => simp only [if_true]; exact tail_addrs s
  | false =>
    have h : s.len % 4 = 0 := by
      have := and_three s.len
      simp only [bne_eq_false_iff_eq] at c
      omega
    simp [h]

theorem random_data_addrs (unaligned : Bool) (buf len seed : Nat) :
    (_random_data unaligned buf len seed).addrs = List.range' buf len := by
  have hhead : ∃ k, k ≤ len ∧
      (if !unaligned && (buf &&& 3 != 0) && (len != 0)
        then random_head { buf := buf, len := len, seed := seed, stores := [] }
        else { buf := buf, len := len, seed := seed, stores := [] }).buf = buf + k ∧
      (if !unaligned && (buf &&& 3 != 0) && (len != 0)
        then random_head { buf := buf, len := len, seed := seed, stores := [] }
        else { buf := buf, len := len, seed := seed, stores := [] }).len = len - k ∧
      (if !unaligned && (buf &&& 3 != 0) && (len != 0)
        then random_head { buf := buf, len := len, seed := seed, stores := [] }
        else { buf := buf, len := len, seed := seed, stores := [] }).addrs
          = List.range' buf k := by
    cases c : (!unaligned && (buf &&& 3 != 0) && (len != 0)) with
    | true =>
      have hl : 1 ≤ len := by
        simp only [Bool.and_eq_true, bne_iff_ne, ne_eq] at c
        omega
      obtain ⟨k, h1, h2, h3, h4⟩ :=
        head_addrs { buf := buf, len := len, seed := seed, stores := [] } hl
      refine ⟨k, h1, ?_, ?_, ?_⟩
      · simp only [if_true]; exact h2
      · simp only [if_true]; exact h3
      · simp only [if_true]
        rw [h4]
        show [] ++ List.range' buf k = _
        simp
    | false =>
      exact ⟨0, Nat.zero_le _, rfl, rfl, rfl⟩
  obtain ⟨k, hk, hb, hl, ha⟩ := hhead
  have goal : ∀ s1 : RandState, s1.buf = buf + k → s1.len = len - k →
      s1.addrs = List.range' buf k →
      (if (random_words (s1.len / 4) s1).len &&& 3 != 0
        then random_tail (random_words (s1.len / 4) s1)
        else random_words (s1.len / 4) s1).addrs = List.range' buf len := by
    intro s1 hb1 hl1 ha1
    rw [tail_or_not_addrs]
    obtain ⟨w1, w2, w3⟩ := words_addrs (s1.len / 4) s1
    rw [w1, w2, w3, ha1, hb1, hl1, range'_glue, Nat.add_assoc, range'_glue]
    congr 1
    omega
  exact goal _ hb hl ha

/-- C17: for every buffer address (hence alignment), every seed and every `len`
with `len <= 2^31 - 1`, `_random_data` returns `len` and its stores write the
addresses `buf, buf + 1, ..., buf + len - 1` in this order: exactly the `len`
bytes of the buffer, each once, and no byte outside.  This holds with
`_ODP_UNALIGNED = 1` and on the head / body / tail path with `_ODP_UNALIGNED = 0`. -/
theorem random_data_stores_exactly_len_bytes
    (unaligned : Bool) (buf len seed : Nat) (hlen : len ≤ 2 ^ 31 - 1) :
    (_random_data unaligned buf len seed).ret = len ∧
    (_random_data unaligned buf len seed).addrs = List.range' buf len ∧
    (_random_data unaligned buf len seed).addrs.Nodup ∧
    (∀ a, a ∈ (_random_data unaligned buf len seed).addrs ↔ (buf ≤ a ∧ a < buf + len)) := by
  have ha := random_data_addrs unaligned buf len seed
  refine ⟨?_, ha, ?_, ?_⟩
  · show int32_of_u32 len = len
    unfold int32_of_u32
    have h1 : len % 2 ^ 32 = len := Nat.mod_eq_of_lt (by omega)
    rw [h1, if_pos (by omega)]
  · rw [ha]
    exact List.nodup_range' buf len
  · intro a
    rw [ha, List.mem_range'_1]

theorem random_data_stores_exactly_len_bytes_witness :
    (_random_data false 3 11 1).ret = (11 : Nat) ∧
    (_random_data false 3 11 1).addrs = List.range' 3 11 ∧
    (_random_data false 3 11 1).addrs.Nodup ∧
    (∀ a, a ∈ (_random_data false 3 11 1).addrs ↔ (3 ≤ a ∧ a < 3 + 11)) :=
  random_data_stores_exactly_len_bytes false 3 11 1 (by decide)


theorem store_vals (s : Store) :
    s.bytes.map Prod.snd = (List.range s.width).map (fun k => (s.val >>> (8 * k)) % 256) := by
  unfold Store.bytes
  rw [List.map_map]
  rfl

theorem put_data (s : RandState) (w v : Nat) :
    (s.put w v).data
      = s.data ++ (List.range w).map (fun k => (v >>> (8 * k)) % 256) := by
  simp only [RandState.data, RandState.put, written_append, List.map_append]
  congr 1
  simp only [written, List.map_cons, List.map_nil, List.flatten_cons, List.flatten_nil,
    List.append_nil]
  exact store_vals _

theorem head_view (s t : RandState) (hb : s.buf % 4 = t.buf % 4) (hl : s.len = t.len)
    (hs : s.seed = t.seed) (hd : s.data = t.data) :
    (random_head s).len = (random_head t).len ∧
    (random_head s).seed = (random_head t).seed ∧
    (random_head s).data = (random_head t).data := by
  have e1 : t.buf &&& 1 = s.buf &&& 1 := by
    rw [and_mod_four s.buf 1 (by decide), and_mod_four t.buf 1 (by decide), hb]
  have e2 : t.buf &&& 2 = s.buf &&& 2 := by
    rw [and_mod_four s.buf 2 (by decide), and_mod_four t.buf 2 (by decide), hb]
  have e3 : (t.buf + 1) &&& 2 = (s.buf + 1) &&& 2 := by
    rw [and_mod_four (s.buf + 1) 2 (by decide), and_mod_four (t.buf + 1) 2 (by decide)]
    have : (s.buf + 1) % 4 = (t.buf + 1) % 4 := by omega
    rw [this]
  unfold random_head
  simp only [put_len, put_buf, put_seed, e1, e2, ← hl, ← hs]
  cases c1 : (s.buf &&& 1 != 0) with
  | true =>
    simp only [if_true, put_len, put_buf, put_seed, e3]
    cases c2 : ((s.buf + 1) &&& 2 != 0 && decide (s.len - 1 ≥ 2)) with
    | true =>
      simp only [if_true]
      refine ⟨trivial, trivial, ?_⟩
      show (RandState.put _ 2 _).data = (RandState.put _ 2 _).data
      rw [put_data, put_data]
      congr 1
      show (RandState.put _ 1 _).data = (RandState.put _ 1 _).data
      rw [put_data, put_data]
      congr 1
    | false =>
      simp only [Bool.false_eq_true, if_false]
      refine ⟨trivial, trivial, ?_⟩
      show (RandState.put _ 1 _).data = (RandState.put _ 1 _).data
      rw [put_data, put_data]
      congr 1
  | false =>
    simp only [Bool.false_eq_true, if_false, e2]
    cases c2 : (s.buf &&& 2 != 0 && decide (s.len ≥ 2)) with
    | true =>
      simp only [if_true]
      refine ⟨trivial, trivial, ?_⟩
      show (RandState.put _ 2 _).data = (RandState.put _ 2 _).data
      rw [put_data, put_data]
      congr 1
    | false =>
      simp only [Bool.false_eq_true, if_false]
      exact ⟨trivial, trivial, hd⟩


theorem words_view : ∀ (n : Nat) (s t : RandState), s.len = t.len → s.seed = t.seed →
    s.data = t.data →
    (random_words n s).len = (random_words n t).len ∧
    (random_words n s).seed = (random_words n t).seed ∧
    (random_words n s).data = (random_words n t).data := by
  intro n
  induction n with
  | zero => intro s t hl hs hd; exact ⟨hl, hs, hd⟩
  | succ n ih =>
    intro s t hl hs hd
    simp only [random_words]
    apply ih
    · exact hl
    · show (xorshift64s32 s.seed).2 = (xorshift64s32 t.seed).2
      rw [hs]
    · show (RandState.put s 4 _).data = (RandState.put t 4 _).data
      rw [put_data, put_data, hd, hs]

theorem tail_view (s t : RandState) (hl : s.len = t.len) (hs : s.seed = t.seed)
    (hd : s.data = t.data) :
    (random_tail s).seed = (random_tail t).seed ∧
    (random_tail s).data = (random_tail t).data := by
  unfold random_tail
  simp only [put_len, put_buf, put_seed, ← hl, ← hs]
  cases c2 : (s.len &&& 2 != 0) with
  | true =>
    simp only [if_true, put_len]
    cases c1 : (s.len &&& 1 != 0) with
    | true =>
      simp only [if_true, put_seed]
      refine ⟨trivial, ?_⟩
      rw [put_data, put_data]
      congr 1
      show (RandState.put _ 2 _).data = (RandState.put _ 2 _).data
      rw [put_data, put_data]
      congr 1
    | false =>
      simp only [Bool.false_eq_true, if_false]
      refine ⟨trivial, ?_⟩
      show (RandState.put _ 2 _).data = (RandState.put _ 2 _).data
      rw [put_data, put_data]
      congr 1
  | false =>
    simp only [Bool.false_eq_true, if_false]
    cases c1 : (s.len &&& 1 != 0) with
    | true =>
      simp only [if_true, put_seed]
      refine ⟨trivial, ?_⟩
      rw [put_data, put_data]
      congr 1
    | false =>
      simp only [Bool.false_eq_true, if_false]
      exact ⟨trivial, hd⟩

theorem random_data_view (unaligned : Bool) (buf1 buf2 len seed : Nat)
    (h : unaligned = true ∨ buf1 % 4 = buf2 % 4 ∨ len = 0) :
    (_random_data unaligned buf1 len seed).data = (_random_data unaligned buf2 len seed).data ∧
    (_random_data unaligned buf1 len seed).seed = (_random_data unaligned buf2 len seed).seed ∧
    (_random_data unaligned buf1 len seed).ret = (_random_data unaligned buf2 len seed).ret := by
  have hhead :
      (if !unaligned && (buf1 &&& 3 != 0) && (len != 0)
        then random_head { buf := buf1, len := len, seed := seed, stores := [] }
        else { buf := buf1, len := len, seed := seed, stores := [] }).len =
      (if !unaligned && (buf2 &&& 3 != 0) && (len != 0)
        then random_head { buf := buf2, len := len, seed := seed, stores := [] }
        else { buf := buf2, len := len, seed := seed, stores := [] }).len ∧
      (if !unaligned && (buf1 &&& 3 != 0) && (len != 0)
        then random_head { buf := buf1, len := len, seed := seed, stores := [] }
        else { buf := buf1, len := len, seed := seed, stores := [] }).seed =
      (if !unaligned && (buf2 &&& 3 != 0) && (len != 0)
        then random_head { buf := buf2, len := len, seed := seed, stores := [] }
        else { buf := buf2, len := len, seed := seed, stores := [] }).seed ∧
      (if !unaligned && (buf1 &&& 3 != 0) && (len != 0)
        then random_head { buf := buf1, len := len, seed := seed, stores := [] }
        else { buf := buf1, len := len, seed := seed, stores := [] }).data =
      (if !unaligned && (buf2 &&& 3 != 0) && (len != 0)
        then random_head { buf := buf2, len := len, seed := seed, stores := [] }
        else { buf := buf2, len := len, seed := seed, stores := [] }).data := by
    rcases h with hu | hb | hz
    · subst hu
      simp only [Bool.not_true, Bool.false_and, Bool.false_eq_true, if_false]
      exact ⟨trivial, trivial, rfl⟩
    · have e3 : buf2 &&& 3 = buf1 &&& 3 := by rw [and_three, and_three, hb]
      rw [e3]
      cases c : (!unaligned && (buf1 &&& 3 != 0) && (len != 0)) with
      | true =>
        simp only [if_true]
        exact head_view _ _ hb rfl rfl rfl
      | false =>
        simp only [Bool.false_eq_true, if_false]
        exact ⟨trivial, trivial, rfl⟩
    · subst hz
      simp only [bne_self_eq_false, Bool.and_false, Bool.false_eq_true, if_false]
      exact ⟨trivial, trivial, rfl⟩
  have goal : ∀ s t : RandState, s.len = t.len → s.seed = t.seed → s.data = t.data →
      (if (random_words (s.len / 4) s).len &&& 3 != 0
        then random_tail (random_words (s.len / 4) s)
        else random_words (s.len / 4) s).data =
      (if (random_words (t.len / 4) t).len &&& 3 != 0
        then random_tail (random_words (t.len / 4) t)
        else random_words (t.len / 4) t).data ∧
      (if (random_words (s.len / 4) s).len &&& 3 != 0
        then random_tail (random_words (s.len / 4) s)
        else random_words (s.len / 4) s).seed =
      (if (random_words (t.len / 4) t).len &&& 3 != 0
        then random_tail (random_words (t.len / 4) t)
        else random_words (t.len / 4) t).seed := by
    intro s t hl hs hd
    rw [← hl]
    obtain ⟨w1, w2, w3⟩ := words_view (s.len / 4) s t hl hs hd
    rw [← w1]
    cases c : ((random_words (s.len / 4) s).len &&& 3 != 0) with
    | true =>
      simp only [if_true]
      obtain ⟨t1, t2⟩ := tail_view _ _ w1 w2 w3
      exact ⟨t2, t1⟩
    | false =>
      simp only [Bool.false_eq_true, if_false]
      exact ⟨w3, w2⟩
  obtain ⟨h1, h2, h3⟩ := hhead
  obtain ⟨g1, g2⟩ := goal _ _ h1 h2 h3
  exact ⟨g1, g2, rfl⟩

/-- C16 (as amended): `odp_random_test_data` is repeatable for buffers of equal
alignment: two calls with equal `*seed` and equal `len` write the same `len`
byte values, leave the same updated seed and return the same value whenever
`_ODP_UNALIGNED = 1`, or the two buffer addresses are congruent modulo 4, or
`len = 0`. -/
theorem random_test_data_repeatable_for_equal_alignment
    (unaligned : Bool) (buf1 buf2 len seed : Nat)
    (h : unaligned = true ∨ buf1 % 4 = buf2 % 4 ∨ len = 0) :
    (odp_random_test_data unaligned buf1 len seed).data
      = (odp_random_test_data unaligned buf2 len seed).data ∧
    (odp_random_test_data unaligned buf1 len seed).seed
      = (odp_random_test_data unaligned buf2 len seed).seed ∧
    (odp_random_test_data unaligned buf1 len seed).ret
      = (odp_random_test_data unaligned buf2 len seed).ret :=
  random_data_view unaligned buf1 buf2 len seed h

theorem random_test_data_repeatable_for_equal_alignment_witness :
    (odp_random_test_data false 1 7 1).data = (odp_random_test_data false 4097 7 1).data ∧
    (odp_random_test_data false 1 7 1).seed = (odp_random_test_data false 4097 7 1).seed ∧
    (odp_random_test_data false 1 7 1).ret = (odp_random_test_data false 4097 7 1).ret :=
  random_test_data_repeatable_for_equal_alignment false 1 4097 7 1 (Or.inr (Or.inl (by decide)))

/-- C16 (as stated) fails: with `_ODP_UNALIGNED = 0`, the same seed `1` and the
same `len = 4`, a buffer at address 0 and a buffer at address 1 receive
different bytes and the two calls leave different seeds (one generator step
against two). -/
theorem random_test_data_depends_on_alignment :
    (odp_random_test_data false 0 4 1).data ≠ (odp_random_test_data false 1 4 1).data ∧
    (odp_random_test_data false 0 4 1).seed ≠ (odp_random_test_data false 1 4 1).seed := by
  decide


/-! ## Random kinds -/

/-- C18: `odp_random_data` returns -1 and makes no store to the buffer for every
kind the backend does not support: for every kind greater than
`odp_random_max_kind()` and for every value that is none of `ODP_RANDOM_BASIC`,
`ODP_RANDOM_CRYPTO`, `ODP_RANDOM_TRUE`, in the std backend (max kind BASIC) as
in the OpenSSL backend (max kind CRYPTO).  The enumerators are any integers with
`BASIC < CRYPTO` (the order of the enumeration). -/
theorem random_data_refuses_unsupported_kind (K : RandomKinds)
    (hbc : K.ODP_RANDOM_BASIC < K.ODP_RANDOM_CRYPTO)
    (kind : Int) (buf len this_seed : Nat) :
    (RandStd.odp_random_max_kind K = K.ODP_RANDOM_BASIC ∧
      RandOpenssl.odp_random_max_kind K = K.ODP_RANDOM_CRYPTO) ∧
    (∀ unaligned : Bool,
      (RandStd.odp_random_max_kind K < kind ∨
        (kind ≠ K.ODP_RANDOM_BASIC ∧ kind ≠ K.ODP_RANDOM_CRYPTO ∧
          kind ≠ K.ODP_RANDOM_TRUE)) →
      (RandStd.odp_random_data K unaligned buf len kind this_seed).ret = -1 ∧
      (RandStd.odp_random_data K unaligned buf len kind this_seed).stores = []) ∧
    (∀ RAND_bytes : Nat → Nat → Int × List Store,
      (RandOpenssl.odp_random_max_kind K < kind ∨
        (kind ≠ K.ODP_RANDOM_BASIC ∧ kind ≠ K.ODP_RANDOM_CRYPTO ∧
          kind ≠ K.ODP_RANDOM_TRUE)) →
      (RandOpenssl.odp_random_data K RAND_bytes buf len kind this_seed).ret = -1 ∧
      (RandOpenssl.odp_random_data K RAND_bytes buf len kind this_seed).stores = []) := by
  refine ⟨⟨rfl, rfl⟩, ?_, ?_⟩
  · intro unaligned h
    have hb : (kind == K.ODP_RANDOM_BASIC) = false := by
      rcases h with h | h
      · have h1 : K.ODP_RANDOM_BASIC < kind := h
        have : kind ≠ K.ODP_RANDOM_BASIC := by omega
        simpa using this
      · simpa using h.1
    unfold RandStd.odp_random_data
    simp only [hb, Bool.false_eq_true, if_false]
    split
    · exact ⟨rfl, rfl⟩
    · split
      · exact ⟨rfl, rfl⟩
      · exact ⟨rfl, rfl⟩
  · intro RAND_bytes h
    have hb : (kind == K.ODP_RANDOM_BASIC) = false ∧ (kind == K.ODP_RANDOM_CRYPTO) = false := by
      rcases h with h | h
      · have h1 : K.ODP_RANDOM_CRYPTO < kind := h
        have n1 : kind ≠ K.ODP_RANDOM_BASIC := by omega
        have n2 : kind ≠ K.ODP_RANDOM_CRYPTO := by omega
        exact ⟨by simpa using n1, by simpa using n2⟩
      · exact ⟨by simpa using h.1, by simpa using h.2.1⟩
    unfold RandOpenssl.odp_random_data
    simp only [hb.1, hb.2, Bool.false_eq_true, if_false]
    split
    · exact ⟨rfl, rfl⟩
    · exact ⟨rfl, rfl⟩

theorem random_data_refuses_unsupported_kind_witness :
    ((RandStd.odp_random_data kinds012 false 3 11 1 7).ret = -1 ∧
      (RandStd.odp_random_data kinds012 false 3 11 1 7).stores = []) ∧
    ((RandOpenssl.odp_random_data kinds012 (fun b n => (1, [⟨b, n, 0⟩])) 3 11 2 7).ret = -1 ∧
      (RandOpenssl.odp_random_data kinds012 (fun b n => (1, [⟨b, n, 0⟩])) 3 11 2 7).stores
        = []) :=
  ⟨(random_data_refuses_unsupported_kind kinds012 (by decide) 1 3 11 7).2.1
      false (Or.inl (by decide)),
   (random_data_refuses_unsupported_kind kinds012 (by decide) 2 3 11 7).2.2
      (fun b n => (1, [⟨b, n, 0⟩])) (Or.inl (by decide))⟩


/-! ## Event vectors -/

theorem types_match_from_iff (etype : Nat → Int) (event : Nat → Nat) (ft : Int) :
    ∀ (n i : Nat), types_match_from etype event ft n i = true ↔
      ∀ k, i ≤ k → k < i + n → etype (event k) = ft := by
  intro n
  induction n with
  | zero =>
    intro i
    simp only [types_match_from, true_iff]
    intro k h1 h2
    omega
  | succ n ih =>
    intro i
    by_cases h : etype (event i) = ft
    · have hb : (etype (event i) != ft) = false := by simpa using h
      simp only [types_match_from, hb, Bool.false_eq_true, if_false, ih]
      constructor
      · intro hall k h1 h2
        rcases Nat.eq_or_lt_of_le h1 with h3 | h3
        · rw [← h3]; exact h
        · exact hall k h3 (by omega)
      · intro hall k h1 h2
        exact hall k (by omega) (by omega)
    · have hb : (etype (event i) != ft) = true := by simpa using h
      simp only [types_match_from, hb, if_true, Bool.false_eq_true, false_iff]
      intro hall
      exact h (hall i (Nat.le_refl _) (by omega))

theorem slots_valid_from_iff (invalid : Nat) (event : Nat → Nat) :
    ∀ (n i : Nat), slots_valid_from invalid event n i = true ↔
      ∀ k, i ≤ k → k < i + n → event k ≠ invalid := by
  intro n
  induction n with
  | zero =>
    intro i
    simp only [slots_valid_from, true_iff]
    intro k h1 h2
    omega
  | succ n ih =>
    intro i
    by_cases h : event i = invalid
    · have hb : (event i == invalid) = true := by simpa using h
      simp only [slots_valid_from, hb, if_true, Bool.false_eq_true, false_iff]
      intro hall
      exact hall i (Nat.le_refl _) (by omega) h
    · have hb : (event i == invalid) = false := by simpa using h
      simp only [slots_valid_from, hb, Bool.false_eq_true, if_false, ih]
      constructor
      · intro hall k h1 h2
        rcases Nat.eq_or_lt_of_le h1 with h3 | h3
        · rw [← h3]; exact h
        · exact hall k h3 (by omega)
      · intro hall k h1 h2
        exact hall k (by omega) (by omega)

/-- C19: for every event vector (and a non-NULL `event_type`),
`odp_event_vector_type` returns 1 and stores the common type in `*event_type`
if the vector size is greater than 0 and all of its events have the same event
type; in every other case (size 0, or two events of different types) it returns
0 and leaves `*event_type` unmodified.  So it returns 1 exactly in the first
case. -/
theorem event_vector_type_one_iff_common_type (odp_event_type : Nat → Int)
    (evv_hdr : odp_event_vector_hdr_t) (et0 : Int) :
    ((0 < evv_hdr.size ∧ ∀ i j, i < evv_hdr.size → j < evv_hdr.size →
        odp_event_type (evv_hdr.event i) = odp_event_type (evv_hdr.event j)) →
      odp_event_vector_type odp_event_type evv_hdr (some et0)
        = .ok (1, some (odp_event_type (evv_hdr.event 0)))) ∧
    (¬ (0 < evv_hdr.size ∧ ∀ i j, i < evv_hdr.size → j < evv_hdr.size →
        odp_event_type (evv_hdr.event i) = odp_event_type (evv_hdr.event j)) →
      odp_event_vector_type odp_event_type evv_hdr (some et0) = .ok (0, some et0)) := by
  have hloop := types_match_from_iff odp_event_type evv_hdr.event
    (odp_event_type (evv_hdr.event 0)) (evv_hdr.size - 1) 1
  constructor
  · rintro ⟨hpos, hall⟩
    have hz : (evv_hdr.size == 0) = false := by
      have : evv_hdr.size ≠ 0 := by omega
      simpa using this
    have hm : types_match_from odp_event_type evv_hdr.event
        (odp_event_type (evv_hdr.event 0)) (evv_hdr.size - 1) 1 = true :=
      hloop.mpr (fun k _ h2 => hall k 0 (by omega) hpos)
    simp only [odp_event_vector_type, ODP_ASSERT, Option.isSome_some, if_true, hz,
      Bool.false_eq_true, if_false, hm]
  · intro hnot
    by_cases hpos : 0 < evv_hdr.size
    · have hz : (evv_hdr.size == 0) = false := by
        have : evv_hdr.size ≠ 0 := by omega
        simpa using this
      have hm : types_match_from odp_event_type evv_hdr.event
          (odp_event_type (evv_hdr.event 0)) (evv_hdr.size - 1) 1 = false := by
        cases hc : types_match_from odp_event_type evv_hdr.event
            (odp_event_type (evv_hdr.event 0)) (evv_hdr.size - 1) 1 with
        | false => rfl
        | true =>
          exfalso
          apply hnot
          refine ⟨hpos, ?_⟩
          have hall := hloop.mp hc
          have h0 : ∀ k, k < evv_hdr.size →
              odp_event_type (evv_hdr.event k) = odp_event_type (evv_hdr.event 0) := by
            intro k hk
            rcases Nat.eq_zero_or_pos k with h | h
            · rw [h]
            · exact hall k h (by omega)
          intro i j hi hj
          rw [h0 i hi, h0 j hj]
      simp only [odp_event_vector_type, ODP_ASSERT, Option.isSome_some, if_true, hz,
        Bool.false_eq_true, if_false, hm]
    · have hz : (evv_hdr.size == 0) = true := by
        have : evv_hdr.size = 0 := by omega
        simpa using this
      simp only [odp_event_vector_type, ODP_ASSERT, Option.isSome_some, if_true, hz]

/-- C20: `odp_event_vector_valid` returns 1 if and only if the handle is not
`ODP_EVENT_VECTOR_INVALID`, its event is valid and of type `ODP_EVENT_VECTOR`,
the header's size does not exceed the pool's `vector.max_size`, and none of the
first `size` event slots is `ODP_EVENT_INVALID`; in every other case it returns
0.  It is a function of what it reads only and stores nothing. -/
theorem event_vector_valid_one_iff (W : EventWorld) (evv : Nat) :
    (odp_event_vector_valid W evv = 1 ↔
      (evv ≠ W.ODP_EVENT_VECTOR_INVALID ∧
       W.odp_event_is_valid (W.odp_event_vector_to_event evv) ≠ 0 ∧
       W.odp_event_type (W.odp_event_vector_to_event evv) = W.ODP_EVENT_VECTOR ∧
       (W.odp_event_vector_hdr evv).size
         ≤ W.vector_max_size (W.odp_event_vector_hdr evv).pool ∧
       ∀ i, i < (W.odp_event_vector_hdr evv).size →
         (W.odp_event_vector_hdr evv).event i ≠ W.ODP_EVENT_INVALID)) ∧
    (odp_event_vector_valid W evv = 1 ∨ odp_event_vector_valid W evv = 0) := by
  have hloop := slots_valid_from_iff W.ODP_EVENT_INVALID (W.odp_event_vector_hdr evv).event
    (W.odp_event_vector_hdr evv).size 0
  unfold odp_event_vector_valid
  by_cases h1 : evv = W.ODP_EVENT_VECTOR_INVALID
  · have b1 : (evv == W.ODP_EVENT_VECTOR_INVALID) = true := by simpa using h1
    simp [b1, h1]
  · have b1 : (evv == W.ODP_EVENT_VECTOR_INVALID) = false := by simpa using h1
    by_cases h2 : W.odp_event_is_valid (W.odp_event_vector_to_event evv) = 0
    · have b2 : (W.odp_event_is_valid (W.odp_event_vector_to_event evv) == 0) = true := by
        simpa using h2
      simp [b1, b2, h2]
    · have b2 : (W.odp_event_is_valid (W.odp_event_vector_to_event evv) == 0) = false := by
        simpa using h2
      by_cases h3 : W.odp_event_type (W.odp_event_vector_to_event evv) = W.ODP_EVENT_VECTOR
      · have b3 : (W.odp_event_type (W.odp_event_vector_to_event evv)
            != W.ODP_EVENT_VECTOR) = false := by simpa using h3
        by_cases h4 : (W.odp_event_vector_hdr evv).size
            > W.vector_max_size (W.odp_event_vector_hdr evv).pool
        · have n4 : ¬ (W.odp_event_vector_hdr evv).size
              ≤ W.vector_max_size (W.odp_event_vector_hdr evv).pool := by omega
          simp [b1, b2, b3, h4, n4]
        · have p4 : (W.odp_event_vector_hdr evv).size
              ≤ W.vector_max_size (W.odp_event_vector_hdr evv).pool := by omega
          cases hc : slots_valid_from W.ODP_EVENT_INVALID (W.odp_event_vector_hdr evv).event
              (W.odp_event_vector_hdr evv).size 0 with
          | true =>
            have hall := hloop.mp hc
            simp only [b1, b2, b3, h4, hc, if_false, Bool.false_eq_true, if_true, true_iff,
              true_or, and_true]
            exact ⟨h1, h2, h3, p4, fun i hi => hall i (Nat.zero_le _) (by omega)⟩
          | false =>
            have hnot : ¬ ∀ i, i < (W.odp_event_vector_hdr evv).size →
                (W.odp_event_vector_hdr evv).event i ≠ W.ODP_EVENT_INVALID := by
              intro hall
              have := hloop.mpr (fun k _ h2 => hall k (by omega))
              rw [hc] at this
              cases this
            simp only [b1, b2, b3, h4, hc, if_false, Bool.false_eq_true, or_true, and_true]
            constructor
            · intro h
              exact absurd h (by decide)
            · rintro ⟨_, _, _, _, hall⟩
              exact absurd hall hnot
      · have b3 : (W.odp_event_type (W.odp_event_vector_to_event evv)
            != W.ODP_EVENT_VECTOR) = true := by simpa using h3
        simp [b1, b2, b3, h3]


theorem event_vector_sample_checks :
    odp_event_vector_valid sampleWorld 5 = 1 ∧ odp_event_vector_valid sampleWorld 0 = 0 ∧
    odp_event_vector_type (fun ev => if ev == 11 then 3 else 8)
      (sampleWorld.odp_event_vector_hdr 5) (some 0) = .ok (0, some 0) ∧
    odp_event_vector_type sampleWorld.odp_event_type
      (sampleWorld.odp_event_vector_hdr 5) (some 0) = .ok (1, some 8) ∧
    odp_event_vector_type sampleWorld.odp_event_type
      (sampleWorld.odp_event_vector_hdr 5) none = .error Fault.assertion :=
  ⟨by decide, by decide, rfl, rfl, rfl⟩


/-! ## The self compare-exchange of the load -/

theorem paired_self_echo (c : Nat) :
    ∀ t : List Event, PairedStores c c t = true → storesEcho t = true
  | [], _ => rfl
  | [_], h => by simp [PairedStores] at h
  | l :: s :: rest, h => by
    simp only [PairedStores, Bool.and_eq_true] at h
    obtain ⟨⟨⟨h1, h2⟩, h3⟩, h4⟩ := h
    have ih := paired_self_echo c rest h4
    have h5 : (s.val == l.val) = true := by
      by_cases hl : l.val = c
      · have hb : (l.val == c) = true := by simpa using hl
        rw [hb, if_pos rfl] at h3
        rw [hl]
        exact h3
      · have hb : (l.val == c) = false := by simpa using hl
        rw [hb] at h3
        simpa using h3
    simp only [storesEcho, h1, h2, h5, ih, Bool.and_self]

/-- C21: the result of `__lockfree_load_16` does not depend on its initial plain
(possibly torn) read.  The load is the self compare-exchange with expected =
desired = candidate and the requested success order; the failure order it
passes is ignored, so it equals the call with failure order Relaxed.  For every
candidate (`torn`) and every environment with a clean round that call returns
the observed value of the word in the candidate (the stored value `v` when no
other agent writes), every value handed to the store-exclusive equals the value
the exclusive load just returned, and the word is left holding the observed
value, never the candidate unless they are equal.  The `casp` variant returns
the stored value as well. -/
theorem load_result_independent_of_plain_read (var : Machine) (hm : var.mem < 2 ^ 128)
    (torn : Option Nat) (ht : tornOk torn = true) :
    (∀ (mo : Int) (env : List Round),
      LLSC.__lockfree_load_16 var mo torn env =
        match LLSC.__lockfree_compare_exchange_16 var (plain_read var torn)
            (plain_read var torn) false mo ATOMIC_RELAXED env with
        | .error f => .error f
        | .ok res => .ok (res.exp, res.var)) ∧
    (∀ (mo : Int) (env : List Round), EnvOk env = true →
      ∃ o res t, observed var.mem env = some o ∧ (Quiet env = true → o = var.mem) ∧
        LLSC.__lockfree_compare_exchange_16 var (plain_read var torn)
            (plain_read var torn) false mo ATOMIC_RELAXED env = .ok res ∧
        res.exp = o ∧ res.var.mem = o ∧
        res.var.trace = var.trace ++ t ∧ storesEcho t = true ∧
        LLSC.__lockfree_load_16 var mo torn env = .ok (o, res.var)) ∧
    (∀ (mo : MemoryOrder),
      ∃ m, CASP.__lockfree_load_16 var mo.toInt torn [] = .ok (var.mem, m) ∧
        m.mem = var.mem) := by
  have hc := plain_read_lt var torn hm ht
  refine ⟨fun _ _ => rfl, ?_, ?_⟩
  · intro mo env hok
    obtain ⟨o, v, h1, h2, h3, _, _, t, h6, h7⟩ :=
      llsc_cas_spec var (plain_read var torn) (plain_read var torn) false mo ATOMIC_RELAXED
        env hm hc hok
    have hmem : v.mem = o := by
      rw [h3]
      split
      · rename_i h; exact h.symm
      · rfl
    refine ⟨o, _, t, h1, ?_, h2, rfl, hmem, h6, paired_self_echo _ t h7, ?_⟩
    · intro hq
      rw [observed_quiet _ _ hq] at h1
      cases h1
      rfl
    · have h2b : LLSC.__lockfree_compare_exchange_16 var (plain_read var torn)
          (plain_read var torn) false mo mo env = _ := h2
      simp only [LLSC.__lockfree_load_16, h2b]
  · intro mo
    have h := casp_cas_spec var (plain_read var torn) (plain_read var torn) false mo
      mo.toInt [] hm hc hc rfl
    simp only [applyWrites_nil] at h
    refine ⟨{ mem := if var.mem = plain_read var torn then plain_read var torn else var.mem,
              monitor := var.monitor,
              trace := var.trace ++ [{ insn := caspForm mo, val := var.mem, status := 0 }] },
      ?_, ?_⟩
    · simp only [CASP.__lockfree_load_16, h]
    · show (if var.mem = plain_read var torn then plain_read var torn else var.mem) = var.mem
      split
      · rename_i h2; exact h2.symm
      · rfl

theorem load_result_independent_of_plain_read_witness :
    ∃ o res t, observed 5 [⟨[], [], [], true⟩, ⟨[], [], [], false⟩] = some o ∧
      (Quiet [⟨[], [], [], true⟩, ⟨[], [], [], false⟩] = true → o = 5) ∧
      LLSC.__lockfree_compare_exchange_16 ⟨5, false, []⟩ (2 ^ 64 * 3 + 5) (2 ^ 64 * 3 + 5)
        false ATOMIC_ACQUIRE ATOMIC_RELAXED [⟨[], [], [], true⟩, ⟨[], [], [], false⟩]
        = .ok res ∧
      res.exp = o ∧ res.var.mem = o ∧ res.var.trace = [] ++ t ∧ storesEcho t = true ∧
      LLSC.__lockfree_load_16 ⟨5, false, []⟩ ATOMIC_ACQUIRE (some (2 ^ 64 * 3 + 5))
        [⟨[], [], [], true⟩, ⟨[], [], [], false⟩] = .ok (o, res.var) :=
  (load_result_independent_of_plain_read ⟨5, false, []⟩ (by decide)
    (some (2 ^ 64 * 3 + 5)) (by decide)).2.1 ATOMIC_ACQUIRE
    [⟨[], [], [], true⟩, ⟨[], [], [], false⟩] (by decide)


/-! ## Termination of the exclusive load / store loop -/

theorem cas_loop_attempts (expected neu : Nat) (ll_mo sc_mo : Int)
    (hll : ll_mo = ATOMIC_ACQUIRE ∨ ll_mo = ATOMIC_RELAXED)
    (hsc : sc_mo = ATOMIC_RELEASE ∨ sc_mo = ATOMIC_RELAXED) :
    ∀ (env : List Round) (var : Machine), env.any Round.clean = true →
      ∃ old v t, LLSC.cas_loop expected neu ll_mo sc_mo var env = .ok (old, v) ∧
        v.trace = var.trace ++ t ∧
        attemptsShape (failuresBefore env) t = some old ∧
        t.length = 2 * (failuresBefore env + 1) ∧
        LLSC.cas_loop expected neu ll_mo sc_mo var (env.take (failuresBefore env + 1))
          = .ok (old, v) := by
  have hl : ((if ll_mo == ATOMIC_ACQUIRE then Insn.ldaxp else Insn.ldxp) == Insn.ldxp
      || (if ll_mo == ATOMIC_ACQUIRE then Insn.ldaxp else Insn.ldxp) == Insn.ldaxp) = true := by
    split <;> decide
  have hs : ((if sc_mo == ATOMIC_RELEASE then Insn.stlxp else Insn.stxp) == Insn.stxp
      || (if sc_mo == ATOMIC_RELEASE then Insn.stlxp else Insn.stxp) == Insn.stlxp) = true := by
    split <;> decide
  intro env
  induction env with
  | nil => intro var h; simp at h
  | cons r rs ih =>
    intro var h
    cases hc : r.clean with
    | true =>
      have hc2 : (r.w2.isEmpty && r.w3.isEmpty && !r.lost) = true := hc
      refine ⟨lo64 (applyWrites var.mem r.w1)
            + hi64 (applyWrites (applyWrites var.mem r.w1) r.w2) * 2 ^ 64,
        { mem := lo64 (if (lo64 (applyWrites var.mem r.w1)
                  + hi64 (applyWrites (applyWrites var.mem r.w1) r.w2) * 2 ^ 64
                    == expected) = true then neu
                  else lo64 (applyWrites var.mem r.w1)
                    + hi64 (applyWrites (applyWrites var.mem r.w1) r.w2) * 2 ^ 64)
              + hi64 (if (lo64 (applyWrites var.mem r.w1)
                  + hi64 (applyWrites (applyWrites var.mem r.w1) r.w2) * 2 ^ 64
                    == expected) = true then neu
                  else lo64 (applyWrites var.mem r.w1)
                    + hi64 (applyWrites (applyWrites var.mem r.w1) r.w2) * 2 ^ 64) * 2 ^ 64,
          monitor := false,
          trace := (var.trace ++
            [{ insn := if ll_mo == ATOMIC_ACQUIRE then Insn.ldaxp else Insn.ldxp,
               val := lo64 (applyWrites var.mem r.w1)
                 + hi64 (applyWrites (applyWrites var.mem r.w1) r.w2) * 2 ^ 64,
               status := 0 }]) ++
            [{ insn := if sc_mo == ATOMIC_RELEASE then Insn.stlxp else Insn.stxp,
               val := if (lo64 (applyWrites var.mem r.w1)
                 + hi64 (applyWrites (applyWrites var.mem r.w1) r.w2) * 2 ^ 64
                   == expected) = true then neu
                 else lo64 (applyWrites var.mem r.w1)
                   + hi64 (applyWrites (applyWrites var.mem r.w1) r.w2) * 2 ^ 64,
               status := 0 }] },
        [{ insn := if ll_mo == ATOMIC_ACQUIRE then Insn.ldaxp else Insn.ldxp,
           val := lo64 (applyWrites var.mem r.w1)
             + hi64 (applyWrites (applyWrites var.mem r.w1) r.w2) * 2 ^ 64,
           status := 0 },
         { insn := if sc_mo == ATOMIC_RELEASE then Insn.stlxp else Insn.stxp,
           val := if (lo64 (applyWrites var.mem r.w1)
             + hi64 (applyWrites (applyWrites var.mem r.w1) r.w2) * 2 ^ 64
               == expected) = true then neu
             else lo64 (applyWrites var.mem r.w1)
               + hi64 (applyWrites (applyWrites var.mem r.w1) r.w2) * 2 ^ 64,
           status := 0 }], ?_, ?_, ?_, ?_, ?_⟩
      · simp only [LLSC.cas_loop, lld_eq _ _ _ hll, scd_eq _ _ _ _ hsc, hc2, if_true,
          bne_self_eq_false, Bool.false_eq_true, if_false]
      · simp only [List.append_assoc, List.singleton_append]
      · simp only [failuresBefore, hc, if_true, List.singleton_append, attemptsShape, hl, hs,
          beq_self_eq_true, Bool.and_self]
      · simp only [failuresBefore, hc, if_true, List.singleton_append, List.length_cons,
          List.length_nil]
      · simp only [failuresBefore, hc, if_true, List.take_succ_cons, List.take_zero,
          LLSC.cas_loop, lld_eq _ _ _ hll, scd_eq _ _ _ _ hsc, hc2,
          bne_self_eq_false, Bool.false_eq_true, if_false]
    | false =>
      have hc2 : (r.w2.isEmpty && r.w3.isEmpty && !r.lost) = false := hc
      have h1 : ((1 : Nat) != 0) = true := rfl
      have hrs : rs.any Round.clean = true := by
        simp only [List.any_cons, hc, Bool.false_or] at h
        exact h
      obtain ⟨old, v, t, e1, e2, e3, e4, e5⟩ := ih
        { mem := applyWrites (applyWrites (applyWrites var.mem r.w1) r.w2) r.w3,
          monitor := false,
          trace := (var.trace ++
            [{ insn := if ll_mo == ATOMIC_ACQUIRE then Insn.ldaxp else Insn.ldxp,
               val := lo64 (applyWrites var.mem r.w1)
                 + hi64 (applyWrites (applyWrites var.mem r.w1) r.w2) * 2 ^ 64,
               status := 0 }]) ++
            [{ insn := if sc_mo == ATOMIC_RELEASE then Insn.stlxp else Insn.stxp,
               val := if (lo64 (applyWrites var.mem r.w1)
                 + hi64 (applyWrites (applyWrites var.mem r.w1) r.w2) * 2 ^ 64
                   == expected) = true then neu
                 else lo64 (applyWrites var.mem r.w1)
                   + hi64 (applyWrites (applyWrites var.mem r.w1) r.w2) * 2 ^ 64,
               status := 1 }] } hrs
      simp only [List.append_assoc, List.singleton_append, List.cons_append,
        List.nil_append] at e2
      refine ⟨old, v, _, ?_, e2, ?_, ?_, ?_⟩
      · simp only [LLSC.cas_loop, lld_eq _ _ _ hll, scd_eq _ _ _ _ hsc, hc2,
          Bool.false_eq_true, if_false, h1, if_true]
        exact e1
      · simp only [failuresBefore, hc, Bool.false_eq_true, if_false, attemptsShape, hl, hs,
          beq_self_eq_true, Bool.and_self, if_true]
        exact e3
      · simp only [failuresBefore, hc, Bool.false_eq_true, if_false, List.length_cons, e4]
        omega
      · simp only [failuresBefore, hc, Bool.false_eq_true, if_false, List.take_succ_cons,
          LLSC.cas_loop, lld_eq _ _ _ hll, scd_eq _ _ _ _ hsc, hc2, h1, if_true]
        exact e5

/-- C22: for every sequence of store-conditional outcomes that contains a success
(an environment with a clean round), the exclusive load / store compare-exchange
returns, and its trace is exactly `failuresBefore env` load / store attempts
whose store failed followed by one attempt whose store took effect, nothing
after it: `2 * (failures + 1)` instructions.  The rounds after the first success
are not consumed.  The final `*exp` is the value loaded in that last attempt
and the return value compares it with the entry `*exp`. -/
theorem llsc_loop_stops_at_first_successful_store
    (var : Machine) (e neu : Nat) (weak : Bool) (mo_success mo_failure : Int)
    (env : List Round) (h : env.any Round.clean = true) :
    ∃ res t,
      LLSC.__lockfree_compare_exchange_16 var e neu weak mo_success mo_failure env
        = .ok res ∧
      res.var.trace = var.trace ++ t ∧
      t.length = 2 * (failuresBefore env + 1) ∧
      attemptsShape (failuresBefore env) t = some res.exp ∧
      res.ret = (res.exp == e) ∧
      LLSC.__lockfree_compare_exchange_16 var e neu weak mo_success mo_failure
        (env.take (failuresBefore env + 1)) = .ok res := by
  obtain ⟨old, v, t, e1, e2, e3, e4, e5⟩ :=
    cas_loop_attempts e neu (LL_MO mo_success) (SC_MO mo_success) (LL_MO_valid _)
      (SC_MO_valid _) env var h
  refine ⟨{ ret := old == e, exp := old, var := v }, t, ?_, e2, e4, e3, rfl, ?_⟩
  · simp only [LLSC.__lockfree_compare_exchange_16, e1]
  · simp only [LLSC.__lockfree_compare_exchange_16, e5]

theorem llsc_loop_stops_at_first_successful_store_witness :
    ∃ res t,
      LLSC.__lockfree_compare_exchange_16 ⟨5, false, []⟩ 7 9 false ATOMIC_ACQ_REL
        ATOMIC_RELAXED
        [⟨[], [], [], true⟩, ⟨[], [6], [], false⟩, ⟨[7], [], [], false⟩, ⟨[8], [], [], false⟩]
        = .ok res ∧
      res.var.trace = [] ++ t ∧
      t.length = 2 * (failuresBefore
        [⟨[], [], [], true⟩, ⟨[], [6], [], false⟩, ⟨[7], [], [], false⟩, ⟨[8], [], [], false⟩]
          + 1) ∧
      attemptsShape (failuresBefore
        [⟨[], [], [], true⟩, ⟨[], [6], [], false⟩, ⟨[7], [], [], false⟩, ⟨[8], [], [], false⟩])
        t = some res.exp ∧
      res.ret = (res.exp == 7) ∧
      LLSC.__lockfree_compare_exchange_16 ⟨5, false, []⟩ 7 9 false ATOMIC_ACQ_REL
        ATOMIC_RELAXED
        (List.take (failuresBefore
          [⟨[], [], [], true⟩, ⟨[], [6], [], false⟩, ⟨[7], [], [], false⟩,
           ⟨[8], [], [], false⟩] + 1)
          [⟨[], [], [], true⟩, ⟨[], [6], [], false⟩, ⟨[7], [], [], false⟩,
           ⟨[8], [], [], false⟩]) = .ok res :=
  llsc_loop_stops_at_first_successful_store ⟨5, false, []⟩ 7 9 false ATOMIC_ACQ_REL
    ATOMIC_RELAXED
    [⟨[], [], [], true⟩, ⟨[], [6], [], false⟩, ⟨[7], [], [], false⟩, ⟨[8], [], [], false⟩]
    (by decide)


/-! ## The retry after a failed compare-exchange -/

theorem retry_succeeds_of_atomic {ε : Type} (B : Backend ε) (Good : ε → Prop)
    (hB : B.Atomic Good) (f : Nat → Nat) (hf : ∀ x, f x < 2 ^ 128) (mo : MemoryOrder)
    (var : Machine) (e : Nat) (env1 env2 : ε) (rest : List ε)
    (hv : var.mem < 2 ^ 128) (he : e < 2 ^ 128) (hne : e ≠ var.mem)
    (h1 : Good env1) (h2 : Good env2) :
    RetrySucceeds B f mo var e env1 env2 rest := by
  have hne2 : ¬ var.mem = e := fun h => hne h.symm
  obtain ⟨m1, c1, e1⟩ := hB.2 var e (f e) mo env1 hv he (hf e) h1
  rw [if_neg hne2] at e1
  have hb1 : (var.mem == e) = false := by simpa using hne2
  rw [hb1] at c1
  obtain ⟨m2, c2, e2⟩ := hB.2 m1 var.mem (f var.mem) mo env2 (by rw [e1]; exact hv) hv
    (hf var.mem) h2
  rw [e1, if_pos rfl] at e2
  have hb2 : (m1.mem == var.mem) = true := by rw [e1]; simp
  rw [hb2, e1] at c2
  refine ⟨_, _, c1, rfl, rfl, c2, rfl, e2, ?_⟩
  simp only [cas_retry, c1, Bool.false_eq_true, if_false, c2, if_true]

theorem at_most_two_of_atomic {ε : Type} (B : Backend ε) (Good : ε → Prop)
    (hB : B.Atomic Good) (f : Nat → Nat) (hf : ∀ x, f x < 2 ^ 128) (mo : MemoryOrder)
    (var : Machine) (old : Nat) (env1 env2 : ε) (rest : List ε)
    (hv : var.mem < 2 ^ 128) (ho : old < 2 ^ 128) (h1 : Good env1) (h2 : Good env2) :
    AtMostTwoCalls B f mo var old (env1 :: env2 :: rest) := by
  by_cases h : old = var.mem
  · obtain ⟨m1, c1, e1⟩ := hB.2 var old (f old) mo env1 hv ho (hf old) h1
    rw [if_pos h.symm] at e1
    have hb : (var.mem == old) = true := by simpa using h.symm
    rw [hb] at c1
    refine ⟨1, var.mem, m1, ?_, by omega, by rw [e1, h]⟩
    simp only [cas_retry, c1, if_true]
  · obtain ⟨r1, r2, _, _, _, _, _, e2, hr⟩ :=
      retry_succeeds_of_atomic B Good hB f hf mo var old env1 env2 rest hv ho h h1 h2
    exact ⟨2, var.mem, r2.var, hr, Nat.le_refl _, e2⟩

/-- C23: a failed compare-exchange makes the retry succeed.  For every stored value
`v`, every stale expected value `e != v` and every function `f` computing the new
value, with no other writer the first `__lockfree_compare_exchange_16` returns
false and leaves `v` in `*exp`, and the second call, made with that updated
expected value, returns true and stores `f v`; so the retry loop of the test
makes exactly two calls then, at most two calls whatever `old` held, and leaves
the word equal to `f v`.  Both variants, every order. -/
theorem failed_compare_exchange_makes_retry_succeed
    (f : Nat → Nat) (hf : ∀ x, f x < 2 ^ 128) (var : Machine) (e : Nat)
    (hv : var.mem < 2 ^ 128) (he : e < 2 ^ 128) (hne : e ≠ var.mem) (mo : MemoryOrder) :
    (∀ (env1 env2 : List Round) (rest : List (List Round)),
      Quiet env1 = true → Quiet env2 = true →
      RetrySucceeds llscBackend f mo var e env1 env2 rest) ∧
    (∀ rest : List Unit, RetrySucceeds caspBackend f mo var e () () rest) ∧
    (∀ (old : Nat) (env1 env2 : List Round) (rest : List (List Round)),
      old < 2 ^ 128 → Quiet env1 = true → Quiet env2 = true →
      AtMostTwoCalls llscBackend f mo var old (env1 :: env2 :: rest)) ∧
    (∀ (old : Nat) (rest : List Unit), old < 2 ^ 128 →
      AtMostTwoCalls caspBackend f mo var old (() :: () :: rest)) := by
  refine ⟨?_, ?_, ?_, ?_⟩
  · intro env1 env2 rest h1 h2
    exact retry_succeeds_of_atomic llscBackend (fun env => Quiet env = true)
      llsc_backend_atomic f hf mo var e env1 env2 rest hv he hne h1 h2
  · intro rest
    exact retry_succeeds_of_atomic caspBackend (fun _ => True)
      casp_backend_atomic f hf mo var e () () rest hv he hne trivial trivial
  · intro old env1 env2 rest ho h1 h2
    exact at_most_two_of_atomic llscBackend (fun env => Quiet env = true)
      llsc_backend_atomic f hf mo var old env1 env2 rest hv ho h1 h2
  · intro old rest ho
    exact at_most_two_of_atomic caspBackend (fun _ => True)
      casp_backend_atomic f hf mo var old () () rest hv ho trivial trivial

theorem failed_compare_exchange_makes_retry_succeed_witness :
    RetrySucceeds llscBackend bump MemoryOrder.Relaxed ⟨2 ^ 64 * 7 + 9, false, []⟩ 5
      calm bumpy [] :=
  (failed_compare_exchange_makes_retry_succeed bump (fun x => (bump_halves x).2.2)
    ⟨2 ^ 64 * 7 + 9, false, []⟩ 5 (by decide) (by decide) (by decide)
    MemoryOrder.Relaxed).1 calm bumpy [] (by decide) (by decide)


/-! ## Register pairs -/

/-- C24: splitting a 128-bit value into two 64-bit halves and recomposing it is the
identity, `((u128)(uint64_t)v) | (((u128)(uint64_t)(v >> 64)) << 64) = v`.  So
`cas_u128` hands the instruction the halves of `old_val` and `new_val` (low half
in the first register of each pair), which recompose to the operands unchanged,
and returns the recomposition of exactly the two halves the instruction
produced. -/
theorem split_and_recompose_is_identity (v old_val new_val : Nat)
    (hv : v < 2 ^ 128) (ho : old_val < 2 ^ 128) (hn : new_val < 2 ^ 128) :
    pair128 (lo64 v) (hi64 v) = v ∧
    (pair128 (lo64 old_val) (hi64 old_val) = old_val ∧
      pair128 (lo64 new_val) (hi64 new_val) = new_val) ∧
    (∀ (ptr : Machine) (pre : List Nat) (mo : MemoryOrder),
      CASP.cas_u128 ptr old_val new_val mo.toInt pre =
        .ok (pair128
              (CASP.casp_insn (caspForm mo) { ptr with mem := applyWrites ptr.mem pre }
                (lo64 old_val) (hi64 old_val) (lo64 new_val) (hi64 new_val)).1
              (CASP.casp_insn (caspForm mo) { ptr with mem := applyWrites ptr.mem pre }
                (lo64 old_val) (hi64 old_val) (lo64 new_val) (hi64 new_val)).2.1,
             (CASP.casp_insn (caspForm mo) { ptr with mem := applyWrites ptr.mem pre }
                (lo64 old_val) (hi64 old_val) (lo64 new_val) (hi64 new_val)).2.2)) := by
  refine ⟨pair128_halves v hv, ⟨pair128_halves old_val ho, pair128_halves new_val hn⟩, ?_⟩
  intro ptr pre mo
  cases mo <;> rfl

theorem split_and_recompose_is_identity_witness :
    pair128 (lo64 (2 ^ 127 + 2 ^ 64 + 3)) (hi64 (2 ^ 127 + 2 ^ 64 + 3))
      = 2 ^ 127 + 2 ^ 64 + 3 :=
  (split_and_recompose_is_identity (2 ^ 127 + 2 ^ 64 + 3) 0 1 (by decide) (by decide)
    (by decide)).1

/-! ## Orders accepted by the exclusive-access helpers -/

/-- C25: the exclusive-access helpers accept only their own two orders.  `lld`
returns a value if and only if its order is Acquire or Relaxed, `scd` returns a
status if and only if its order is Release or Relaxed; with any other order the
call stops on the assertion (for example Release or AcquireRelease passed to
`lld`) and returns no value or status at all. -/
theorem exclusive_helpers_accept_only_their_orders
    (var : Machine) (neu : Nat) (mm : Int) (r : Round) :
    ((∃ x, lld var mm r = .ok x) ↔ (mm = ATOMIC_ACQUIRE ∨ mm = ATOMIC_RELAXED)) ∧
    (lld var mm r = .error Fault.assertion ↔
      ¬ (mm = ATOMIC_ACQUIRE ∨ mm = ATOMIC_RELAXED)) ∧
    ((∃ x, scd var neu mm r = .ok x) ↔ (mm = ATOMIC_RELEASE ∨ mm = ATOMIC_RELAXED)) ∧
    (scd var neu mm r = .error Fault.assertion ↔
      ¬ (mm = ATOMIC_RELEASE ∨ mm = ATOMIC_RELAXED)) ∧
    lld var ATOMIC_RELEASE r = .error Fault.assertion ∧
    lld var ATOMIC_ACQ_REL r = .error Fault.assertion ∧
    scd var neu ATOMIC_ACQUIRE r = .error Fault.assertion := by
  have hlld : ¬ (mm = ATOMIC_ACQUIRE ∨ mm = ATOMIC_RELAXED) →
      lld var mm r = .error Fault.assertion := by
    intro h
    have hb : (mm == ATOMIC_ACQUIRE || mm == ATOMIC_RELAXED) = false := by
      simpa using h
    simp only [lld, ODP_ASSERT, hb, Bool.false_eq_true, if_false]
  have hscd : ¬ (mm = ATOMIC_RELEASE ∨ mm = ATOMIC_RELAXED) →
      scd var neu mm r = .error Fault.assertion := by
    intro h
    have hb : (mm == ATOMIC_RELEASE || mm == ATOMIC_RELAXED) = false := by
      simpa using h
    simp only [scd, ODP_ASSERT, hb, Bool.false_eq_true, if_false]
  refine ⟨?_, ?_, ?_, ?_, rfl, rfl, rfl⟩
  · constructor
    · rintro ⟨x, hx⟩
      by_contra h
      rw [hlld h] at hx
      cases hx
    · intro h
      exact ⟨_, lld_eq var mm r h⟩
  · constructor
    · intro hx h
      rw [lld_eq var mm r h] at hx
      cases hx
    · exact hlld
  · constructor
    · rintro ⟨x, hx⟩
      by_contra h
      rw [hscd h] at hx
      cases hx
    · intro h
      rw [scd_eq var neu mm r h]
      split
      · exact ⟨_, rfl⟩
      · exact ⟨_, rfl⟩
  · constructor
    · intro hx h
      rw [scd_eq var neu mm r h] at hx
      split at hx <;> cases hx
    · exact hscd

/-! ## The mapper on every integer -/

/-- C26: a sequentially-consistent request is handled as AcquireRelease by the
mapper: `LL_MO(__ATOMIC_SEQ_CST)` is Acquire and `SC_MO(__ATOMIC_SEQ_CST)` is
Release, the same pair as for `__ATOMIC_ACQ_REL`; and the mapping is never weaker
than the request: every order with an acquire side (Consume, Acquire,
AcquireRelease, SeqCst) gets an Acquire load, every order with a release side
(Release, AcquireRelease, SeqCst) gets a Release store. -/
theorem seq_cst_is_mapped_as_acq_rel :
    LL_MO ATOMIC_SEQ_CST = ATOMIC_ACQUIRE ∧ SC_MO ATOMIC_SEQ_CST = ATOMIC_RELEASE ∧
    LL_MO ATOMIC_SEQ_CST = LL_MO ATOMIC_ACQ_REL ∧
    SC_MO ATOMIC_SEQ_CST = SC_MO ATOMIC_ACQ_REL ∧
    (∀ mo : Int, (mo = ATOMIC_CONSUME ∨ mo = ATOMIC_ACQUIRE ∨ mo = ATOMIC_ACQ_REL ∨
        mo = ATOMIC_SEQ_CST) → LL_MO mo = ATOMIC_ACQUIRE) ∧
    (∀ mo : Int, (mo = ATOMIC_RELEASE ∨ mo = ATOMIC_ACQ_REL ∨ mo = ATOMIC_SEQ_CST) →
        SC_MO mo = ATOMIC_RELEASE) := by
  refine ⟨rfl, rfl, rfl, rfl, ?_, ?_⟩
  · rintro mo (h | h | h | h) <;> subst h <;> rfl
  · rintro mo (h | h | h) <;> subst h <;> rfl

theorem llsc_cas_ok_or_starved (var : Machine) (e neu : Nat) (weak : Bool)
    (mo mf : Int) (env : List Round) :
    (∃ res, LLSC.__lockfree_compare_exchange_16 var e neu weak mo mf env = .ok res) ∨
    LLSC.__lockfree_compare_exchange_16 var e neu weak mo mf env = .error Fault.starved := by
  rcases cas_loop_ok_or_starved e neu (LL_MO mo) (SC_MO mo) (LL_MO_valid mo)
    (SC_MO_valid mo) env var with ⟨⟨old, v⟩, h⟩ | h
  · left
    simp only [LLSC.__lockfree_compare_exchange_16, h]
    exact ⟨_, rfl⟩
  · right
    simp only [LLSC.__lockfree_compare_exchange_16, h]

/-- C27: for every integer value of `mo_success`, valid order or not,
`LL_MO(mo_success)` is Acquire or Relaxed and `SC_MO(mo_success)` is Release or
Relaxed; hence the exclusive load / store `__lockfree_compare_exchange_16` and
`__lockfree_load_16` never stop on the assertion of `lld` or `scd`, whatever
their arguments and whatever the other agents do. -/
theorem llsc_assertions_unreachable (mo : Int) :
    (LL_MO mo = ATOMIC_ACQUIRE ∨ LL_MO mo = ATOMIC_RELAXED) ∧
    (SC_MO mo = ATOMIC_RELEASE ∨ SC_MO mo = ATOMIC_RELAXED) ∧
    (∀ (var : Machine) (r : Round) (neu : Nat),
      (∃ x, lld var (LL_MO mo) r = .ok x) ∧ (∃ y, scd var neu (SC_MO mo) r = .ok y)) ∧
    (∀ (var : Machine) (e neu : Nat) (weak : Bool) (mo_failure : Int) (env : List Round),
      LLSC.__lockfree_compare_exchange_16 var e neu weak mo mo_failure env
        ≠ .error Fault.assertion) ∧
    (∀ (var : Machine) (torn : Option Nat) (env : List Round),
      LLSC.__lockfree_load_16 var mo torn env ≠ .error Fault.assertion) := by
  refine ⟨LL_MO_valid mo, SC_MO_valid mo, ?_, ?_, ?_⟩
  · intro var r neu
    refine ⟨⟨_, lld_eq var _ r (LL_MO_valid mo)⟩, ?_⟩
    rw [scd_eq var neu _ r (SC_MO_valid mo)]
    split
    · exact ⟨_, rfl⟩
    · exact ⟨_, rfl⟩
  · intro var e neu weak mf env
    rcases llsc_cas_ok_or_starved var e neu weak mo mf env with ⟨res, h⟩ | h
    · rw [h]; exact fun h2 => (by cases h2)
    · rw [h]; exact fun h2 => (by cases h2)
  · intro var torn env
    rcases llsc_load_ok_or_starved var mo torn env with ⟨res, h⟩ | h
    · rw [h]; exact fun h2 => (by cases h2)
    · rw [h]; exact fun h2 => (by cases h2)


/-! ## One facade, three backends -/

/-- C28: the three backends implement the same `lockfree_cas_acq_rel_u128`.  For
every stored value, `old_val` and `new_val`, with no interfering writer, the
exclusive load / store variant, the `casp` variant and the generic builtin (any
strong compare-exchange) return the same result, 1 if the word equalled
`old_val` and 0 if not, and leave the same stored value, `new_val` on 1 and the
unchanged word on 0.  `old_val` is the callee's copy: the result carries no
updated expected value. -/
theorem three_backends_same_cas_acq_rel
    (builtin : Nat → Nat → Nat → Bool → Int → Int → Bool × Nat × Nat)
    (hb : StrongCas builtin) (var : Machine) (old_val new_val : Nat)
    (hv : var.mem < 2 ^ 128) (ho : old_val < 2 ^ 128) (hn : new_val < 2 ^ 128)
    (env : List Round) (hq : Quiet env = true) :
    ∃ m1 m2,
      LLSC.lockfree_cas_acq_rel_u128 var old_val new_val env
        = .ok (if var.mem = old_val then 1 else 0, m1) ∧
      CASP.lockfree_cas_acq_rel_u128 var old_val new_val []
        = .ok (if var.mem = old_val then 1 else 0, m2) ∧
      Default.lockfree_cas_acq_rel_u128 builtin var.mem old_val new_val
        = (if var.mem = old_val then 1 else 0,
           if var.mem = old_val then new_val else var.mem) ∧
      m1.mem = (if var.mem = old_val then new_val else var.mem) ∧
      m2.mem = (if var.mem = old_val then new_val else var.mem) := by
  obtain ⟨m1, c1, e1⟩ :=
    llsc_cas_quiet var old_val new_val false ATOMIC_ACQ_REL ATOMIC_RELAXED env hv hn hq
  have c2 := casp_cas_spec var old_val new_val false MemoryOrder.AcquireRelease
    ATOMIC_RELAXED [] hv ho hn rfl
  simp only [applyWrites_nil] at c2
  have c2b : CASP.__lockfree_compare_exchange_16 var old_val new_val false ATOMIC_ACQ_REL
      ATOMIC_RELAXED [] = _ := c2
  refine ⟨m1,
    { mem := if var.mem = old_val then new_val else var.mem, monitor := var.monitor,
      trace := var.trace ++
        [{ insn := caspForm MemoryOrder.AcquireRelease, val := var.mem, status := 0 }] },
    ?_, ?_, ?_, e1, rfl⟩
  · simp only [LLSC.lockfree_cas_acq_rel_u128, c1]
    by_cases h : var.mem = old_val
    · simp [h]
    · simp [h]
  · simp only [CASP.lockfree_cas_acq_rel_u128, c2b]
    by_cases h : var.mem = old_val
    · simp [h]
    · simp [h]
  · simp only [Default.lockfree_cas_acq_rel_u128, hb var.mem old_val new_val]
    by_cases h : var.mem = old_val
    · simp [h]
    · simp [h]

theorem three_backends_same_cas_acq_rel_witness :
    ∃ m1 m2,
      LLSC.lockfree_cas_acq_rel_u128 ⟨2 ^ 64 * 7 + 9, false, []⟩ (2 ^ 64 * 7 + 9) 11 bumpy
        = .ok (if 2 ^ 64 * 7 + 9 = 2 ^ 64 * 7 + 9 then 1 else 0, m1) ∧
      CASP.lockfree_cas_acq_rel_u128 ⟨2 ^ 64 * 7 + 9, false, []⟩ (2 ^ 64 * 7 + 9) 11 []
        = .ok (if 2 ^ 64 * 7 + 9 = 2 ^ 64 * 7 + 9 then 1 else 0, m2) ∧
      Default.lockfree_cas_acq_rel_u128 strong_cas (2 ^ 64 * 7 + 9) (2 ^ 64 * 7 + 9) 11
        = (if 2 ^ 64 * 7 + 9 = 2 ^ 64 * 7 + 9 then 1 else 0,
           if 2 ^ 64 * 7 + 9 = 2 ^ 64 * 7 + 9 then 11 else 2 ^ 64 * 7 + 9) ∧
      m1.mem = (if 2 ^ 64 * 7 + 9 = 2 ^ 64 * 7 + 9 then 11 else 2 ^ 64 * 7 + 9) ∧
      m2.mem = (if 2 ^ 64 * 7 + 9 = 2 ^ 64 * 7 + 9 then 11 else 2 ^ 64 * 7 + 9) :=
  three_backends_same_cas_acq_rel strong_cas (fun _ _ _ _ _ => rfl)
    ⟨2 ^ 64 * 7 + 9, false, []⟩ (2 ^ 64 * 7 + 9) 11 (by decide) (by decide) (by decide)
    bumpy (by decide)


/-! ## The generator state -/

theorem xor_shr_ne_zero (y k : Nat) (hk : 0 < k) (hy : y ≠ 0) : y ^^^ (y >>> k) ≠ 0 := by
  intro h
  rw [Nat.xor_eq_zero, Nat.shiftRight_eq_div_pow] at h
  have h2 : 2 ≤ 2 ^ k := by
    calc 2 = 2 ^ 1 := by norm_num
      _ ≤ 2 ^ k := Nat.pow_le_pow_right (by norm_num) hk
  have h3 : y / 2 ^ k < y := Nat.div_lt_self (Nat.pos_of_ne_zero hy) h2
  omega

theorem xor_shr_lt (y k : Nat) (hy : y < 2 ^ 64) : y ^^^ (y >>> k) < 2 ^ 64 := by
  apply Nat.xor_lt_two_pow hy
  rw [Nat.shiftRight_eq_div_pow]
  exact Nat.lt_of_le_of_lt (Nat.div_le_self _ _) hy

theorem xor_shl25_ne_zero (y : Nat) (hy : y < 2 ^ 64) (h0 : y ≠ 0) :
    y ^^^ ((y <<< 25) % 2 ^ 64) ≠ 0 := by
  intro h
  rw [Nat.xor_eq_zero, Nat.shiftLeft_eq] at h
  omega

theorem xor_shl25_lt (y : Nat) (hy : y < 2 ^ 64) : y ^^^ ((y <<< 25) % 2 ^ 64) < 2 ^ 64 :=
  Nat.xor_lt_two_pow hy (Nat.mod_lt _ (by norm_num))

/-- C29: the `xorshift64s32` state is never zero after a call.  For every 64-bit
input state, including 0 (first replaced by 11400714819323198485), the state
left in `*x` is a non-zero 64-bit value, because each of the three shift-xor
steps modulo `2 ^ 64` maps non-zero 64-bit values to non-zero values; the
generator cannot reach the all-zero fixed point. -/
theorem xorshift_state_never_zero (x : Nat) (hx : x < 2 ^ 64) :
    (xorshift64s32 x).2 ≠ 0 ∧ (xorshift64s32 x).2 < 2 ^ 64 ∧
    (∀ y, y < 2 ^ 64 → y ≠ 0 →
      y ^^^ (y >>> 12) ≠ 0 ∧ y ^^^ ((y <<< 25) % 2 ^ 64) ≠ 0 ∧ y ^^^ (y >>> 27) ≠ 0) := by
  have key : ∀ x0, x0 < 2 ^ 64 → x0 ≠ 0 →
      ((x0 ^^^ (x0 >>> 12)) ^^^ (((x0 ^^^ (x0 >>> 12)) <<< 25) % 2 ^ 64)) ^^^
        (((x0 ^^^ (x0 >>> 12)) ^^^ (((x0 ^^^ (x0 >>> 12)) <<< 25) % 2 ^ 64)) >>> 27) ≠ 0 ∧
      ((x0 ^^^ (x0 >>> 12)) ^^^ (((x0 ^^^ (x0 >>> 12)) <<< 25) % 2 ^ 64)) ^^^
        (((x0 ^^^ (x0 >>> 12)) ^^^ (((x0 ^^^ (x0 >>> 12)) <<< 25) % 2 ^ 64)) >>> 27)
        < 2 ^ 64 := by
    intro x0 h1 h2
    have a1 := xor_shr_ne_zero x0 12 (by norm_num) h2
    have a2 := xor_shr_lt x0 12 h1
    have b1 := xor_shl25_ne_zero _ a2 a1
    have b2 := xor_shl25_lt _ a2
    exact ⟨xor_shr_ne_zero _ 27 (by norm_num) b1, xor_shr_lt _ 27 b2⟩
  refine ⟨?_, ?_, ?_⟩
  · by_cases h : x = 0
    · subst h
      exact (key 11400714819323198485 (by norm_num) (by norm_num)).1
    · have hb : (x == 0) = false := by simpa using h
      simp only [xorshift64s32, hb, Bool.false_eq_true, if_false]
      exact (key x hx h).1
  · by_cases h : x = 0
    · subst h
      exact (key 11400714819323198485 (by norm_num) (by norm_num)).2
    · have hb : (x == 0) = false := by simpa using h
      simp only [xorshift64s32, hb, Bool.false_eq_true, if_false]
      exact (key x hx h).2
  · intro y hy h0
    exact ⟨xor_shr_ne_zero y 12 (by norm_num) h0, xor_shl25_ne_zero y hy h0,
      xor_shr_ne_zero y 27 (by norm_num) h0⟩

theorem xorshift_state_never_zero_witness :
    (xorshift64s32 0).2 ≠ 0 ∧ (xorshift64s32 0).2 < 2 ^ 64 :=
  ⟨(xorshift_state_never_zero 0 (by decide)).1, (xorshift_state_never_zero 0 (by decide)).2.1⟩

/-! ## Alignment of the stores of the generator -/

theorem put_stores (s : RandState) (w v : Nat) :
    (s.put w v).stores = s.stores ++ [{ addr := s.buf, width := w, val := v }] := rfl

theorem head_shape (s : RandState) :
    ∃ l, (random_head s).stores = s.stores ++ l ∧
      (∀ st ∈ l, st.width = 1 ∨ (st.width = 2 ∧ st.addr % 2 = 0)) ∧
      ((random_head s).buf % 4 = 0 ∨ (random_head s).len < 2) := by
  unfold random_head
  have h1 := Nat.and_one_is_mod s.buf
  have h2 := and_two s.buf
  have h3 := and_two (s.buf + 1)
  cases c1 : (s.buf &&& 1 != 0) with
  | true =>
    have o1 : s.buf % 2 = 1 := by
      simp only [bne_iff_ne, ne_eq] at c1
      omega
    cases c2 : ((s.buf + 1) &&& 2 != 0 && decide (s.len - 1 ≥ 2)) with
    | true =>
      have c2p := c2
      simp only [Bool.and_eq_true, decide_eq_true_eq, bne_iff_ne, ne_eq] at c2p
      have o2 : ¬ (s.buf + 1) % 4 < 2 := by
        intro h
        rw [h3, if_pos h] at c2p
        exact c2p.1 rfl
      refine ⟨[{ addr := s.buf, width := 1, val := (xorshift64s32 s.seed).1 &&& 0xff },
        { addr := s.buf + 1, width := 2,
          val := ((xorshift64s32 s.seed).1 >>> 8) &&& 0xffff }], ?_, ?_, ?_⟩
      · simp only [c1, if_true, c2]
        show (s.stores ++ [_]) ++ [_] = _
        rw [List.append_assoc]
        rfl
      · intro st hst
        simp only [List.mem_cons, List.mem_singleton, List.not_mem_nil, or_false] at hst
        rcases hst with h | h
        · left; rw [h]
        · right; rw [h]; exact ⟨rfl, by show (s.buf + 1) % 2 = 0; omega⟩
      · left
        simp only [c1, if_true, c2]
        show (s.buf + 1 + 2) % 4 = 0
        omega
    | false =>
      have c2p : (s.buf + 1) % 4 < 2 ∨ s.len - 1 < 2 := by
        by_cases hlen : s.len - 1 < 2
        · exact Or.inr hlen
        · left
          have hd : decide (s.len - 1 ≥ 2) = true := by
            simp only [decide_eq_true_eq]; omega
          rw [hd, Bool.and_true] at c2
          simp only [bne_eq_false_iff_eq] at c2
          by_contra hc
          rw [h3, if_neg hc] at c2
          exact absurd c2 (by decide)
      refine ⟨[{ addr := s.buf, width := 1, val := (xorshift64s32 s.seed).1 &&& 0xff }],
        ?_, ?_, ?_⟩
      · simp only [c1, if_true, c2, Bool.false_eq_true, if_false]
        rfl
      · intro st hst
        simp only [List.mem_singleton] at hst
        left; rw [hst]
      · simp only [c1, if_true, c2, Bool.false_eq_true, if_false]
        show (s.buf + 1) % 4 = 0 ∨ s.len - 1 < 2
        rcases c2p with h | h
        · left; omega
        · right; exact h
  | false =>
    have o1 : s.buf % 2 = 0 := by
      simp only [bne_eq_false_iff_eq] at c1
      omega
    cases c2 : (s.buf &&& 2 != 0 && decide (s.len ≥ 2)) with
    | true =>
      have c2p := c2
      simp only [Bool.and_eq_true, decide_eq_true_eq, bne_iff_ne, ne_eq] at c2p
      have o2 : ¬ s.buf % 4 < 2 := by
        intro h
        rw [h2, if_pos h] at c2p
        exact c2p.1 rfl
      refine ⟨[{ addr := s.buf, width := 2, val := (xorshift64s32 s.seed).1 &&& 0xffff }],
        ?_, ?_, ?_⟩
      · simp only [c1, Bool.false_eq_true, if_false, c2, if_true]
        rfl
      · intro st hst
        simp only [List.mem_singleton] at hst
        right; rw [hst]; exact ⟨rfl, o1⟩
      · left
        simp only [c1, Bool.false_eq_true, if_false, c2, if_true]
        show (s.buf + 2) % 4 = 0
        omega
    | false =>
      have c2p : s.buf % 4 < 2 ∨ s.len < 2 := by
        by_cases hlen : s.len < 2
        · exact Or.inr hlen
        · left
          have hd : decide (s.len ≥ 2) = true := by
            simp only [decide_eq_true_eq]; omega
          rw [hd, Bool.and_true] at c2
          simp only [bne_eq_false_iff_eq] at c2
          by_contra hc
          rw [h2, if_neg hc] at c2
          exact absurd c2 (by decide)
      refine ⟨[], ?_, ?_, ?_⟩
      · simp only [c1, Bool.false_eq_true, if_false, c2, List.append_nil]
      · intro st hst
        cases hst
      · simp only [c1, Bool.false_eq_true, if_false, c2]
        show s.buf % 4 = 0 ∨ s.len < 2
        rcases c2p with h | h
        · left; omega
        · right; exact h

theorem words_shape : ∀ (n : Nat) (s : RandState),
    ∃ l, (random_words n s).stores = s.stores ++ l ∧
      (∀ st ∈ l, st.width = 4 ∧ st.addr % 4 = s.buf % 4) ∧ (n = 0 → l = []) := by
  intro n
  induction n with
  | zero =>
    intro s
    exact ⟨[], by simp [random_words], (by intro st hst; cases hst), fun _ => rfl⟩
  | succ n ih =>
    intro s
    obtain ⟨l, e, hw, _⟩ := ih
      { s.put 4 (xorshift64s32 s.seed).1 with
        buf := s.buf + 4, seed := (xorshift64s32 s.seed).2 }
    refine ⟨{ addr := s.buf, width := 4, val := (xorshift64s32 s.seed).1 } :: l, ?_, ?_, ?_⟩
    · simp only [random_words, e]
      show (s.stores ++ [_]) ++ l = _
      rw [List.append_assoc]
      rfl
    · intro st hst
      rcases List.mem_cons.1 hst with h | h
      · rw [h]
        exact ⟨rfl, rfl⟩
      · obtain ⟨a, b⟩ := hw st h
        refine ⟨a, ?_⟩
        rw [b]
        show (s.buf + 4) % 4 = s.buf % 4
        omega
    · intro h
      exact absurd h (Nat.succ_ne_zero n)

theorem tail_shape (s : RandState) :
    ∃ l, (random_tail s).stores = s.stores ++ l ∧
      ∀ st ∈ l, st.width = 1 ∨ (st.width = 2 ∧ st.addr = s.buf ∧ 2 ≤ s.len) := by
  unfold random_tail
  have h2 := and_two s.len
  cases c2 : (s.len &&& 2 != 0) with
  | true =>
    have o2 : 2 ≤ s.len := by
      simp only [bne_iff_ne, ne_eq] at c2
      by_contra hc
      have : s.len % 4 < 2 := by omega
      rw [h2, if_pos this] at c2
      exact c2 rfl
    cases c1 : (s.len &&& 1 != 0) with
    | true =>
      refine ⟨[{ addr := s.buf, width := 2, val := (xorshift64s32 s.seed).1 &&& 0xffff },
        { addr := s.buf + 2, width := 1,
          val := ((xorshift64s32 s.seed).1 >>> 16) &&& 0xff }], ?_, ?_⟩
      · simp only [c2, if_true, put_len, c1]
        show (s.stores ++ [_]) ++ [_] = _
        rw [List.append_assoc]
        rfl
      · intro st hst
        simp only [List.mem_cons, List.mem_singleton, List.not_mem_nil, or_false] at hst
        rcases hst with h | h
        · right; rw [h]; exact ⟨rfl, rfl, o2⟩
        · left; rw [h]
    | false =>
      refine ⟨[{ addr := s.buf, width := 2, val := (xorshift64s32 s.seed).1 &&& 0xffff }],
        ?_, ?_⟩
      · simp only [c2, if_true, put_len, c1, Bool.false_eq_true, if_false]
        rfl
      · intro st hst
        simp only [List.mem_singleton] at hst
        right; rw [hst]; exact ⟨rfl, rfl, o2⟩
  | false =>
    cases c1 : (s.len &&& 1 != 0) with
    | true =>
      refine ⟨[{ addr := s.buf, width := 1, val := (xorshift64s32 s.seed).1 &&& 0xff }],
        ?_, ?_⟩
      · simp only [c2, Bool.false_eq_true, if_false, c1, if_true]
        rfl
      · intro st hst
        simp only [List.mem_singleton] at hst
        left; rw [hst]
    | false =>
      refine ⟨[], ?_, ?_⟩
      · simp only [c2, Bool.false_eq_true, if_false, c1, List.append_nil]
      · intro st hst
        cases hst

theorem tail_or_not_shape (s : RandState) :
    ∃ l, (if s.len &&& 3 != 0 then random_tail s else s).stores = s.stores ++ l ∧
      ∀ st ∈ l, st.width = 1 ∨ (st.width = 2 ∧ st.addr = s.buf ∧ 2 ≤ s.len) := by
  cases c : (s.len &&& 3 != 0) with
  | true =>
    simp only [if_true]
    exact tail_shape s
  | false =>
    refine ⟨[], ?_, ?_⟩
    · simp only [Bool.false_eq_true, if_false, List.append_nil]
    · intro st hst
      cases hst

theorem entry_shape (buf len seed : Nat) :
    (∀ st ∈ (word_loop_entry buf len seed).stores,
      st.width = 1 ∨ (st.width = 2 ∧ st.addr % 2 = 0)) ∧
    ((word_loop_entry buf len seed).buf % 4 = 0 ∨ (word_loop_entry buf len seed).len < 2) := by
  unfold word_loop_entry
  cases c : ((buf &&& 3 != 0) && (len != 0)) with
  | true =>
    simp only [if_true]
    obtain ⟨l, e, hw, hb⟩ :=
      head_shape { buf := buf, len := len, seed := seed, stores := [] }
    refine ⟨?_, hb⟩
    intro st hst
    rw [e] at hst
    exact hw st (by simpa using hst)
  | false =>
    simp only [Bool.false_eq_true, if_false]
    refine ⟨(by intro st hst; cases hst), ?_⟩
    show buf % 4 = 0 ∨ len < 2
    rw [Bool.and_eq_false_iff] at c
    rcases c with h | h
    · left
      simp only [bne_eq_false_iff_eq] at h
      rw [← and_three]
      exact h
    · right
      simp only [bne_eq_false_iff_eq] at h
      omega

theorem after_entry_shape (h : RandState) (hh : h.buf % 4 = 0 ∨ h.len < 2) :
    ∃ l, (if (random_words (h.len / 4) h).len &&& 3 != 0
            then random_tail (random_words (h.len / 4) h)
            else random_words (h.len / 4) h).stores = h.stores ++ l ∧
      AlignedStores l ∧ (h.len < 2 → ∀ st ∈ l, st.width = 1) := by
  obtain ⟨l2, e2, hw2, hn2⟩ := words_shape (h.len / 4) h
  obtain ⟨wb, wl, _⟩ := words_addrs (h.len / 4) h
  obtain ⟨l3, e3, hw3⟩ := tail_or_not_shape (random_words (h.len / 4) h)
  refine ⟨l2 ++ l3, ?_, ?_, ?_⟩
  · rw [e3, e2, List.append_assoc]
  · intro st hst
    rcases List.mem_append.1 hst with m | m
    · obtain ⟨a, b⟩ := hw2 st m
      refine ⟨fun _ => ?_, fun w => ?_⟩
      · rcases hh with h0 | h0
        · rw [b]; exact h0
        · have hz : h.len / 4 = 0 := by omega
          rw [hn2 hz] at m
          cases m
      · rw [a] at w
        exact absurd w (by decide)
    · rcases hw3 st m with a | ⟨a, b, c⟩
      · refine ⟨fun w => ?_, fun w => ?_⟩
        · rw [a] at w
          exact absurd w (by decide)
        · rw [a] at w
          exact absurd w (by decide)
      · refine ⟨fun w => ?_, fun _ => ?_⟩
        · rw [a] at w
          exact absurd w (by decide)
        · rw [b, wb]
          rw [wl] at c
          rcases hh with h0 | h0
          · omega
          · omega
  · intro hlt st hst
    rcases List.mem_append.1 hst with m | m
    · have hz : h.len / 4 = 0 := by omega
      rw [hn2 hz] at m
      cases m
    · rcases hw3 st m with a | ⟨_, _, c⟩
      · exact a
      · rw [wl] at c
        omega

/-- C30: with `_ODP_UNALIGNED = 0`, for every start address and every `len`,
every 32-bit store made by `_random_data` is to a multiple of 4 and every 16-bit
store to an even address.  The head step either aligns the pointer before the
word loop, or leaves fewer than 4 bytes (in fact fewer than 2), and then only
byte stores follow. -/
theorem random_data_stores_are_aligned (buf len seed : Nat) :
    (∀ st ∈ (_random_data false buf len seed).stores,
      (st.width = 4 → st.addr % 4 = 0) ∧ (st.width = 2 → st.addr % 2 = 0)) ∧
    (_random_data false buf len seed).stores.all Store.aligned = true ∧
    (_random_data false buf len seed).stores =
      (if (random_words ((word_loop_entry buf len seed).len / 4)
              (word_loop_entry buf len seed)).len &&& 3 != 0
        then random_tail (random_words ((word_loop_entry buf len seed).len / 4)
              (word_loop_entry buf len seed))
        else random_words ((word_loop_entry buf len seed).len / 4)
              (word_loop_entry buf len seed)).stores ∧
    ((word_loop_entry buf len seed).buf % 4 = 0 ∨
      ((word_loop_entry buf len seed).len < 2 ∧ (word_loop_entry buf len seed).len < 4 ∧
        ∀ st ∈ (_random_data false buf len seed).stores.drop
            (word_loop_entry buf len seed).stores.length, st.width = 1)) := by
  have link : (_random_data false buf len seed).stores =
      (if (random_words ((word_loop_entry buf len seed).len / 4)
              (word_loop_entry buf len seed)).len &&& 3 != 0
        then random_tail (random_words ((word_loop_entry buf len seed).len / 4)
              (word_loop_entry buf len seed))
        else random_words ((word_loop_entry buf len seed).len / 4)
              (word_loop_entry buf len seed)).stores := rfl
  obtain ⟨hs, hb⟩ := entry_shape buf len seed
  obtain ⟨l, e, hal, hby⟩ := after_entry_shape (word_loop_entry buf len seed) hb
  have al : ∀ st ∈ (_random_data false buf len seed).stores,
      (st.width = 4 → st.addr % 4 = 0) ∧ (st.width = 2 → st.addr % 2 = 0) := by
    intro st hst
    rw [link, e] at hst
    rcases List.mem_append.1 hst with m | m
    · rcases hs st m with a | ⟨a, b⟩
      · refine ⟨fun w => ?_, fun w => ?_⟩
        · rw [a] at w
          exact absurd w (by decide)
        · rw [a] at w
          exact absurd w (by decide)
      · refine ⟨fun w => ?_, fun _ => b⟩
        rw [a] at w
        exact absurd w (by decide)
    · exact hal st m
  refine ⟨al, ?_, link, ?_⟩
  · rw [List.all_eq_true]
    intro st hst
    obtain ⟨a, b⟩ := al st hst
    unfold Store.aligned
    by_cases w4 : st.width = 4
    · have a4 := a w4
      simp [w4, a4]
    · by_cases w2 : st.width = 2
      · have b2 := b w2
        simp [w2, b2]
      · simp [w4, w2]
  · rcases hb with h0 | h0
    · exact Or.inl h0
    · right
      refine ⟨h0, by omega, ?_⟩
      rw [link, e, List.drop_left]
      exact hby h0

end Odp
